import Mathlib

/-!
Shallow embedding of the SoilRust geotechnical core (soil stratigraphy and
stress integration, experiment idealization for CPT / SPT / MASW / point-load
tests, and the bisection solver for the effective depth), together with proofs
about it.

Modelling conventions:
* Rust `f64` values are modelled as exact rationals (`ℚ`).
* A Rust panic (`panic!`, `.unwrap()` on `None`, `from_i32` on a non-positive
  value) is modelled by returning `none`; fallible functions therefore live in
  `Option`.
* `Result<(), ValidationError>` is modelled as `Option ValidationError`, with
  `none` standing for `Ok(())` and `some e` for `Err(e)`.
* `Result<f64, ValidationError>` is modelled as `ValidationError ⊕ ℚ`.
* Rust `i32`/`u32` are modelled as `ℤ`/`ℕ`; no computation relevant to the
  claims approaches the 32-bit range, so wrap-around is not modelled.
-/

namespace SoilRust

/-- Aggregation policy for idealization (src/enums.rs, `SelectionMethod`). -/
inductive SelectionMethod : Type
| Min : SelectionMethod
| Avg : SelectionMethod
| Max : SelectionMethod
deriving DecidableEq, Repr

/-- Structured validation error (src/validation.rs, `ValidationError`). -/
structure ValidationError : Type where
  code : String
  message : String
deriving DecidableEq, Repr

/-- src/validation.rs, `validate_field`, instantiated at ℚ-valued fields.
`none` is `Ok(())`.  The numeric bound that the Rust code formats into the
`too_small.{min}` / `too_large.{max}` code strings is not reproduced (decimal
formatting of floats is not modelled); no claim inspects the suffix. -/
def validate_field (field_name : String) (value mn mx : Option ℚ) (entity : String) :
    Option ValidationError :=
  match value with
  | none =>
    some { code := entity ++ "." ++ field_name ++ ".missing",
           message := field_name ++ " must be provided." }
  | some val =>
    match mn with
    | some mval =>
      if val < mval then
        some { code := entity ++ "." ++ field_name ++ ".too_small",
               message := field_name ++ " must be greater than or equal to the minimum." }
      else
        match mx with
        | some xval =>
          if xval < val then
            some { code := entity ++ "." ++ field_name ++ ".too_large",
                   message := field_name ++ " must be less than or equal to the maximum." }
          else none
        | none => none
    | none =>
      match mx with
      | some xval =>
        if xval < val then
          some { code := entity ++ "." ++ field_name ++ ".too_large",
                 message := field_name ++ " must be less than or equal to the maximum." }
        else none
      | none => none

/-- src/models/soil_profile.rs, `SoilLayer`.  All fields are `Option<f64>` in
the source; they are kept in the same order. -/
structure SoilLayer : Type where
  thickness : Option ℚ := none
  natural_unit_weight : Option ℚ := none
  dry_unit_weight : Option ℚ := none
  saturated_unit_weight : Option ℚ := none
  depth : Option ℚ := none
  center : Option ℚ := none
  damping_ratio : Option ℚ := none
  fine_content : Option ℚ := none
  liquid_limit : Option ℚ := none
  plastic_limit : Option ℚ := none
  plasticity_index : Option ℚ := none
  cu : Option ℚ := none
  c_prime : Option ℚ := none
  phi_u : Option ℚ := none
  phi_prime : Option ℚ := none
  water_content : Option ℚ := none
  poissons_ratio : Option ℚ := none
  elastic_modulus : Option ℚ := none
  void_ratio : Option ℚ := none
  recompression_index : Option ℚ := none
  compression_index : Option ℚ := none
  preconsolidation_pressure : Option ℚ := none
  mv : Option ℚ := none
  shear_wave_velocity : Option ℚ := none
deriving DecidableEq, Repr

/-- src/models/soil_profile.rs, `SoilLayer::new`. -/
def SoilLayer.new (thickness : ℚ) : SoilLayer :=
  { thickness := some thickness }

/-- One branch of the `match field` dispatch in `SoilLayer::validate_fields`. -/
def SoilLayer.validate_one (l : SoilLayer) (field : String) : Option ValidationError :=
  match field with
  | "thickness" => validate_field "thickness" l.thickness (some (1/10000)) none "soil_profile"
  | "natural_unit_weight" =>
    validate_field "natural_unit_weight" l.natural_unit_weight (some (1/10)) (some 10) "soil_profile"
  | "dry_unit_weight" =>
    validate_field "dry_unit_weight" l.dry_unit_weight (some (1/10)) (some 10) "soil_profile"
  | "saturated_unit_weight" =>
    validate_field "saturated_unit_weight" l.saturated_unit_weight (some (1/10)) (some 10) "soil_profile"
  | "damping_ratio" =>
    validate_field "damping_ratio" l.damping_ratio (some (1/10)) (some 100) "soil_profile"
  | "fine_content" => validate_field "fine_content" l.fine_content (some 0) (some 100) "soil_profile"
  | "liquid_limit" => validate_field "liquid_limit" l.liquid_limit (some 0) (some 100) "soil_profile"
  | "plastic_limit" =>
    validate_field "plastic_limit" l.plastic_limit (some 0) (some 100) "soil_profile"
  | "plasticity_index" =>
    validate_field "plasticity_index" l.plasticity_index (some 0) (some 100) "soil_profile"
  | "cu" => validate_field "cu" l.cu (some 0) none "soil_profile"
  | "c_prime" => validate_field "c_prime" l.c_prime (some 0) none "soil_profile"
  | "phi_u" => validate_field "phi_u" l.phi_u (some 0) (some 90) "soil_profile"
  | "phi_prime" => validate_field "phi_prime" l.phi_prime (some 0) (some 90) "soil_profile"
  | "water_content" =>
    validate_field "water_content" l.water_content (some 0) (some 100) "soil_profile"
  | "poissons_ratio" =>
    validate_field "poissons_ratio" l.poissons_ratio (some (1/10000)) (some (1/2)) "soil_profile"
  | "elastic_modulus" =>
    validate_field "elastic_modulus" l.elastic_modulus (some (1/10000)) none "soil_profile"
  | "void_ratio" => validate_field "void_ratio" l.void_ratio (some 0) none "soil_profile"
  | "compression_index" =>
    validate_field "compression_index" l.compression_index (some 0) none "soil_profile"
  | "recompression_index" =>
    validate_field "recompression_index" l.recompression_index (some 0) none "soil_profile"
  | "preconsolidation_pressure" =>
    validate_field "preconsolidation_pressure" l.preconsolidation_pressure (some 0) none "soil_profile"
  | "mv" => validate_field "mv" l.mv (some 0) none "soil_profile"
  | "shear_wave_velocity" =>
    validate_field "shear_wave_velocity" l.shear_wave_velocity (some 0) none "soil_profile"
  | other =>
    some { code := "soil_profile.invalid_field",
           message := "Field " ++ other ++ " is not valid for SoilLayer." }

/-- src/models/soil_profile.rs, `SoilLayer::validate_fields`: first failing
field wins (the Rust loop propagates the first error with `result?`). -/
def SoilLayer.validate_fields (l : SoilLayer) : List String → Option ValidationError
  | [] => none
  | field :: rest =>
    match l.validate_one field with
    | some e => some e
    | none => l.validate_fields rest

/-- src/models/soil_profile.rs, `SoilProfile`. -/
structure SoilProfile : Type where
  layers : List SoilLayer
  ground_water_level : Option ℚ
deriving DecidableEq, Repr

/-- The loop of `SoilProfile::calc_layer_depths`, carrying the running bottom
depth.  `none` models the panic of `layer.thickness.unwrap()` on a missing
thickness.  Note that the source performs no check on the sign of the
thickness. -/
def calc_layer_depths_go (bottom : ℚ) : List SoilLayer → Option (List SoilLayer)
  | [] => some []
  | layer :: rest =>
    match layer.thickness with
    | none => none
    | some thickness =>
      (calc_layer_depths_go (bottom + thickness) rest).map
        (fun rest2 =>
          ({ layer with center := some (bottom + thickness / 2),
                        depth := some (bottom + thickness) }) :: rest2)

/-- src/models/soil_profile.rs, `SoilProfile::calc_layer_depths`.  The Rust
method mutates `self`; the embedding returns the updated profile.  An empty
profile is returned unchanged (the early `return`). -/
def SoilProfile.calc_layer_depths (sp : SoilProfile) : Option SoilProfile :=
  if sp.layers = [] then some sp
  else (calc_layer_depths_go 0 sp.layers).map (fun ls => { sp with layers := ls })

/-- The search loop of `SoilProfile::get_layer_index`: first index `i` (from
`start`) whose layer has `depth = some d` with `d ≥ depth`; layers with a
missing depth are skipped by the `if let`.  When no layer matches, the Rust
code returns `self.layers.len() - 1`; by the time the recursion reaches `[]`,
`start` is the total length, so `start - 1` is that fallback. -/
def get_layer_index_go (depth : ℚ) : List SoilLayer → Nat → Nat
  | [], start => start - 1
  | layer :: rest, start =>
    match layer.depth with
    | some layer_depth => if layer_depth ≥ depth then start else get_layer_index_go depth rest (start + 1)
    | none => get_layer_index_go depth rest (start + 1)

/-- src/models/soil_profile.rs, `SoilProfile::get_layer_index`.  On an empty
profile the Rust expression `self.layers.len() - 1` underflows (panic in debug
builds); the embedding returns `0` there, and every theorem that touches this
case assumes a non-empty profile. -/
def SoilProfile.get_layer_index (sp : SoilProfile) (depth : ℚ) : Nat :=
  get_layer_index_go depth sp.layers 0

/-- src/models/soil_profile.rs, `SoilProfile::get_layer_at_depth`. -/
def SoilProfile.get_layer_at_depth (sp : SoilProfile) (depth : ℚ) : Option SoilLayer :=
  sp.layers.get? (sp.get_layer_index depth)

/-- The three-way groundwater split inlined in the loop body of
`SoilProfile::calc_normal_stress`: contribution of one layer occupying
`[previous_depth, previous_depth + layer_thickness]` with the given dry and
saturated unit weights. -/
def stress_contribution (gwt previous_depth layer_thickness dry_unit_weight saturated_unit_weight : ℚ) : ℚ :=
  if gwt ≥ previous_depth + layer_thickness then
    dry_unit_weight * layer_thickness
  else if gwt ≤ previous_depth then
    saturated_unit_weight * layer_thickness
  else
    dry_unit_weight * (gwt - previous_depth) +
      saturated_unit_weight * (layer_thickness - (gwt - previous_depth))

/-- The loop of `SoilProfile::calc_normal_stress` over
`layers.iter().take(layer_index + 1).enumerate()`, at position `i` with the
accumulated `previous_depth`.  For `i = layer_index` the partial thickness
`depth - previous_depth` is used and the loop ends (`take` supplies no later
element); earlier layers use their own thickness (`none` models the unwrap
panic).  The unit-weight check (`none` on `dry ≤ 1 ∧ sat ≤ 1`, with missing
weights defaulted to 0 by `unwrap_or`) mirrors the source panic. -/
def calc_normal_stress_go (gwt depth : ℚ) (layer_index : Nat) :
    List SoilLayer → Nat → ℚ → Option ℚ
  | [], _, _ => some 0
  | layer :: rest, i, previous_depth =>
    match (if i = layer_index then some (depth - previous_depth) else layer.thickness) with
    | none => none
    | some layer_thickness =>
      let dry_unit_weight := layer.dry_unit_weight.getD 0
      let saturated_unit_weight := layer.saturated_unit_weight.getD 0
      if dry_unit_weight ≤ 1 ∧ saturated_unit_weight ≤ 1 then none
      else
        let c := stress_contribution gwt previous_depth layer_thickness
          dry_unit_weight saturated_unit_weight
        if i = layer_index then some c
        else
          (calc_normal_stress_go gwt depth layer_index rest (i + 1)
            (previous_depth + layer_thickness)).map (fun s => c + s)

/-- src/models/soil_profile.rs, `SoilProfile::calc_normal_stress`.  `none`
models the panics (missing groundwater level, missing thickness of a fully
traversed layer, or a layer whose dry and saturated unit weights are both
`≤ 1`). -/
def SoilProfile.calc_normal_stress (sp : SoilProfile) (depth : ℚ) : Option ℚ :=
  match sp.ground_water_level with
  | none => none
  | some gwt => calc_normal_stress_go gwt depth (sp.get_layer_index depth) sp.layers 0 0

/-- src/models/soil_profile.rs, `SoilProfile::calc_effective_stress`:
equal to the normal stress at or above the groundwater level, otherwise the
normal stress minus the hydrostatic pore pressure `(depth − gwl) * 0.981`. -/
def SoilProfile.calc_effective_stress (sp : SoilProfile) (depth : ℚ) : Option ℚ :=
  match sp.calc_normal_stress depth with
  | none => none
  | some normal_stress =>
    match sp.ground_water_level with
    | none => none
    | some gwl =>
      if gwl ≥ depth then some normal_stress
      else some (normal_stress - (depth - gwl) * (981/1000))

/-- The per-layer loop of `SoilProfile::validate`: first failing layer wins. -/
def validate_layers_go (fields : List String) : List SoilLayer → Option ValidationError
  | [] => none
  | l :: rest =>
    match l.validate_fields fields with
    | some e => some e
    | none => validate_layers_go fields rest

/-- src/models/soil_profile.rs, `SoilProfile::validate`. -/
def SoilProfile.validate (sp : SoilProfile) (fields : List String) : Option ValidationError :=
  if sp.layers = [] then
    some { code := "soil_profile.empty",
           message := "Soil profile must contain at least one layer." }
  else
    match validate_layers_go fields sp.layers with
    | some e => some e
    | none =>
      validate_field "ground_water_level" sp.ground_water_level (some 0) none "soil_profile"

/-- Sorted duplicate-free insertion of a depth, modelling
`BTreeSet<OrderedFloat<f64>>::insert` (exact equality, no tolerance). -/
def insert_unique_depth (d : ℚ) : List ℚ → List ℚ
  | [] => [d]
  | x :: xs =>
    if d < x then d :: x :: xs
    else if d = x then x :: xs
    else x :: insert_unique_depth d xs

/-- Unwraps a list of optional depths; `none` models the panic of
`depth.unwrap()` on the first record with a missing depth. -/
def unwrap_depths : List (Option ℚ) → Option (List ℚ)
  | [] => some []
  | none :: _ => none
  | some d :: rest => (unwrap_depths rest).map (fun ds => d :: ds)

/-- The `get_mode_value` closure shared by `CPT::get_idealized_exp` and
`Masw::get_idealized_exp`.  The Rust Min/Max cases fold from
`f64::INFINITY` / `f64::NEG_INFINITY`; on a non-empty list that equals the
head-seeded fold used here, and the callers always pass one value per source
experiment with a non-empty `exps`, so the empty case (Rust: the infinity
itself, here: 0) is unreachable.  The Avg case on an empty list is Rust NaN
(0/0); unreachable for the same reason. -/
def get_mode_value (mode : SelectionMethod) (values : List ℚ) : ℚ :=
  match mode with
  | .Min =>
    match values with
    | [] => 0
    | v :: vs => vs.foldl min v
  | .Avg => values.sum / (values.length : ℚ)
  | .Max =>
    match values with
    | [] => 0
    | v :: vs => vs.foldl max v

/-- src/models/cpt.rs, `CPTLayer`. -/
structure CPTLayer : Type where
  depth : Option ℚ
  cone_resistance : Option ℚ
  sleeve_friction : Option ℚ
  pore_pressure : Option ℚ
  friction_ratio : Option ℚ
deriving DecidableEq, Repr

/-- src/models/cpt.rs, `CPTLayer::new`. -/
def CPTLayer.new (depth qc fs : ℚ) (u2 : Option ℚ) : CPTLayer :=
  { depth := some depth, cone_resistance := some qc, sleeve_friction := some fs,
    pore_pressure := u2, friction_ratio := none }

/-- src/models/cpt.rs, `CPTExp`. -/
structure CPTExp : Type where
  layers : List CPTLayer
  name : String
deriving DecidableEq, Repr

/-- src/models/cpt.rs, `CPTExp::new`. -/
def CPTExp.new (layers : List CPTLayer) (name : String) : CPTExp :=
  { layers := layers, name := name }

/-- The `find` of `CPTExp::get_layer_at_depth`; `whole` is the full layer list,
used for the `last().unwrap()` fallback.  `none` models the panics (a missing
depth hit by `exp.depth.unwrap()` during the scan, or an empty list). -/
def cpt_get_layer_at_depth_go (depth : ℚ) (whole : List CPTLayer) :
    List CPTLayer → Option CPTLayer
  | [] => whole.getLast?
  | layer :: rest =>
    match layer.depth with
    | none => none
    | some d => if d ≥ depth then some layer else cpt_get_layer_at_depth_go depth whole rest

/-- src/models/cpt.rs, `CPTExp::get_layer_at_depth`: first layer whose depth is
`≥ depth`, else the last layer. -/
def CPTExp.get_layer_at_depth (exp : CPTExp) (depth : ℚ) : Option CPTLayer :=
  cpt_get_layer_at_depth_go depth exp.layers exp.layers

/-- src/models/cpt.rs, `CPT`. -/
structure CPT : Type where
  exps : List CPTExp
  idealization_method : SelectionMethod
deriving DecidableEq, Repr

/-- One pass of the sampling loop in `CPT::get_idealized_exp`: for a given
merged depth, sample every experiment with its own nearest-depth lookup and
collect `(qc, fs, u2)`, substituting 0 for a missing pore pressure
(`unwrap_or(0.0)`). -/
def cpt_sample_at (exps : List CPTExp) (depth : ℚ) : Option (List (ℚ × ℚ × ℚ)) :=
  exps.mapM (fun exp => do
    let layer ← exp.get_layer_at_depth depth
    let qc ← layer.cone_resistance
    let fs ← layer.sleeve_friction
    pure (qc, fs, layer.pore_pressure.getD 0))

/-- src/models/cpt.rs, `CPT::get_idealized_exp`. -/
def CPT.get_idealized_exp (cpt : CPT) (name : String) : Option CPTExp :=
  if cpt.exps = [] then some (CPTExp.new [] name)
  else do
    let ds ← unwrap_depths (cpt.exps.flatMap (fun exp => exp.layers.map (fun l => l.depth)))
    let sorted_depths := ds.foldl (fun acc d => insert_unique_depth d acc) []
    let layers ← sorted_depths.mapM (fun depth => do
      let samples ← cpt_sample_at cpt.exps depth
      let qc := get_mode_value cpt.idealization_method (samples.map (fun s => s.1))
      let fs := get_mode_value cpt.idealization_method (samples.map (fun s => s.2.1))
      let u2 := get_mode_value cpt.idealization_method (samples.map (fun s => s.2.2))
      pure (CPTLayer.new depth qc fs (some u2)))
    pure (CPTExp.new layers name)

/-- src/models/spt.rs, `NValue`: a blow count or a refusal. -/
inductive NValue : Type
| Value : ℤ → NValue
| Refusal : NValue
deriving DecidableEq, Repr

/-- src/models/spt.rs, `NValue::from_i32`; `none` models the panic on a
non-positive count. -/
def NValue.from_i32 (n : ℤ) : Option NValue :=
  if n ≤ 0 then none else some (NValue.Value n)

/-- src/models/spt.rs, `NValue::to_i32` (refusal mapped to 50). -/
def NValue.to_i32 : NValue → ℤ
  | NValue.Value n => n
  | NValue.Refusal => 50

/-- src/models/spt.rs, `NValue::to_option` (refusal mapped to `Some 50`). -/
def NValue.to_option : NValue → Option ℤ
  | NValue.Value n => some n
  | NValue.Refusal => some 50

/-- src/models/spt.rs, `NValue::sum_with` (refusal absorbs). -/
def NValue.sum_with : NValue → NValue → NValue
  | NValue.Value n1, NValue.Value n2 => NValue.Value (n1 + n2)
  | _, _ => NValue.Refusal

/-- src/models/spt.rs, `impl Ord for NValue`: refusal outranks every numeric
value; numbers compare as integers. -/
def NValue.cmp : NValue → NValue → Ordering
  | NValue.Refusal, NValue.Refusal => Ordering.eq
  | NValue.Refusal, _ => Ordering.gt
  | _, NValue.Refusal => Ordering.lt
  | NValue.Value a, NValue.Value b => compare a b

/-- src/models/spt.rs, `SPTBlow`; `n1`, `n2`, `n3`, `n`, `n60`, `n90`,
`n1_60`, `n1_60f` are optional `NValue`s as in the source. -/
structure SPTBlow : Type where
  thickness : Option ℚ := none
  depth : Option ℚ := none
  n1 : Option NValue := none
  n2 : Option NValue := none
  n3 : Option NValue := none
  n : Option NValue := none
  n60 : Option NValue := none
  n90 : Option NValue := none
  n1_60 : Option NValue := none
  n1_60f : Option NValue := none
  cn : Option ℚ := none
  alpha : Option ℚ := none
  beta : Option ℚ := none
deriving DecidableEq, Repr

/-- src/models/spt.rs, `SPTBlow::new` (`n` is precomputed as `n2 + n3`). -/
def SPTBlow.new (depth : ℚ) (m1 m2 m3 : NValue) : SPTBlow :=
  { depth := some depth, n1 := some m1, n2 := some m2, n3 := some m3,
    n := some (m2.sum_with m3) }

/-- src/models/spt.rs, `SPTExp`. -/
structure SPTExp : Type where
  blows : List SPTBlow
  name : String
deriving DecidableEq, Repr

/-- src/models/spt.rs, `SPTExp::new`. -/
def SPTExp.new (blows : List SPTBlow) (name : String) : SPTExp :=
  { blows := blows, name := name }

/-- src/models/spt.rs, `SPT` (the collection). -/
structure SPT : Type where
  exps : List SPTExp
  energy_correction_factor : Option ℚ := none
  diameter_correction_factor : Option ℚ := none
  sampler_correction_factor : Option ℚ := none
  rod_length_correction_factor : Option ℚ := none
  idealization_method : SelectionMethod
deriving DecidableEq, Repr

/-- Depth-keyed map insertion, modelling
`BTreeMap::entry(depth).or_default().push(v)`: the map is a depth-sorted
association list and a new value is appended at the end of its depth's
bucket. -/
def depth_map_insert {α : Type} (d : ℚ) (v : α) :
    List (ℚ × List α) → List (ℚ × List α)
  | [] => [(d, [v])]
  | (d0, vs) :: rest =>
    if d < d0 then (d, [v]) :: (d0, vs) :: rest
    else if d = d0 then (d0, vs ++ [v]) :: rest
    else (d0, vs) :: depth_map_insert d v rest

/-- The collection loop of `SPT::get_idealized_exp` over one experiment:
every blow contributes its `n` under its exact depth (`none` models the
`depth.unwrap()` / `n.unwrap()` panics). -/
def spt_collect_blows : List (ℚ × List NValue) → List SPTBlow →
    Option (List (ℚ × List NValue))
  | m, [] => some m
  | m, blow :: rest => do
    let d ← blow.depth
    let n ← blow.n
    spt_collect_blows (depth_map_insert d n m) rest

/-- The full depth map of `SPT::get_idealized_exp`, over all experiments in
order. -/
def spt_build_map : List (ℚ × List NValue) → List SPTExp →
    Option (List (ℚ × List NValue))
  | m, [] => some m
  | m, exp :: rest => do
    let m2 ← spt_collect_blows m exp.blows
    spt_build_map m2 rest

/-- Rust `f64::round`: nearest integer, ties away from zero. -/
def round_half_away (q : ℚ) : ℤ :=
  if 0 ≤ q then ⌊q + 1/2⌋ else ⌈q - 1/2⌉

/-- The `selected_n` match of `SPT::get_idealized_exp`.  Min/Max use the
`NValue` order (Rust `Iterator::min` keeps the first minimal element,
`Iterator::max` the last maximal one; `none` models the `unwrap` on an empty
bucket, which never occurs).  Avg maps refusal to 50 via `to_option`,
averages, rounds half away from zero (`f64::round`) and re-enters through
`from_i32` (whose panic on a non-positive mean is `none`). -/
def spt_selected_n (mode : SelectionMethod) (n_values : List NValue) : Option NValue :=
  match mode with
  | .Min =>
    match n_values with
    | [] => none
    | v :: vs => some (vs.foldl (fun acc x => if NValue.cmp x acc = Ordering.lt then x else acc) v)
  | .Max =>
    match n_values with
    | [] => none
    | v :: vs => some (vs.foldl (fun acc x => if NValue.cmp x acc = Ordering.lt then acc else x) v)
  | .Avg =>
    let sum : ℚ := (n_values.filterMap (fun n => n.to_option.map (fun v => (v : ℚ)))).sum
    let count := n_values.length
    NValue.from_i32 (round_half_away (sum / (count : ℚ)))

/-- src/models/spt.rs, `SPT::get_idealized_exp`: group all blows by exact
depth, select one `n` per depth by the policy, and emit placeholder-filled
blows in ascending depth order. -/
def SPT.get_idealized_exp (spt : SPT) (name : String) : Option SPTExp := do
  let m ← spt_build_map [] spt.exps
  let blows ← m.mapM (fun p => do
    let selected ← spt_selected_n spt.idealization_method p.2
    pure ({ depth := some p.1, n1 := some (NValue.Value 0), n2 := some (NValue.Value 0),
            n3 := some (NValue.Value 0), n := some selected } : SPTBlow))
  pure (SPTExp.new blows name)

/-- src/models/point_load_test.rs, `PointLoadSample`. -/
structure PointLoadSample : Type where
  depth : Option ℚ := none
  sample_no : Option ℕ := none
  p : Option ℚ := none
  is : Option ℚ := none
  f : Option ℚ := none
  is50 : Option ℚ := none
  l : Option ℚ := none
  d : Option ℚ := none
deriving DecidableEq, Repr

/-- src/models/point_load_test.rs, `PointLoadSample::new`. -/
def PointLoadSample.new (depth is50 d : ℚ) : PointLoadSample :=
  { depth := some depth, is50 := some is50, d := some d }

/-- src/models/point_load_test.rs, `PointLoadExp`. -/
structure PointLoadExp : Type where
  borehole_id : String
  samples : List PointLoadSample
deriving DecidableEq, Repr

/-- src/models/point_load_test.rs, `PointLoadExp::new`. -/
def PointLoadExp.new (borehole_id : String) (samples : List PointLoadSample) : PointLoadExp :=
  { borehole_id := borehole_id, samples := samples }

/-- The `find` of `PointLoadExp::get_sample_at_depth`, with the
`last().unwrap()` fallback; `none` models the panics. -/
def plt_get_sample_at_depth_go (depth : ℚ) (whole : List PointLoadSample) :
    List PointLoadSample → Option PointLoadSample
  | [] => whole.getLast?
  | sample :: rest =>
    match sample.depth with
    | none => none
    | some d => if d ≥ depth then some sample else plt_get_sample_at_depth_go depth whole rest

/-- src/models/point_load_test.rs, `PointLoadExp::get_sample_at_depth`. -/
def PointLoadExp.get_sample_at_depth (exp : PointLoadExp) (depth : ℚ) : Option PointLoadSample :=
  plt_get_sample_at_depth_go depth exp.samples exp.samples

/-- src/models/point_load_test.rs, `PointLoadTest`. -/
structure PointLoadTest : Type where
  exps : List PointLoadExp
  idealization_method : SelectionMethod
deriving DecidableEq, Repr

/-- The collection loop of `PointLoadTest::get_idealized_exp` over one
borehole: every sample contributes its `(is50, d)` pair under its exact
depth. -/
def plt_collect_samples : List (ℚ × List (ℚ × ℚ)) → List PointLoadSample →
    Option (List (ℚ × List (ℚ × ℚ)))
  | m, [] => some m
  | m, sample :: rest => do
    let dep ← sample.depth
    let i50 ← sample.is50
    let dia ← sample.d
    plt_collect_samples (depth_map_insert dep (i50, dia) m) rest

/-- The full depth map of `PointLoadTest::get_idealized_exp`. -/
def plt_build_map : List (ℚ × List (ℚ × ℚ)) → List PointLoadExp →
    Option (List (ℚ × List (ℚ × ℚ)))
  | m, [] => some m
  | m, exp :: rest => do
    let m2 ← plt_collect_samples m exp.samples
    plt_build_map m2 rest

/-- The `selected_is50` match of `PointLoadTest::get_idealized_exp`:
`min_by_key` / `max_by_key` on the `is50` component (Rust keeps the first
minimal and the last maximal element), or the componentwise average.  `none`
models the `unwrap` on an empty bucket, which never occurs; the Avg case on an
empty bucket is Rust NaN (0/0), also unreachable. -/
def plt_selected (mode : SelectionMethod) (pairs : List (ℚ × ℚ)) : Option (ℚ × ℚ) :=
  match mode with
  | .Min =>
    match pairs with
    | [] => none
    | v :: vs => some (vs.foldl (fun acc x => if x.1 < acc.1 then x else acc) v)
  | .Max =>
    match pairs with
    | [] => none
    | v :: vs => some (vs.foldl (fun acc x => if x.1 < acc.1 then acc else x) v)
  | .Avg =>
    let count : ℚ := (pairs.length : ℚ)
    some ((pairs.map (fun x => x.1)).sum / count, (pairs.map (fun x => x.2)).sum / count)

/-- src/models/point_load_test.rs, `PointLoadTest::get_idealized_exp`. -/
def PointLoadTest.get_idealized_exp (plt : PointLoadTest) (name : String) :
    Option PointLoadExp :=
  if plt.exps = [] then some (PointLoadExp.new name [])
  else do
    let m ← plt_build_map [] plt.exps
    let samples ← m.mapM (fun p => do
      let sel ← plt_selected plt.idealization_method p.2
      pure (PointLoadSample.new p.1 sel.1 sel.2))
    pure (PointLoadExp.new name samples)

/-- src/models/masw.rs, `MaswLayer`. -/
structure MaswLayer : Type where
  thickness : Option ℚ
  vs : Option ℚ
  vp : Option ℚ
  depth : Option ℚ
deriving DecidableEq, Repr

/-- src/models/masw.rs, `MaswLayer::new` (depth left unset). -/
def MaswLayer.new (thickness vs vp : ℚ) : MaswLayer :=
  { thickness := some thickness, vs := some vs, vp := some vp, depth := none }

/-- src/models/masw.rs, `MaswExp`. -/
structure MaswExp : Type where
  layers : List MaswLayer
  name : String
deriving DecidableEq, Repr

/-- The loop of `MaswExp::calc_depths`; `none` models the panics (missing
thickness, or a thickness `≤ 0`). -/
def masw_calc_depths_go (bottom : ℚ) : List MaswLayer → Option (List MaswLayer)
  | [] => some []
  | layer :: rest =>
    match layer.thickness with
    | none => none
    | some thickness =>
      if thickness ≤ 0 then none
      else
        (masw_calc_depths_go (bottom + thickness) rest).map
          (fun rest2 => ({ layer with depth := some (bottom + thickness) }) :: rest2)

/-- src/models/masw.rs, `MaswExp::calc_depths`, returning the updated
experiment (the Rust method mutates `self`; empty layer lists are returned
unchanged by the early `return`). -/
def MaswExp.calc_depths (e : MaswExp) : Option MaswExp :=
  if e.layers = [] then some e
  else (masw_calc_depths_go 0 e.layers).map (fun ls => { e with layers := ls })

/-- src/models/masw.rs, `MaswExp::new`, which immediately calls
`calc_depths`. -/
def MaswExp.new (layers : List MaswLayer) (name : String) : Option MaswExp :=
  MaswExp.calc_depths { layers := layers, name := name }

/-- The `find` of `MaswExp::get_layer_at_depth`, with the `last().unwrap()`
fallback; `none` models the panics. -/
def masw_get_layer_at_depth_go (depth : ℚ) (whole : List MaswLayer) :
    List MaswLayer → Option MaswLayer
  | [] => whole.getLast?
  | layer :: rest =>
    match layer.depth with
    | none => none
    | some d => if d ≥ depth then some layer else masw_get_layer_at_depth_go depth whole rest

/-- src/models/masw.rs, `MaswExp::get_layer_at_depth`. -/
def MaswExp.get_layer_at_depth (exp : MaswExp) (depth : ℚ) : Option MaswLayer :=
  masw_get_layer_at_depth_go depth exp.layers exp.layers

/-- src/models/masw.rs, `Masw`. -/
structure Masw : Type where
  exps : List MaswExp
  idealization_method : SelectionMethod
deriving DecidableEq, Repr

/-- src/models/masw.rs, `Masw::calc_depths`: recomputes (and stores) the
depths of every source experiment. -/
def Masw.calc_depths (masw : Masw) : Option Masw :=
  (masw.exps.mapM MaswExp.calc_depths).map (fun es => { masw with exps := es })

/-- src/models/masw.rs, `Masw::get_idealized_exp`.  The Rust method takes
`&mut self` and begins with `self.calc_depths()`, so it both returns the
idealized experiment and updates the collection; the embedding returns the
pair (result, updated collection). -/
def Masw.get_idealized_exp (masw : Masw) (name : String) : Option (MaswExp × Masw) :=
  if masw.exps = [] then (MaswExp.new [] name).map (fun e => (e, masw))
  else do
    let masw2 ← masw.calc_depths
    let ds ← unwrap_depths (masw2.exps.flatMap (fun exp => exp.layers.map (fun l => l.depth)))
    let sorted_depths := ds.foldl (fun acc d => insert_unique_depth d acc) [0]
    let pairs := sorted_depths.zip sorted_depths.tail
    let layers ← pairs.mapM (fun pr => do
      let top := pr.1
      let bottom := pr.2
      let thickness := bottom - top
      let vals ← masw2.exps.mapM (fun exp => do
        let layer ← exp.get_layer_at_depth ((top + bottom) / 2)
        let vs ← layer.vs
        let vp ← layer.vp
        pure (vs, vp))
      pure (MaswLayer.new thickness
        (get_mode_value masw.idealization_method (vals.map (fun v => v.1)))
        (get_mode_value masw.idealization_method (vals.map (fun v => v.2)))))
    let out ← MaswExp.new layers name
    pure (out, masw2)

/-- src/models/foundation.rs, `Foundation`. -/
structure Foundation : Type where
  foundation_depth : Option ℚ := none
  foundation_length : Option ℚ := none
  foundation_width : Option ℚ := none
  foundation_area : Option ℚ := none
  base_tilt_angle : Option ℚ := none
  slope_angle : Option ℚ := none
  effective_length : Option ℚ := none
  effective_width : Option ℚ := none
  surface_friction_coefficient : Option ℚ := none
deriving DecidableEq, Repr

/-- One branch of the `match field` dispatch in `Foundation::validate`. -/
def Foundation.validate_one (fd : Foundation) (field : String) : Option ValidationError :=
  match field with
  | "foundation_depth" =>
    validate_field "foundation_depth" fd.foundation_depth (some 0) none "foundation"
  | "foundation_length" =>
    validate_field "foundation_length" fd.foundation_length (some (1/10000)) none "foundation"
  | "foundation_width" =>
    validate_field "foundation_width" fd.foundation_width (some (1/1000)) fd.foundation_length "foundation"
  | "foundation_area" =>
    validate_field "foundation_area" fd.foundation_area (some (1/1000)) none "foundation"
  | "base_tilt_angle" =>
    validate_field "base_tilt_angle" fd.base_tilt_angle (some 0) (some 45) "foundation"
  | "slope_angle" =>
    validate_field "slope_angle" fd.slope_angle (some 0) (some 90) "foundation"
  | "effective_width" =>
    validate_field "effective_width" fd.effective_width (some 0) none "foundation"
  | "effective_length" =>
    validate_field "effective_length" fd.effective_length (some 0) none "foundation"
  | "surface_friction_coefficient" =>
    validate_field "surface_friction_coefficient" fd.surface_friction_coefficient (some 0) (some 1) "foundation"
  | _ =>
    some { code := "foundation.invalid_field",
           message := "Field is not valid for Foundation." }

/-- src/models/foundation.rs, `Foundation::validate`: first failing field
wins. -/
def Foundation.validate (fd : Foundation) : List String → Option ValidationError
  | [] => none
  | field :: rest =>
    match fd.validate_one field with
    | some e => some e
    | none => fd.validate rest

/-- src/effective_depth.rs, `validate_input`. -/
def validate_input (soil_profile : SoilProfile) (foundation : Foundation)
    (foundation_pressure : ℚ) : Option ValidationError :=
  match soil_profile.validate ["thickness", "dry_unit_weight", "saturated_unit_weight"] with
  | some e => some e
  | none =>
    match foundation.validate ["foundation_depth", "foundation_width", "foundation_length"] with
    | some e => some e
    | none =>
      validate_field "foundation_pressure" (some foundation_pressure) (some 0) none "loads"

/-- src/effective_depth.rs, `get_difference`: stress increment minus 10% of
effective stress at depth `z`.  `none` models the panics inside
`calc_effective_stress`.  (A zero denominator is Rust ±∞ but 0 in ℚ; no claim
exercises that point.) -/
def get_difference (z f b df l : ℚ) (sp : SoilProfile) : Option ℚ :=
  (sp.calc_effective_stress z).map
    (fun effective_stress => f / ((b + z - df) * (l + z - df)) - (1/10) * effective_stress)

/-- The `while` loop of `find_effective_depth`.  The loop guard is
`|f(middle)| > 0.01 ∧ n < 100`; inside, `n` is incremented first, the
collapse guard (`boundary1 = boundary2 = middle` after more than 10
iterations) returns `0.0`, and otherwise the boundary sharing the midpoint
sign is replaced.  `fuel` is only a structural-termination bound: the loop
body can run at most 100 times (the guard requires `n < 100`), so any
`fuel ≥ 101 - n` makes the fuel-exhaustion branch unreachable. -/
def find_effective_depth_loop (f b df l : ℚ) (sp : SoilProfile) :
    Nat → ℚ → ℚ → ℚ → Nat → Option ℚ
  | 0, _, _, middle, _ => some middle
  | fuel + 1, boundary1, boundary2, middle, n => do
    let g ← get_difference middle f b df l sp
    if |g| > 1/100 ∧ n < 100 then
      if boundary1 = boundary2 ∧ boundary1 = middle ∧ n + 1 > 10 then some 0
      else if g > 0 then
        find_effective_depth_loop f b df l sp fuel middle boundary2
          ((middle + boundary2) / 2) (n + 1)
      else
        find_effective_depth_loop f b df l sp fuel boundary1 middle
          ((boundary1 + middle) / 2) (n + 1)
    else some middle

/-- Exit marker distinguishing the three ways the bisection loop can return
(a verification artifact, not part of the source): the bracket-collapse
guard, the tolerance test, or the 100-iteration cap with the tolerance still
unmet. -/
inductive SolverExit : Type
| collapse : SolverExit
| tolerance : SolverExit
| cap : SolverExit
deriving DecidableEq, Repr

/-- Instrumented copy of `find_effective_depth_loop` (a verification artifact,
not part of the source): identical control flow, but the returned marker
records which exit produced the result; the fuel-exhaustion branch (which the
callers make unreachable) is marked like the cap. -/
def find_effective_depth_loop_flag (f b df l : ℚ) (sp : SoilProfile) :
    Nat → ℚ → ℚ → ℚ → Nat → Option (ℚ × SolverExit)
  | 0, _, _, middle, _ => some (middle, SolverExit.cap)
  | fuel + 1, boundary1, boundary2, middle, n => do
    let g ← get_difference middle f b df l sp
    if |g| > 1/100 ∧ n < 100 then
      if boundary1 = boundary2 ∧ boundary1 = middle ∧ n + 1 > 10 then
        some (0, SolverExit.collapse)
      else if g > 0 then
        find_effective_depth_loop_flag f b df l sp fuel middle boundary2
          ((middle + boundary2) / 2) (n + 1)
      else
        find_effective_depth_loop_flag f b df l sp fuel boundary1 middle
          ((boundary1 + middle) / 2) (n + 1)
    else some (middle, if |g| > 1/100 then SolverExit.cap else SolverExit.tolerance)

/-- src/effective_depth.rs, `find_effective_depth`: initial bracket
`[df, df + 1.5 b]`, midpoint taken before the re-bracketing check, upper
boundary widened to `100 b` when both endpoint differences share a sign. -/
def find_effective_depth (f b df l : ℚ) (sp : SoilProfile) : Option ℚ := do
  let boundary1 := df
  let boundary2 := df + (3/2) * b
  let middle := (boundary1 + boundary2) / 2
  let g1 ← get_difference boundary1 f b df l sp
  let g2 ← get_difference boundary2 f b df l sp
  let boundary2a := if g1 * g2 > 0 then 100 * b else boundary2
  find_effective_depth_loop f b df l sp 101 boundary1 boundary2a middle 0

/-- The instrumented counterpart of `find_effective_depth` (verification
artifact): same result, plus the exit marker. -/
def find_effective_depth_flag (f b df l : ℚ) (sp : SoilProfile) : Option (ℚ × SolverExit) := do
  let boundary1 := df
  let boundary2 := df + (3/2) * b
  let middle := (boundary1 + boundary2) / 2
  let g1 ← get_difference boundary1 f b df l sp
  let g2 ← get_difference boundary2 f b df l sp
  let boundary2a := if g1 * g2 > 0 then 100 * b else boundary2
  find_effective_depth_loop_flag f b df l sp 101 boundary1 boundary2a middle 0

/-- src/effective_depth.rs, `calc_effective_depth`: validation first
(`Sum.inl` is `Err`), then the q-net computation and the solver; `none`
models the panics reachable through `calc_normal_stress`. -/
def calc_effective_depth (soil_profile : SoilProfile) (foundation_data : Foundation)
    (foundation_pressure : ℚ) : Option (ValidationError ⊕ ℚ) :=
  match validate_input soil_profile foundation_data foundation_pressure with
  | some e => some (Sum.inl e)
  | none => do
    let df ← foundation_data.foundation_depth
    let b ← foundation_data.foundation_width
    let l ← foundation_data.foundation_length
    let ns ← soil_profile.calc_normal_stress df
    let q_net := foundation_pressure - ns
    let f := q_net * b * l
    let result ← find_effective_depth f b df l soil_profile
    pure (Sum.inr result)

/-- Sum of the (defaulted) thicknesses of the first `i` layers; used to state
the depth/center characterization of `calc_layer_depths`. -/
def thickness_sum (ls : List SoilLayer) (i : Nat) : ℚ :=
  ((ls.take i).map (fun l => l.thickness.getD 0)).sum

/-! ## Concrete example data for witnesses and counterexamples -/

/-- A two-zone single-layer profile: 1 m of dry soil above GWL = 1 m, then
saturated soil, with depths already computed. -/
def exProfile1 : SoilProfile :=
  { layers := [{ thickness := some 5, dry_unit_weight := some 2,
                 saturated_unit_weight := some (11/5), depth := some 5, center := some (5/2) }],
    ground_water_level := some 1 }

/-- A profile whose single layer has both unit weights `≤ 1` (the panic case of
`calc_normal_stress`). -/
def exProfileBothLow : SoilProfile :=
  { layers := [{ thickness := some 1, dry_unit_weight := some (1/2),
                 saturated_unit_weight := some (9/10), depth := some 1, center := some (1/2) }],
    ground_water_level := some 0 }

/-- A profile submerged from the surface (GWL = 0) whose single layer has
governing (saturated) unit weight `1/2 ≤ 0.981` but dry unit weight `2 > 1`. -/
def exProfileLowGoverning : SoilProfile :=
  { layers := [{ thickness := some 1, dry_unit_weight := some 2,
                 saturated_unit_weight := some (1/2), depth := some 1, center := some (1/2) }],
    ground_water_level := some 0 }

/-- A MASW collection whose single experiment has its layer depth not yet
computed. -/
def exMaswUncomputed : Masw :=
  { exps := [{ layers := [{ thickness := some 1, vs := some 100, vp := some 200, depth := none }],
               name := "m1" }],
    idealization_method := SelectionMethod.Min }

/-- The same MASW collection with the layer depth already computed (a fixed
point of `calc_depths`). -/
def exMaswComputed : Masw :=
  { exps := [{ layers := [{ thickness := some 1, vs := some 100, vp := some 200, depth := some 1 }],
               name := "m1" }],
    idealization_method := SelectionMethod.Min }

/-- Association lookup in a depth map (verification artifact, used to state
which values `get_idealized_exp` groups under a given depth). -/
def depth_map_lookup {α : Type} (d : ℚ) : List (ℚ × List α) → Option (List α)
  | [] => none
  | (d0, vs) :: rest => if d = d0 then some vs else depth_map_lookup d rest

/-- The values that the records of all SPT experiments contribute at exactly
depth `d` (verification artifact, used to state the exact-depth grouping of
`SPT::get_idealized_exp`). -/
def spt_values_at (exps : List SPTExp) (d : ℚ) : List NValue :=
  (exps.flatMap (fun e => e.blows)).filterMap
    (fun b => if b.depth = some d then b.n else none)

/-- The `(is50, d)` pairs that the samples of all point-load experiments
contribute at exactly depth `dep` (verification artifact). -/
def plt_values_at (exps : List PointLoadExp) (dep : ℚ) : List (ℚ × ℚ) :=
  (exps.flatMap (fun e => e.samples)).filterMap
    (fun s => if s.depth = some dep then
        match s.is50, s.d with
        | some i, some dia => some (i, dia)
        | _, _ => none
      else none)

/-- Nearest-depth sampling of one SPT experiment, following the spec wording
(first blow with depth ≥ d, else the last blow).  Modelled from the spec: the
source has no such lookup for SPT — `SPT::get_idealized_exp` groups by exact
depth — and this definition exists only to compare the spec's claim with the
source behaviour. -/
def spec_spt_blow_at_depth (exp : SPTExp) (d : ℚ) : Option SPTBlow :=
  match exp.blows.find? (fun b => b.depth.getD 0 ≥ d) with
  | some b => some b
  | none => exp.blows.getLast?

/-- The soil profile of the effective-depth example: one thick dry layer
(GWL far below), depths computed. -/
def exProfileC6 : SoilProfile :=
  { layers := [{ thickness := some 1000, dry_unit_weight := some 2,
                 saturated_unit_weight := some (21/10), depth := some 1000, center := some 500 }],
    ground_water_level := some 2000 }

/-- The foundation of the effective-depth example: depth 300 m, width and
length 1 m (extreme but passing every validation bound). -/
def exFoundationC6 : Foundation :=
  { foundation_depth := some 300, foundation_length := some 1, foundation_width := some 1 }

/-- The foundation pressure of the effective-depth example (t/m²): chosen so
that the re-bracketed bisection lands exactly on a root below the foundation
depth. -/
def exPressureC6 : ℚ := 999437163/2560

/-- Sum of the (defaulted) thicknesses of the first `i` MASW layers; used to
state the depth characterization of `MaswExp::calc_depths`. -/
def masw_thickness_sum (ls : List MaswLayer) (i : Nat) : ℚ :=
  ((ls.take i).map (fun l => l.thickness.getD 0)).sum

/-- A two-layer CPT experiment used in the single-source identity witness. -/
def exCptC5 : CPTExp :=
  { layers := [CPTLayer.new 1 10 2 (some 3), CPTLayer.new 2 20 4 (some 5)], name := "cpt1" }

/-- A two-blow SPT experiment with finite counts, used in the single-source
identity witness. -/
def exSptC5 : SPTExp :=
  { blows := [SPTBlow.new 1 (NValue.Value 2) (NValue.Value 3) (NValue.Value 4),
              SPTBlow.new 2 (NValue.Value 5) (NValue.Value 6) (NValue.Value 7)],
    name := "spt1" }

/-- A two-sample point-load borehole used in the single-source identity
witness. -/
def exPltC5 : PointLoadExp :=
  { borehole_id := "bh1", samples := [PointLoadSample.new 1 5 50, PointLoadSample.new 2 6 60] }

/-- A two-layer MASW experiment used in the single-source identity witness. -/
def exMaswC5 : MaswExp :=
  { layers := [MaswLayer.new 1 100 200, MaswLayer.new 2 150 300], name := "masw1" }

/-- A single-experiment SPT collection whose only blow is a refusal, idealized
under the Avg policy (the identity fails: a refusal averages to 50). -/
def exSptRefusal : SPT :=
  { exps := [{ blows := [{ depth := some 1, n := some NValue.Refusal }], name := "spt1" }],
    idealization_method := SelectionMethod.Avg }

/-- The idealized experiment the Avg policy produces from `exSptRefusal`: the
refusal has become the numeric ceiling 50. -/
def exSptRefusalIdealized : SPTExp :=
  SPTExp.new
    [{ depth := some 1, n1 := some (NValue.Value 0), n2 := some (NValue.Value 0), n3 := some (NValue.Value 0), n := some (NValue.Value 50) }]
    "ideal"

/-- A two-experiment SPT collection: borehole e1 has blows at depths 1 and 2,
borehole e2 has a single blow at depth 3/2.  Used to separate exact-depth
grouping from the nearest-depth sampling the spec describes. -/
def exSptC1 : SPT :=
  { exps := [{ blows := [{ depth := some 1, n := some (NValue.Value 3) }, { depth := some 2, n := some (NValue.Value 7) }], name := "e1" },
             { blows := [{ depth := some (3/2), n := some (NValue.Value 9) }], name := "e2" }],
    idealization_method := SelectionMethod.Min }

/-- The experiment `SPT::get_idealized_exp` actually produces from `exSptC1`
under Min: at depth 3/2 only the exact-depth value 9 of e2 contributes. -/
def exSptC1Idealized : SPTExp :=
  SPTExp.new
    [{ depth := some 1, n1 := some (NValue.Value 0), n2 := some (NValue.Value 0), n3 := some (NValue.Value 0), n := some (NValue.Value 3) },
     { depth := some (3/2), n1 := some (NValue.Value 0), n2 := some (NValue.Value 0), n3 := some (NValue.Value 0), n := some (NValue.Value 9) },
     { depth := some 2, n1 := some (NValue.Value 0), n2 := some (NValue.Value 0), n3 := some (NValue.Value 0), n := some (NValue.Value 7) }]
    "ideal"

/-- A one-layer CPT collection for the sampling-characterization witness. -/
def exCptC1W : CPT :=
  { exps := [{ layers := [CPTLayer.new 1 2 3 (some 4)], name := "c" }],
    idealization_method := SelectionMethod.Min }

/-- A one-blow SPT collection for the sampling-characterization witness. -/
def exSptC1W : SPT :=
  { exps := [{ blows := [{ depth := some 1, n := some (NValue.Value 5) }], name := "w" }],
    idealization_method := SelectionMethod.Min }

/-- The idealized experiment produced from `exSptC1W`. -/
def exSptC1WIdealized : SPTExp :=
  SPTExp.new
    [{ depth := some 1, n1 := some (NValue.Value 0), n2 := some (NValue.Value 0), n3 := some (NValue.Value 0), n := some (NValue.Value 5) }]
    "ideal"

/-- A one-sample point-load collection for the sampling-characterization
witness. -/
def exPltC1W : PointLoadTest :=
  { exps := [{ borehole_id := "b", samples := [PointLoadSample.new 1 5 50] }],
    idealization_method := SelectionMethod.Min }

/-! ## Theorems -/

/-- Unfolding lemma for `thickness_sum` on a cons cell. -/
theorem thickness_sum_cons (hd : SoilLayer) (tl : List SoilLayer) (i : Nat) :
    thickness_sum (hd :: tl) (i + 1) = hd.thickness.getD 0 + thickness_sum tl i := by
  simp [thickness_sum, List.take]

/-- Helper: `calc_layer_depths_go` succeeds on any list of layers whose
thicknesses are all present (no sign condition), and labels layer `i` with
bottom depth `bottom + thickness_sum (i+1)` and center
`bottom + thickness_sum i + thickness/2`. -/
theorem calc_layer_depths_go_spec (ls : List SoilLayer) :
    ∀ bottom : ℚ, (∀ layer ∈ ls, layer.thickness.isSome) →
    ∃ out, calc_layer_depths_go bottom ls = some out ∧
      out.length = ls.length ∧
      ∀ i layer, ls.get? i = some layer →
        out.get? i = some { layer with
          center := some (bottom + thickness_sum ls i + layer.thickness.getD 0 / 2),
          depth := some (bottom + thickness_sum ls (i + 1)) } := by
  induction ls with
  | nil =>
    intro bottom _
    exact ⟨[], rfl, rfl, fun i layer h => by simp at h⟩
  | cons hd tl ih =>
    intro bottom hall
    obtain ⟨t, ht⟩ := Option.isSome_iff_exists.mp (hall hd (by simp))
    obtain ⟨out, hout, hlen, hidx⟩ :=
      ih (bottom + t) (fun layer hmem => hall layer (by simp [hmem]))
    refine ⟨({ hd with center := some (bottom + t / 2), depth := some (bottom + t) }) :: out,
      ?_, by simp [hlen], ?_⟩
    · simp [calc_layer_depths_go, ht, hout]
    · intro i layer hget
      cases i with
      | zero =>
        simp only [List.get?] at hget
        injection hget with hget
        subst hget
        simp [thickness_sum, List.take, ht]
      | succ j =>
        simp only [List.get?] at hget ⊢
        rw [hidx j layer hget]
        rw [thickness_sum_cons, thickness_sum_cons, ht]
        simp [add_assoc]

/-- C8 (corrected), counterexample: a layer with thickness `-1 ≤ 0` does not
make `calc_layer_depths` panic; the source only unwraps the thickness and
accumulates it, producing a negative bottom depth. -/
theorem calc_layer_depths_accepts_nonpositive_thickness :
    (-1 : ℚ) ≤ 0 ∧
    SoilProfile.calc_layer_depths
        { layers := [{ thickness := some (-1) }], ground_water_level := none } =
      some { layers := [{ thickness := some (-1), center := some (-(1/2)),
                          depth := some (-1) }],
             ground_water_level := none } := by
  refine ⟨by norm_num, ?_⟩
  simp only [SoilProfile.calc_layer_depths, calc_layer_depths_go, Option.map_some]
  norm_num

/-- C8 (amended): `calc_layer_depths` walks the layers in order accumulating a
running bottom depth, sets each layer's depth to the accumulated bottom and its
center to the previous bottom plus half the thickness, and panics only when a
thickness is missing; a non-positive thickness is accepted silently. -/
theorem calc_layer_depths_spec (sp : SoilProfile)
    (h : ∀ layer ∈ sp.layers, layer.thickness.isSome) :
    ∃ out, sp.calc_layer_depths = some out ∧
      out.ground_water_level = sp.ground_water_level ∧
      out.layers.length = sp.layers.length ∧
      ∀ i layer, sp.layers.get? i = some layer →
        out.layers.get? i = some { layer with
          center := some (thickness_sum sp.layers i + layer.thickness.getD 0 / 2),
          depth := some (thickness_sum sp.layers (i + 1)) } := by
  by_cases hemp : sp.layers = []
  · refine ⟨sp, ?_, rfl, rfl, ?_⟩
    · simp [SoilProfile.calc_layer_depths, hemp]
    · intro i layer hget
      rw [hemp] at hget
      simp at hget
  · obtain ⟨out, hout, hlen, hidx⟩ := calc_layer_depths_go_spec sp.layers 0 h
    refine ⟨{ sp with layers := out }, ?_, rfl, hlen, ?_⟩
    · simp [SoilProfile.calc_layer_depths, hemp, hout]
    · intro i layer hget
      have := hidx i layer hget
      simpa using this

/-- C8 (amended), witness instantiation of `calc_layer_depths_spec` at a
two-layer profile. -/
theorem calc_layer_depths_spec_witness :
    ∃ out,
      SoilProfile.calc_layer_depths
          { layers := [{ thickness := some 3 }, { thickness := some 2 }],
            ground_water_level := some 1 } = some out ∧
      out.ground_water_level = some 1 ∧
      out.layers.length = 2 ∧
      ∀ i layer,
        ([{ thickness := some 3 }, { thickness := some 2 }] : List SoilLayer).get? i
            = some layer →
        out.layers.get? i = some { layer with
          center := some (thickness_sum [{ thickness := some 3 }, { thickness := some 2 }] i +
            layer.thickness.getD 0 / 2),
          depth := some (thickness_sum [{ thickness := some 3 }, { thickness := some 2 }] (i + 1)) } :=
  calc_layer_depths_spec
    { layers := [{ thickness := some 3 }, { thickness := some 2 }],
      ground_water_level := some 1 }
    (by intro layer hmem; fin_cases hmem <;> rfl)

/-- C2: for a profile with groundwater level `g`, the effective stress equals
the normal stress for `d ≤ g`, and otherwise equals the normal stress minus
the hydrostatic pore pressure `(d − g) * 0.981`, hence is strictly below the
normal stress for `d > g`. -/
theorem calc_effective_stress_spec (sp : SoilProfile) (d g ns : ℚ)
    (hg : sp.ground_water_level = some g)
    (hn : sp.calc_normal_stress d = some ns) :
    (d ≤ g → sp.calc_effective_stress d = some ns) ∧
    (g < d →
      sp.calc_effective_stress d = some (ns - (d - g) * (981/1000)) ∧
      ns - (d - g) * (981/1000) < ns) := by
  constructor
  · intro h
    simp only [SoilProfile.calc_effective_stress, hn, hg]
    rw [if_pos (by linarith)]
  · intro h
    simp only [SoilProfile.calc_effective_stress, hn, hg]
    rw [if_neg (by linarith)]
    refine ⟨rfl, ?_⟩
    nlinarith

/-- C2, witness: `exProfile1` at depth 2 (GWL = 1, normal stress 21/5). -/
theorem calc_effective_stress_spec_witness :
    SoilProfile.calc_effective_stress exProfile1 2 = some (21/5 - (2 - 1) * (981/1000)) ∧
    (21/5 - (2 - 1) * (981/1000) : ℚ) < 21/5 :=
  (calc_effective_stress_spec exProfile1 2 1 (21/5) rfl
    (by norm_num [exProfile1, SoilProfile.calc_normal_stress, SoilProfile.get_layer_index,
      get_layer_index_go, calc_normal_stress_go, stress_contribution])).2 (by norm_num)

/-- C7 (corrected), counterexample: with GWL = 0 the single layer of
`exProfileLowGoverning` is entirely submerged, so its governing unit weight is
the saturated one, `1/2`, which does not exceed the unit weight of water
`0.981`; the claim then demands a panic, but `calc_normal_stress` returns the
stress `1/2` because the panic condition requires both the dry and the
saturated weight to be `≤ 1` and the dry weight is 2. -/
theorem calc_normal_stress_no_panic_on_low_governing_weight :
    (1/2 : ℚ) ≤ 981/1000 ∧
    SoilProfile.calc_normal_stress exProfileLowGoverning 1 = some (1/2) := by
  constructor
  · norm_num
  · norm_num [exProfileLowGoverning, SoilProfile.calc_normal_stress,
      SoilProfile.get_layer_index, get_layer_index_go, calc_normal_stress_go,
      stress_contribution]

/-- Helper for C7: if some layer at position `k` of the remaining list, with
`i + k` not beyond the stopping index, has both unit weights `≤ 1`, the
stress loop panics (`none`). -/
theorem calc_normal_stress_go_bad (gwt d : ℚ) (li : Nat) :
    ∀ (ls : List SoilLayer) (i : Nat) (prev : ℚ) (k : Nat) (layer : SoilLayer),
    ls.get? k = some layer → i + k ≤ li →
    layer.dry_unit_weight.getD 0 ≤ 1 → layer.saturated_unit_weight.getD 0 ≤ 1 →
    calc_normal_stress_go gwt d li ls i prev = none := by
  intro ls
  induction ls with
  | nil => intro i prev k layer hk; simp at hk
  | cons hd tl ih =>
    intro i prev k layer hk hle hdry hsat
    cases k with
    | zero =>
      simp only [List.get?] at hk
      injection hk with hk
      rw [← hk] at hdry hsat
      rcases hto : (if i = li then some (d - prev) else hd.thickness) with _ | t
      · simp [calc_normal_stress_go, hto]
      · simp only [calc_normal_stress_go, hto]
        rw [if_pos (And.intro hdry hsat)]
    | succ j =>
      have hne : i ≠ li := by omega
      rcases hto : (if i = li then some (d - prev) else hd.thickness) with _ | t
      · simp [calc_normal_stress_go, hto]
      · simp only [calc_normal_stress_go, hto]
        by_cases hbad : hd.dry_unit_weight.getD 0 ≤ 1 ∧ hd.saturated_unit_weight.getD 0 ≤ 1
        · rw [if_pos hbad]
        · rw [if_neg hbad, if_neg hne,
            ih (i + 1) (prev + t) j layer (by simpa using hk) (by omega) hdry hsat]
          rfl

/-- Helper for C7: if every layer of the remaining list that the loop can
reach (positions `k` with `i + k ≤ li`) has a unit weight above 1, and every
fully traversed one has a thickness, the stress loop succeeds. -/
theorem calc_normal_stress_go_good (gwt d : ℚ) (li : Nat) :
    ∀ (ls : List SoilLayer) (i : Nat) (prev : ℚ), i ≤ li →
    (∀ k layer, ls.get? k = some layer → i + k ≤ li →
      (1 < layer.dry_unit_weight.getD 0 ∨ 1 < layer.saturated_unit_weight.getD 0) ∧
      (i + k < li → layer.thickness.isSome)) →
    (calc_normal_stress_go gwt d li ls i prev).isSome := by
  intro ls
  induction ls with
  | nil => intro i prev _ _; simp [calc_normal_stress_go]
  | cons hd tl ih =>
    intro i prev hile hall
    have hhd := hall 0 hd rfl (by omega)
    have hgoodw : ¬(hd.dry_unit_weight.getD 0 ≤ 1 ∧ hd.saturated_unit_weight.getD 0 ≤ 1) := by
      rcases hhd.1 with h | h
      · exact fun hc => absurd hc.1 (by linarith)
      · exact fun hc => absurd hc.2 (by linarith)
    by_cases heq : i = li
    · subst heq
      simp [calc_normal_stress_go, hgoodw]
    · have hlt : i < li := lt_of_le_of_ne hile heq
      obtain ⟨t, ht⟩ := Option.isSome_iff_exists.mp (hhd.2 (by omega))
      have hrec := ih (i + 1) (prev + t) (by omega)
        (fun k layer hk hle => by
          have := hall (k + 1) layer (by simpa using hk) (by omega)
          simpa [Nat.add_assoc, Nat.add_comm 1 k] using this)
      rcases Option.isSome_iff_exists.mp hrec with ⟨s, hs⟩
      simp [calc_normal_stress_go, heq, ht, hgoodw, hs]

/-- C7 (amended): `calc_normal_stress` panics exactly on the condition the
source checks — some traversed layer (index at most `get_layer_index`) having
both the dry and the saturated unit weight (missing weights defaulting to 0)
at most 1.  A layer whose governing weight alone fails to exceed the unit
weight of water does not trigger the panic.  Conversely, when the groundwater
level is present, every traversed layer has a unit weight above 1, and every
fully traversed layer has a thickness, the computation returns a value. -/
theorem calc_normal_stress_panic_characterization (sp : SoilProfile) (d : ℚ) :
    ((∃ i layer, i ≤ sp.get_layer_index d ∧ sp.layers.get? i = some layer ∧
        layer.dry_unit_weight.getD 0 ≤ 1 ∧ layer.saturated_unit_weight.getD 0 ≤ 1) →
      sp.calc_normal_stress d = none) ∧
    (sp.ground_water_level.isSome →
      (∀ i layer, sp.layers.get? i = some layer → i ≤ sp.get_layer_index d →
        (1 < layer.dry_unit_weight.getD 0 ∨ 1 < layer.saturated_unit_weight.getD 0) ∧
        (i < sp.get_layer_index d → layer.thickness.isSome)) →
      (sp.calc_normal_stress d).isSome) := by
  constructor
  · rintro ⟨i, layer, hle, hget, hdry, hsat⟩
    rcases hg : sp.ground_water_level with _ | g
    · simp [SoilProfile.calc_normal_stress, hg]
    · simp only [SoilProfile.calc_normal_stress, hg]
      exact calc_normal_stress_go_bad g d (sp.get_layer_index d) sp.layers 0 0 i layer hget
        (by omega) hdry hsat
  · intro hgwl hall
    rcases Option.isSome_iff_exists.mp hgwl with ⟨g, hg⟩
    simp only [SoilProfile.calc_normal_stress, hg]
    exact calc_normal_stress_go_good g d (sp.get_layer_index d) sp.layers 0 0 (Nat.zero_le _)
      (fun k layer hk hle => by simpa using hall k layer hk (by omega))

/-- C7 (amended), witness: both directions of
`calc_normal_stress_panic_characterization` at concrete profiles — a
both-weights-low layer panics, a dry-weight-2 layer does not. -/
theorem calc_normal_stress_panic_characterization_witness :
    SoilProfile.calc_normal_stress exProfileBothLow 1 = none ∧
    (SoilProfile.calc_normal_stress exProfileLowGoverning 1).isSome := by
  constructor
  · exact (calc_normal_stress_panic_characterization exProfileBothLow 1).1
      ⟨0, _, Nat.zero_le _, rfl, by norm_num [exProfileBothLow], by norm_num [exProfileBothLow]⟩
  · refine (calc_normal_stress_panic_characterization exProfileLowGoverning 1).2 rfl ?_
    intro i layer hget hle
    cases i with
    | zero =>
      simp only [exProfileLowGoverning, List.get?] at hget
      injection hget with hget
      subst hget
      exact ⟨Or.inl (by norm_num), fun _ => rfl⟩
    | succ j =>
      simp [exProfileLowGoverning] at hget

/-- C9 (corrected), counterexample: `Masw::get_idealized_exp` takes
`&mut self` and stores recomputed layer depths into its source experiments;
on a collection whose layer depth is still unset it succeeds but leaves the
collection in a different state (the depth is now `some 1`), so idealization
is not free of effects on the sources. -/
theorem masw_get_idealized_exp_mutates :
    Masw.get_idealized_exp exMaswUncomputed "ideal" =
      some ({ layers := [{ thickness := some 1, vs := some 100, vp := some 200,
                           depth := some 1 }], name := "ideal" },
            exMaswComputed) ∧
    exMaswComputed ≠ exMaswUncomputed := by
  constructor
  · norm_num [exMaswUncomputed, exMaswComputed, Masw.get_idealized_exp, Masw.calc_depths,
      MaswExp.calc_depths, masw_calc_depths_go, MaswExp.new, MaswExp.get_layer_at_depth,
      masw_get_layer_at_depth_go, unwrap_depths, insert_unique_depth, get_mode_value,
      MaswLayer.new, Option.bind, List.mapM, List.mapM.loop, List.flatMap]
  · intro h
    rw [exMaswComputed, exMaswUncomputed] at h
    have h2 := congrArg Masw.exps h
    simp at h2

/-- C9 (amended): the state of a MASW collection after `get_idealized_exp` is
exactly the result of `calc_depths` on the state before (or unchanged for an
empty collection); in particular the call is idempotent on collections whose
depths are already computed, and CPT / SPT / point-load idealization take
`&self` and are embedded as pure functions of the collection. -/
theorem masw_get_idealized_exp_state (masw : Masw) (name : String) (out : MaswExp) (st : Masw)
    (h : masw.get_idealized_exp name = some (out, st)) :
    (masw.calc_depths = some st ∨ (masw.exps = [] ∧ st = masw)) ∧
    (masw.calc_depths = some masw → st = masw) := by
  by_cases hemp : masw.exps = []
  · have hst : st = masw := by
      simp only [Masw.get_idealized_exp, if_pos hemp, MaswExp.new, MaswExp.calc_depths] at h
      simp at h
      exact h.2.symm
    exact ⟨Or.inr ⟨hemp, hst⟩, fun _ => hst⟩
  · simp only [Masw.get_idealized_exp, if_neg hemp] at h
    rcases hcd : masw.calc_depths with _ | masw2
    · rw [hcd] at h
      simp at h
    · rw [hcd] at h
      simp only [Option.bind_eq_bind', Option.bind_eq_some'] at h
      obtain ⟨m2, hm2, h⟩ := h
      obtain ⟨ds, hds, h⟩ := h
      obtain ⟨ls, hls, h⟩ := h
      obtain ⟨e, he, h⟩ := h
      injection hm2 with hm2
      have h3 : some (e, m2) = some (out, st) := h
      injection h3 with h4
      have h5 : m2 = st := congrArg Prod.snd h4
      have hst : st = masw2 := by rw [← h5, ← hm2]
      refine ⟨Or.inl ?_, fun hfix => ?_⟩
      · rw [hst]
      · injection hfix with hfix
        rw [hst]
        exact hfix

/-- C9 (amended), witness: on the depth-computed collection `exMaswComputed`
the state is unchanged by `get_idealized_exp`. -/
theorem masw_get_idealized_exp_state_witness :
    ∃ out st, Masw.get_idealized_exp exMaswComputed "ideal" = some (out, st) ∧
      st = exMaswComputed := by
  have h : Masw.get_idealized_exp exMaswComputed "ideal" =
      some ({ layers := [{ thickness := some 1, vs := some 100, vp := some 200,
                           depth := some 1 }], name := "ideal" },
            exMaswComputed) := by
    norm_num [exMaswComputed, Masw.get_idealized_exp, Masw.calc_depths,
      MaswExp.calc_depths, masw_calc_depths_go, MaswExp.new, MaswExp.get_layer_at_depth,
      masw_get_layer_at_depth_go, unwrap_depths, insert_unique_depth, get_mode_value,
      MaswLayer.new, Option.bind, List.mapM, List.mapM.loop, List.flatMap]
  refine ⟨_, _, h, ?_⟩
  exact (masw_get_idealized_exp_state exMaswComputed "ideal" _ _ h).2
    (by norm_num [exMaswComputed, Masw.calc_depths, MaswExp.calc_depths, masw_calc_depths_go,
      List.mapM, List.mapM.loop])

/-- Reflexivity-style fact: `cmp` never reports `gt` on equal values. -/
theorem nvalue_cmp_self (a : NValue) : a.cmp a ≠ Ordering.gt := by
  cases a with
  | Value n => simp [NValue.cmp, compare_gt_iff_gt]
  | Refusal => simp [NValue.cmp]

/-- Transitivity of the not-greater relation induced by `NValue.cmp`. -/
theorem nvalue_le_trans {a b c : NValue} (hab : a.cmp b ≠ Ordering.gt)
    (hbc : b.cmp c ≠ Ordering.gt) : a.cmp c ≠ Ordering.gt := by
  cases a with
  | Refusal =>
    cases b with
    | Refusal =>
      cases c with
      | Refusal => simp [NValue.cmp]
      | Value n => exact absurd rfl hbc
    | Value n => exact absurd rfl hab
  | Value na =>
    cases c with
    | Refusal => simp [NValue.cmp]
    | Value nc =>
      cases b with
      | Refusal => exact absurd rfl hbc
      | Value nb =>
        simp only [NValue.cmp, ne_eq, compare_gt_iff_gt, gt_iff_lt] at hab hbc ⊢
        omega

/-- The Min fold of `spt_selected_n` returns an element of the list that is
not greater than any element (first minimal element). -/
theorem spt_min_fold_spec (vs : List NValue) :
    ∀ v : NValue,
      (vs.foldl (fun acc x => if NValue.cmp x acc = Ordering.lt then x else acc) v) ∈ v :: vs ∧
      ∀ x ∈ v :: vs,
        (vs.foldl (fun acc x => if NValue.cmp x acc = Ordering.lt then x else acc) v).cmp x ≠
          Ordering.gt := by
  induction vs with
  | nil =>
    intro v
    refine ⟨by simp, ?_⟩
    intro x hx
    simp only [List.mem_singleton] at hx
    subst hx
    exact nvalue_cmp_self x
  | cons y ys ih =>
    intro v
    have hstep : (List.foldl (fun acc x => if NValue.cmp x acc = Ordering.lt then x else acc) v
        (y :: ys)) = List.foldl (fun acc x => if NValue.cmp x acc = Ordering.lt then x else acc)
          (if NValue.cmp y v = Ordering.lt then y else v) ys := rfl
    set v2 := if NValue.cmp y v = Ordering.lt then y else v with hv2
    obtain ⟨hmem, hbound⟩ := ih v2
    have hv2le : v2.cmp v ≠ Ordering.gt ∧ v2.cmp y ≠ Ordering.gt := by
      rw [hv2]
      by_cases hc : NValue.cmp y v = Ordering.lt
      · rw [if_pos hc]
        constructor
        · cases y <;> cases v <;>
            simp_all [NValue.cmp, compare_gt_iff_gt, compare_lt_iff_lt]
          omega
        · exact nvalue_cmp_self y
      · rw [if_neg hc]
        constructor
        · exact nvalue_cmp_self v
        · cases y <;> cases v <;>
            simp_all [NValue.cmp, compare_gt_iff_gt, compare_lt_iff_lt]
    constructor
    · rw [hstep]
      rcases List.mem_cons.mp hmem with h | h
      · rw [h, hv2]
        by_cases hc : NValue.cmp y v = Ordering.lt
        · rw [if_pos hc]; simp
        · rw [if_neg hc]; simp
      · simp [h]
    · intro x hx
      rw [hstep]
      have hres := hbound v2 (by simp)
      rcases List.mem_cons.mp hx with h | h
      · subst h
        exact nvalue_le_trans hres hv2le.1
      · rcases List.mem_cons.mp h with h2 | h2
        · subst h2
          exact nvalue_le_trans hres hv2le.2
        · exact hbound x (by simp [h2])

/-- The Max fold of `spt_selected_n` returns `Refusal` as soon as a refusal is
present. -/
theorem spt_max_fold_refusal (vs : List NValue) :
    ∀ v : NValue, NValue.Refusal ∈ v :: vs →
      (vs.foldl (fun acc x => if NValue.cmp x acc = Ordering.lt then acc else x) v) =
        NValue.Refusal := by
  induction vs with
  | nil =>
    intro v hv
    have h : NValue.Refusal = v := by simpa using hv
    exact h.symm
  | cons y ys ih =>
    intro v hv
    have hstep : (List.foldl (fun acc x => if NValue.cmp x acc = Ordering.lt then acc else x) v
        (y :: ys)) = List.foldl (fun acc x => if NValue.cmp x acc = Ordering.lt then acc else x)
          (if NValue.cmp y v = Ordering.lt then v else y) ys := rfl
    rw [hstep]
    apply ih
    rcases List.mem_cons.mp hv with h | h
    · subst h
      have hacc : (if NValue.cmp y NValue.Refusal = Ordering.lt then NValue.Refusal else y) =
          NValue.Refusal := by
        cases y <;> simp [NValue.cmp]
      rw [hacc]
      exact List.mem_cons_self _ _
    · rcases List.mem_cons.mp h with h2 | h2
      · subst h2
        have hnl : NValue.cmp NValue.Refusal v ≠ Ordering.lt := by
          cases v <;> simp [NValue.cmp]
        rw [if_neg hnl]
        exact List.mem_cons_self _ _
      · exact List.mem_cons_of_mem _ h2

/-- `from_i32` only ever produces finite values. -/
theorem from_i32_value {n : ℤ} {v : NValue} (h : NValue.from_i32 n = some v) :
    1 ≤ n ∧ v = NValue.Value n := by
  by_cases hn : n ≤ 0
  · simp [NValue.from_i32, hn] at h
  · simp only [NValue.from_i32, if_neg hn, Option.some.injEq] at h
    exact ⟨by omega, h.symm⟩

/-- C4: the SPT refusal sentinel semantics of `get_idealized_exp`.
Refusal outranks every finite count in `NValue.cmp`; on every non-empty
bucket of blow counts, the Min policy picks a member that no member is below,
yields `Refusal` only when the whole bucket is refusals, and otherwise picks
the lowest finite count present; the Max policy yields `Refusal` whenever one
is present; the Avg policy replaces each refusal by the fixed ceiling 50 (via
`to_option`), takes the rounded arithmetic mean of the results, and therefore
never yields the sentinel. -/
theorem spt_refusal_semantics :
    (∀ n : ℤ, NValue.cmp (NValue.Value n) NValue.Refusal = Ordering.lt ∧
      NValue.cmp NValue.Refusal (NValue.Value n) = Ordering.gt) ∧
    (∀ (v : NValue) (vs : List NValue),
      ∃ m, spt_selected_n SelectionMethod.Min (v :: vs) = some m ∧ m ∈ v :: vs ∧
        (m = NValue.Refusal ↔ ∀ x ∈ v :: vs, x = NValue.Refusal) ∧
        (∀ k : ℤ, NValue.Value k ∈ v :: vs →
          ∃ j : ℤ, m = NValue.Value j ∧ NValue.Value j ∈ v :: vs ∧
            ∀ k2 : ℤ, NValue.Value k2 ∈ v :: vs → j ≤ k2)) ∧
    (∀ (v : NValue) (vs : List NValue), NValue.Refusal ∈ v :: vs →
      spt_selected_n SelectionMethod.Max (v :: vs) = some NValue.Refusal) ∧
    (∀ (ns : List NValue) (w : NValue), spt_selected_n SelectionMethod.Avg ns = some w →
      ∃ k : ℤ, w = NValue.Value k ∧
        k = round_half_away ((ns.filterMap (fun n => n.to_option.map (fun v => (v : ℚ)))).sum /
          (ns.length : ℚ))) := by
  refine ⟨fun n => ⟨rfl, rfl⟩, ?_, ?_, ?_⟩
  · intro v vs
    obtain ⟨hmem, hbound⟩ := spt_min_fold_spec vs v
    refine ⟨_, rfl, hmem, ?_, ?_⟩
    · constructor
      · intro href x hx
        have := hbound x hx
        rw [href] at this
        cases x with
        | Value n => exact absurd rfl this
        | Refusal => rfl
      · intro hall
        exact hall _ hmem
    · intro k hk
      rcases hm : (vs.foldl (fun acc x => if NValue.cmp x acc = Ordering.lt then x else acc) v)
          with j | _
      · refine ⟨j, rfl, by rw [← hm]; exact hmem, ?_⟩
        intro k2 hk2
        have := hbound _ hk2
        rw [hm] at this
        simpa [NValue.cmp, compare_le_iff_le] using this
      · exfalso
        have := hbound _ hk
        rw [hm] at this
        exact this rfl
  · intro v vs href
    simpa [spt_selected_n] using spt_max_fold_refusal vs v href
  · intro ns w h
    simp only [spt_selected_n] at h
    obtain ⟨h1, h2⟩ := from_i32_value h
    exact ⟨_, h2, rfl⟩

/-- C4, witness: the Max and Avg clauses of `spt_refusal_semantics`
instantiated on concrete buckets (`[5, R]` and `[R, 30]`). -/
theorem spt_refusal_semantics_witness :
    spt_selected_n SelectionMethod.Max [NValue.Value 5, NValue.Refusal] = some NValue.Refusal ∧
    ∃ k : ℤ, NValue.Value 40 = NValue.Value k ∧
      k = round_half_away ((([NValue.Refusal, NValue.Value 30]).filterMap
        (fun n => n.to_option.map (fun v => (v : ℚ)))).sum /
          (([NValue.Refusal, NValue.Value 30] : List NValue).length : ℚ)) := by
  constructor
  · exact spt_refusal_semantics.2.2.1 (NValue.Value 5) [NValue.Refusal] (by simp)
  · refine spt_refusal_semantics.2.2.2 [NValue.Refusal, NValue.Value 30] (NValue.Value 40) ?_
    have hmean : ((([NValue.Refusal, NValue.Value 30] : List NValue).filterMap
        (fun n => n.to_option.map (fun v => (v : ℚ)))).sum /
          ((([NValue.Refusal, NValue.Value 30] : List NValue).length : ℕ) : ℚ)) = 40 := by
      norm_num [NValue.to_option, List.filterMap]
    have hround : round_half_away 40 = 40 := by
      rw [round_half_away, if_pos (by norm_num)]
      exact Int.floor_eq_iff.mpr (by constructor <;> norm_num)
    simp only [spt_selected_n]
    rw [hmean, hround]
    norm_num [NValue.from_i32]

/-- `depth_map_insert` preserves the bucket invariant: every bucket is
non-empty and all stored values satisfy `P`. -/
theorem depth_map_insert_invariant {α : Type} (P : α → Prop) (d : ℚ) (v : α) :
    ∀ (m : List (ℚ × List α)),
    (∀ p ∈ m, p.2 ≠ [] ∧ ∀ x ∈ p.2, P x) → P v →
    ∀ p ∈ depth_map_insert d v m, p.2 ≠ [] ∧ ∀ x ∈ p.2, P x := by
  intro m
  induction m with
  | nil =>
    intro _ hv p hp
    simp only [depth_map_insert, List.mem_singleton] at hp
    subst hp
    refine ⟨by simp, fun x hx => ?_⟩
    have hx2 : x = v := by simpa using hx
    subst hx2
    exact hv
  | cons q rest ih =>
    intro hm hv p hp
    rcases q with ⟨d0, vs⟩
    simp only [depth_map_insert] at hp
    by_cases h1 : d < d0
    · rw [if_pos h1] at hp
      rcases List.mem_cons.mp hp with h | h
      · subst h
        refine ⟨by simp, fun x hx => ?_⟩
        have hx2 : x = v := by simpa using hx
        subst hx2
        exact hv
      · exact hm p h
    · rw [if_neg h1] at hp
      by_cases h2 : d = d0
      · rw [if_pos h2] at hp
        rcases List.mem_cons.mp hp with h | h
        · subst h
          refine ⟨by simp, fun x hx => ?_⟩
          rcases List.mem_append.mp hx with h3 | h3
          · exact (hm (d0, vs) (by simp)).2 x h3
          · have hx2 : x = v := by simpa using h3
            subst hx2
            exact hv
        · exact hm p (by simp [h])
      · rw [if_neg h2] at hp
        rcases List.mem_cons.mp hp with h | h
        · subst h
          exact hm (d0, vs) (by simp)
        · exact ih (fun p2 hp2 => hm p2 (by simp [hp2])) hv p h

/-- `spt_collect_blows` succeeds on blows with present depth and `n`, and
preserves the bucket invariant for any predicate `P` satisfied by all `n`s. -/
theorem spt_collect_blows_invariant (P : NValue → Prop) :
    ∀ (blows : List SPTBlow) (m : List (ℚ × List NValue)),
    (∀ blow ∈ blows, blow.depth.isSome ∧ ∃ nv, blow.n = some nv ∧ P nv) →
    (∀ p ∈ m, p.2 ≠ [] ∧ ∀ x ∈ p.2, P x) →
    ∃ m2, spt_collect_blows m blows = some m2 ∧
      ∀ p ∈ m2, p.2 ≠ [] ∧ ∀ x ∈ p.2, P x := by
  intro blows
  induction blows with
  | nil => exact fun m _ hm => ⟨m, rfl, hm⟩
  | cons blow rest ih =>
    intro m hall hm
    obtain ⟨hdep, nv, hn, hP⟩ := hall blow (by simp)
    obtain ⟨dep, hdep2⟩ := Option.isSome_iff_exists.mp hdep
    obtain ⟨m2, hm2, hinv⟩ := ih (depth_map_insert dep nv m)
      (fun b hb => hall b (by simp [hb]))
      (depth_map_insert_invariant P dep nv m hm hP)
    exact ⟨m2, by simp [spt_collect_blows, hdep2, hn, hm2], hinv⟩

/-- `spt_build_map` succeeds over experiments of good blows and yields the
bucket invariant. -/
theorem spt_build_map_invariant (P : NValue → Prop) :
    ∀ (exps : List SPTExp) (m : List (ℚ × List NValue)),
    (∀ exp ∈ exps, ∀ blow ∈ exp.blows,
      blow.depth.isSome ∧ ∃ nv, blow.n = some nv ∧ P nv) →
    (∀ p ∈ m, p.2 ≠ [] ∧ ∀ x ∈ p.2, P x) →
    ∃ m2, spt_build_map m exps = some m2 ∧
      ∀ p ∈ m2, p.2 ≠ [] ∧ ∀ x ∈ p.2, P x := by
  intro exps
  induction exps with
  | nil => exact fun m _ hm => ⟨m, rfl, hm⟩
  | cons exp rest ih =>
    intro m hall hm
    obtain ⟨m1, hm1, hinv1⟩ := spt_collect_blows_invariant P exp.blows m
      (hall exp (by simp)) hm
    obtain ⟨m2, hm2, hinv2⟩ := ih m1 (fun e he => hall e (by simp [he])) hinv1
    exact ⟨m2, by simp [spt_build_map, hm1, hm2], hinv2⟩

/-- Lower bound for the Avg accumulation of `spt_selected_n`: with every blow
count a refusal or a finite count `≥ 1`, the (refusal-to-50) sum is at least
the number of values. -/
theorem spt_avg_fold_lower :
    ∀ (ns : List NValue),
    (∀ x ∈ ns, x = NValue.Refusal ∨ ∃ k : ℤ, 1 ≤ k ∧ x = NValue.Value k) →
      (ns.length : ℚ) ≤ (ns.filterMap (fun n => n.to_option.map (fun v => (v : ℚ)))).sum := by
  intro ns
  induction ns with
  | nil => simp
  | cons x rest ih =>
    intro hall
    have hx : ∃ k : ℤ, 1 ≤ k ∧ x.to_option = some k := by
      rcases hall x (by simp) with h | ⟨k, hk, h⟩
      · exact ⟨50, by norm_num, by rw [h]; rfl⟩
      · exact ⟨k, hk, by rw [h]; rfl⟩
    obtain ⟨k, hk, hxeq⟩ := hx
    have hstep : ((x :: rest).filterMap (fun n => n.to_option.map (fun v => (v : ℚ)))) =
        (k : ℚ) :: rest.filterMap (fun n => n.to_option.map (fun v => (v : ℚ))) := by
      simp [List.filterMap_cons, hxeq]
    rw [hstep, List.sum_cons]
    have hrest := ih (fun y hy => hall y (by simp [hy]))
    have hkq : (1 : ℚ) ≤ (k : ℚ) := by exact_mod_cast hk
    push_cast [List.length_cons]
    linarith

/-- `spt_selected_n` succeeds on every non-empty bucket of good values (for
Avg, the rounded mean is at least 1, so `from_i32` cannot panic). -/
theorem spt_selected_n_total (mode : SelectionMethod) (vs : List NValue)
    (hne : vs ≠ [])
    (hall : ∀ x ∈ vs, x = NValue.Refusal ∨ ∃ k : ℤ, 1 ≤ k ∧ x = NValue.Value k) :
    ∃ sel, spt_selected_n mode vs = some sel := by
  cases mode with
  | Min =>
    rcases vs with _ | ⟨v, vs⟩
    · exact absurd rfl hne
    · exact ⟨_, rfl⟩
  | Max =>
    rcases vs with _ | ⟨v, vs⟩
    · exact absurd rfl hne
    · exact ⟨_, rfl⟩
  | Avg =>
    have hlen : 0 < vs.length := List.length_pos.mpr hne
    have hsum := spt_avg_fold_lower vs hall
    have hlenq : (0 : ℚ) < (vs.length : ℚ) := by exact_mod_cast hlen
    have hmean : (1 : ℚ) ≤
        (vs.filterMap (fun n => n.to_option.map (fun v => (v : ℚ)))).sum / (vs.length : ℚ) := by
      rw [le_div_iff₀ hlenq]
      simpa using hsum
    have hround : 1 ≤ round_half_away
        ((vs.filterMap (fun n => n.to_option.map (fun v => (v : ℚ)))).sum / (vs.length : ℚ)) := by
      rw [round_half_away, if_pos (by linarith)]
      rw [Int.le_floor]
      push_cast
      linarith
    have hsome : (spt_selected_n SelectionMethod.Avg vs).isSome := by
      simp only [spt_selected_n, NValue.from_i32]
      rw [if_neg (by omega)]
      simp
    exact Option.isSome_iff_exists.mp hsome

/-- The accumulator loop of `List.mapM` over `Option` succeeds when every
element maps to `some`. -/
theorem list_mapM_loop_option_isSome {α β : Type} (f : α → Option β) :
    ∀ (l : List α) (acc : List β), (∀ a ∈ l, (f a).isSome) →
      ∃ r, List.mapM.loop f l acc = some r := by
  intro l
  induction l with
  | nil => exact fun acc _ => ⟨acc.reverse, rfl⟩
  | cons a rest ih =>
    intro acc hall
    obtain ⟨b, hb⟩ := Option.isSome_iff_exists.mp (hall a (by simp))
    obtain ⟨r, hr⟩ := ih (b :: acc) (fun x hx => hall x (by simp [hx]))
    exact ⟨r, by simp [List.mapM.loop, hb, hr]⟩

/-- `List.mapM` over `Option` succeeds when every element maps to `some`. -/
theorem list_mapM_option_isSome {α β : Type} (f : α → Option β) (l : List α)
    (hall : ∀ a ∈ l, (f a).isSome) : ∃ r, l.mapM f = some r :=
  list_mapM_loop_option_isSome f l [] hall

/-- C10: `SPT::get_idealized_exp` cannot panic when every source blow carries
a depth and an `n` that is either a refusal or a finite count of at least 1:
the grouped buckets are non-empty, Min/Max selection always succeeds, and
under Avg the refusal-to-50 mean rounds to at least 1, so the `from_i32`
panic branch is unreachable. -/
theorem spt_get_idealized_exp_total (spt : SPT) (name : String)
    (h : ∀ exp ∈ spt.exps, ∀ blow ∈ exp.blows,
      blow.depth.isSome ∧ ∃ nv, blow.n = some nv ∧
        (nv = NValue.Refusal ∨ ∃ k : ℤ, 1 ≤ k ∧ nv = NValue.Value k)) :
    ∃ out, spt.get_idealized_exp name = some out := by
  obtain ⟨m2, hm2, hinv⟩ := spt_build_map_invariant
    (fun nv => nv = NValue.Refusal ∨ ∃ k : ℤ, 1 ≤ k ∧ nv = NValue.Value k)
    spt.exps [] h (by simp)
  have hmap : ∀ p ∈ m2, ((do
      let selected ← spt_selected_n spt.idealization_method p.2
      pure ({ depth := some p.1, n1 := some (NValue.Value 0), n2 := some (NValue.Value 0),
              n3 := some (NValue.Value 0), n := some selected } : SPTBlow)) :
        Option SPTBlow).isSome := by
    intro p hp
    obtain ⟨hne, hgood⟩ := hinv p hp
    obtain ⟨sel, hsel⟩ := spt_selected_n_total spt.idealization_method p.2 hne hgood
    simp [hsel]
  obtain ⟨blows, hblows⟩ := list_mapM_option_isSome _ m2 hmap
  refine ⟨SPTExp.new blows name, ?_⟩
  have hloop : List.mapM.loop (fun p => do
      let selected ← spt_selected_n spt.idealization_method p.2
      pure ({ depth := some p.1, n1 := some (NValue.Value 0), n2 := some (NValue.Value 0),
              n3 := some (NValue.Value 0), n := some selected } : SPTBlow)) m2 [] = some blows :=
    hblows
  simp only [Option.bind_eq_bind', Option.pure_def] at hloop
  simp [SPT.get_idealized_exp, hm2, hloop]

/-- C10, witness: `spt_get_idealized_exp_total` applied to a one-blow
collection (a refusal and a finite count appear across the two
experiments). -/
theorem spt_get_idealized_exp_total_witness :
    ∃ out, SPT.get_idealized_exp
      { exps := [{ blows := [{ depth := some 1, n := some (NValue.Value 5) }], name := "s1" },
                 { blows := [{ depth := some 1, n := some NValue.Refusal }], name := "s2" }],
        idealization_method := SelectionMethod.Avg } "ideal" = some out :=
  spt_get_idealized_exp_total _ "ideal" (by
    intro exp hexp blow hblow
    rcases List.mem_cons.mp hexp with h | h
    · subst h
      simp only [List.mem_singleton] at hblow
      subst hblow
      exact ⟨rfl, NValue.Value 5, rfl, Or.inr ⟨5, by norm_num, rfl⟩⟩
    · simp only [List.mem_singleton] at h
      subst h
      simp only [List.mem_singleton] at hblow
      subst hblow
      exact ⟨rfl, NValue.Refusal, rfl, Or.inl rfl⟩)

/-- One bisection step in the `g > 0` branch (replace the lower boundary). -/
theorem find_effective_depth_loop_step_pos (f b df l : ℚ) (sp : SoilProfile)
    (fuel : Nat) (b1 b2 mid : ℚ) (n : Nat) (g : ℚ)
    (hg : get_difference mid f b df l sp = some g)
    (hcond : |g| > 1/100 ∧ n < 100)
    (hnc : ¬(b1 = b2 ∧ b1 = mid ∧ n + 1 > 10))
    (hpos : g > 0) :
    find_effective_depth_loop f b df l sp (fuel + 1) b1 b2 mid n =
      find_effective_depth_loop f b df l sp fuel mid b2 ((mid + b2) / 2) (n + 1) := by
  simp only [find_effective_depth_loop, hg, Option.bind_eq_bind', Option.some_bind]
  rw [if_pos hcond, if_neg hnc, if_pos hpos]

/-- A bisection exit step: the loop guard fails, the midpoint is returned. -/
theorem find_effective_depth_loop_step_exit (f b df l : ℚ) (sp : SoilProfile)
    (fuel : Nat) (b1 b2 mid : ℚ) (n : Nat) (g : ℚ)
    (hg : get_difference mid f b df l sp = some g)
    (hcond : ¬(|g| > 1/100 ∧ n < 100)) :
    find_effective_depth_loop f b df l sp (fuel + 1) b1 b2 mid n = some mid := by
  simp only [find_effective_depth_loop, hg, Option.bind_eq_bind', Option.some_bind]
  rw [if_neg hcond]

/-- Unfolding of `find_effective_depth` down to the loop call, given the two
endpoint differences. -/
theorem find_effective_depth_unfold (f b df l : ℚ) (sp : SoilProfile) (g1 g2 : ℚ)
    (h1 : get_difference df f b df l sp = some g1)
    (h2 : get_difference (df + (3/2) * b) f b df l sp = some g2) :
    find_effective_depth f b df l sp =
      find_effective_depth_loop f b df l sp 101 df
        (if g1 * g2 > 0 then 100 * b else df + (3/2) * b)
        ((df + (df + (3/2) * b)) / 2) 0 := by
  simp [find_effective_depth, h1, h2]

/-- Helper: the solver run of the effective-depth example.  The initial
bracket is `[300, 301.5]`, both endpoint differences are positive, so the
upper boundary is re-bracketed to `100 · b = 100 < df`; after one step the
midpoint `1603/8 = 200.375` is an exact root and is returned, although it
lies below the foundation depth 300. -/
theorem exC6_find_eval :
    find_effective_depth (997901163/2560) 1 300 1 exProfileC6 =
      some (1603/8) := by
  have h1 : get_difference 300 (997901163/2560) 1 300 1 exProfileC6 =
      some (997747563/2560) := by
    norm_num [get_difference, SoilProfile.calc_effective_stress, SoilProfile.calc_normal_stress,
      SoilProfile.get_layer_index, get_layer_index_go, calc_normal_stress_go,
      stress_contribution, exProfileC6]
  have h2 : get_difference (300 + (3/2) * 1) (997901163/2560) 1 300 1 exProfileC6 =
      some (996936363/16000) := by
    norm_num [get_difference, SoilProfile.calc_effective_stress, SoilProfile.calc_normal_stress,
      SoilProfile.get_layer_index, get_layer_index_go, calc_normal_stress_go,
      stress_contribution, exProfileC6]
  have h3 : get_difference (1203/4) (997901163/2560) 1 300 1 exProfileC6 =
      some (142489941/1120) := by
    norm_num [get_difference, SoilProfile.calc_effective_stress, SoilProfile.calc_normal_stress,
      SoilProfile.get_layer_index, get_layer_index_go, calc_normal_stress_go,
      stress_contribution, exProfileC6]
  have h4 : get_difference (1603/8) (997901163/2560) 1 300 1 exProfileC6 =
      some 0 := by
    norm_num [get_difference, SoilProfile.calc_effective_stress, SoilProfile.calc_normal_stress,
      SoilProfile.get_layer_index, get_layer_index_go, calc_normal_stress_go,
      stress_contribution, exProfileC6]
  rw [find_effective_depth_unfold _ _ _ _ _ _ _ h1 h2]
  norm_num
  rw [show (101 : Nat) = 100 + 1 from rfl,
    find_effective_depth_loop_step_pos _ _ _ _ _ _ _ _ _ _ _ h3
      (by refine ⟨?_, by norm_num⟩; rw [abs_of_pos (by norm_num)]; norm_num)
      (by norm_num) (by norm_num)]
  norm_num
  rw [show (100 : Nat) = 99 + 1 from rfl,
    find_effective_depth_loop_step_exit _ _ _ _ _ _ _ _ _ _ _ h4
      (by rw [not_and_or]; left; rw [abs_zero]; norm_num)]

set_option maxHeartbeats 2000000 in
/-- Helper: the effective-depth example passes the full input validation. -/
theorem exC6_validate :
    validate_input exProfileC6 exFoundationC6 exPressureC6 = none := by
  norm_num [validate_input, SoilProfile.validate, validate_layers_go, SoilLayer.validate_fields,
    SoilLayer.validate_one, validate_field, Foundation.validate, Foundation.validate_one,
    exProfileC6, exFoundationC6, exPressureC6]

/-- Helper: the full `calc_effective_depth` run of the effective-depth
example returns `Ok(200.375)`. -/
theorem exC6_calc_eval :
    calc_effective_depth exProfileC6 exFoundationC6 exPressureC6 =
      some (Sum.inr (1603/8)) := by
  have hns : exProfileC6.calc_normal_stress 300 = some 600 := by
    norm_num [exProfileC6, SoilProfile.calc_normal_stress, SoilProfile.get_layer_index,
      get_layer_index_go, calc_normal_stress_go, stress_contribution]
  have harg : ((exPressureC6 - 600) * 1 * 1 : ℚ) = 997901163/2560 := by
    norm_num [exPressureC6]
  have hdf : exFoundationC6.foundation_depth = some 300 := rfl
  have hw : exFoundationC6.foundation_width = some 1 := rfl
  have hl : exFoundationC6.foundation_length = some 1 := rfl
  simp only [calc_effective_depth, exC6_validate, hdf, hw, hl, Option.bind_eq_bind',
    Option.some_bind, hns, harg, exC6_find_eval]
  rfl

/-- C6 (corrected), counterexample: a fully validated input (foundation depth
300 m, width = length = 1 m, huge but non-negative pressure) on which
`calc_effective_depth` returns `Ok(200.375)`: the returned depth is neither
`≥ df = 300` nor `0.0`, because the no-sign-change re-bracketing lowered the
upper boundary to `100·B = 100 < df` and the bisection converged below the
foundation depth. -/
theorem calc_effective_depth_below_foundation_depth :
    validate_input exProfileC6 exFoundationC6 exPressureC6 = none ∧
    exFoundationC6.foundation_depth = some 300 ∧
    calc_effective_depth exProfileC6 exFoundationC6 exPressureC6 = some (Sum.inr (1603/8)) ∧
    ¬((1603/8 : ℚ) ≥ 300) ∧ (1603/8 : ℚ) ≠ 0 :=
  ⟨exC6_validate, rfl, exC6_calc_eval, by norm_num, by norm_num⟩

/-- The instrumented loop computes the same value as the source loop. -/
theorem find_effective_depth_loop_flag_fst (f b df l : ℚ) (sp : SoilProfile) :
    ∀ (fuel : Nat) (b1 b2 mid : ℚ) (n : Nat),
      find_effective_depth_loop f b df l sp fuel b1 b2 mid n =
        (find_effective_depth_loop_flag f b df l sp fuel b1 b2 mid n).map Prod.fst := by
  intro fuel
  induction fuel with
  | zero => intro b1 b2 mid n; rfl
  | succ fuel ih =>
    intro b1 b2 mid n
    simp only [find_effective_depth_loop, find_effective_depth_loop_flag]
    cases hg : get_difference mid f b df l sp with
    | none => rfl
    | some g =>
      simp only [Option.bind_eq_bind', Option.some_bind]
      by_cases h1 : |g| > 1/100 ∧ n < 100
      · rw [if_pos h1, if_pos h1]
        by_cases h2 : b1 = b2 ∧ b1 = mid ∧ n + 1 > 10
        · rw [if_pos h2, if_pos h2]; rfl
        · rw [if_neg h2, if_neg h2]
          by_cases h3 : g > 0
          · rw [if_pos h3, if_pos h3]; exact ih _ _ _ _
          · rw [if_neg h3, if_neg h3]; exact ih _ _ _ _
      · rw [if_neg h1, if_neg h1]; rfl

/-- Exit classification of the instrumented loop: with nonnegative lower
boundary, positive upper boundary and midpoint, and enough fuel for the
iteration budget, the result is `0` exactly when the bracket-collapse guard
fired, a tolerance exit meets `|f(z)| ≤ 0.01`, and a cap exit returns the
final midpoint with the tolerance still unmet. -/
theorem find_effective_depth_loop_flag_exit (f b df l : ℚ) (sp : SoilProfile) :
    ∀ (fuel : Nat) (b1 b2 mid : ℚ) (n : Nat) (z : ℚ) (e : SolverExit),
      0 ≤ b1 → 0 < b2 → 0 < mid → n ≤ 100 → 100 < n + fuel →
      find_effective_depth_loop_flag f b df l sp fuel b1 b2 mid n = some (z, e) →
      (z = 0 ↔ e = SolverExit.collapse) ∧
      (e = SolverExit.tolerance →
        ∃ g, get_difference z f b df l sp = some g ∧ |g| ≤ 1/100) ∧
      (e = SolverExit.cap →
        ∃ g, get_difference z f b df l sp = some g ∧ |g| > 1/100) := by
  intro fuel
  induction fuel with
  | zero =>
    intro b1 b2 mid n z e _ _ _ hn hsum _
    omega
  | succ fuel ih =>
    intro b1 b2 mid n z e hb1 hb2 hmid hn hsum h
    simp only [find_effective_depth_loop_flag] at h
    cases hg : get_difference mid f b df l sp with
    | none => rw [hg] at h; simp at h
    | some g =>
      rw [hg] at h
      simp only [Option.bind_eq_bind', Option.some_bind] at h
      by_cases h1 : |g| > 1/100 ∧ n < 100
      · rw [if_pos h1] at h
        by_cases h2 : b1 = b2 ∧ b1 = mid ∧ n + 1 > 10
        · rw [if_pos h2] at h
          simp only [Option.some.injEq, Prod.mk.injEq] at h
          obtain ⟨hz, he⟩ := h
          subst hz
          subst he
          exact ⟨by simp, fun hc => absurd hc (by simp), fun hc => absurd hc (by simp)⟩
        · rw [if_neg h2] at h
          by_cases h3 : g > 0
          · rw [if_pos h3] at h
            exact ih _ _ _ _ _ _ (le_of_lt hmid) hb2 (by linarith) (by omega) (by omega) h
          · rw [if_neg h3] at h
            exact ih _ _ _ _ _ _ hb1 hmid (by linarith) (by omega) (by omega) h
      · rw [if_neg h1] at h
        simp only [Option.some.injEq, Prod.mk.injEq] at h
        obtain ⟨hz, he⟩ := h
        subst hz
        refine ⟨⟨fun h0 => absurd h0 (ne_of_gt hmid), fun hc => ?_⟩, fun hc => ?_, fun hc => ?_⟩
        · rw [← he] at hc
          by_cases htol : |g| > 1/100
          · rw [if_pos htol] at hc
            exact absurd hc (by simp)
          · rw [if_neg htol] at hc
            exact absurd hc (by simp)
        · rw [← he] at hc
          by_cases htol : |g| > 1/100
          · rw [if_pos htol] at hc
            exact absurd hc (by simp)
          · exact ⟨g, hg, not_lt.mp htol⟩
        · rw [← he] at hc
          by_cases htol : |g| > 1/100
          · exact ⟨g, hg, htol⟩
          · rw [if_neg htol] at hc
            exact absurd hc (by simp)

/-- The instrumented solver computes the same value as the source solver. -/
theorem find_effective_depth_flag_fst (f b df l : ℚ) (sp : SoilProfile) :
    find_effective_depth f b df l sp = (find_effective_depth_flag f b df l sp).map Prod.fst := by
  simp only [find_effective_depth, find_effective_depth_flag]
  cases hg1 : get_difference df f b df l sp with
  | none => rfl
  | some g1 =>
    simp only [Option.bind_eq_bind', Option.some_bind]
    cases hg2 : get_difference (df + (3/2) * b) f b df l sp with
    | none => rfl
    | some g2 =>
      simp only [Option.bind_eq_bind', Option.some_bind]
      exact find_effective_depth_loop_flag_fst f b df l sp 101 _ _ _ 0

/-- Exit classification of the instrumented solver on a validated geometry
(nonnegative foundation depth, positive width): zero exactly on a collapse
exit, tolerance met on a tolerance exit, tolerance unmet on a cap exit. -/
theorem find_effective_depth_flag_exit (f b df l : ℚ) (sp : SoilProfile) (z : ℚ)
    (e : SolverExit) (hdf : 0 ≤ df) (hb : 0 < b)
    (h : find_effective_depth_flag f b df l sp = some (z, e)) :
    (z = 0 ↔ e = SolverExit.collapse) ∧
    (e = SolverExit.tolerance →
      ∃ g, get_difference z f b df l sp = some g ∧ |g| ≤ 1/100) ∧
    (e = SolverExit.cap →
      ∃ g, get_difference z f b df l sp = some g ∧ |g| > 1/100) := by
  simp only [find_effective_depth_flag] at h
  cases hg1 : get_difference df f b df l sp with
  | none => rw [hg1] at h; simp at h
  | some g1 =>
    rw [hg1] at h
    simp only [Option.bind_eq_bind', Option.some_bind] at h
    cases hg2 : get_difference (df + (3/2) * b) f b df l sp with
    | none => rw [hg2] at h; simp at h
    | some g2 =>
      rw [hg2] at h
      simp only [Option.bind_eq_bind', Option.some_bind] at h
      refine find_effective_depth_loop_flag_exit f b df l sp 101 _ _ _ 0 z e hdf ?_ ?_
        (by omega) (by omega) h
      · by_cases hsg : g1 * g2 > 0
        · rw [if_pos hsg]
          linarith
        · rw [if_neg hsg]
          linarith
      · linarith

/-- C6 (amended): on a validated geometry (nonnegative foundation depth,
positive width — what `validate_input` enforces), every value `z` the solver
returns is classified by the exit of the instrumented run: `z = 0` holds
exactly when the bracket-collapse guard fired (so `0.0` is returned only via
that guard), a tolerance exit returns a midpoint with `|f(z)| ≤ 0.01`, and a
cap exit returns the final midpoint with `|f(z)| > 0.01`; the returned depth
need not be `≥ df` (after re-bracketing to `100·B` the bracket can lie below
the foundation depth). -/
theorem find_effective_depth_post (f b df l : ℚ) (sp : SoilProfile) (z : ℚ)
    (hdf : 0 ≤ df) (hb : 0 < b)
    (h : find_effective_depth f b df l sp = some z) :
    ∃ e, find_effective_depth_flag f b df l sp = some (z, e) ∧
      (z = 0 ↔ e = SolverExit.collapse) ∧
      (e = SolverExit.tolerance →
        ∃ g, get_difference z f b df l sp = some g ∧ |g| ≤ 1/100) ∧
      (e = SolverExit.cap →
        ∃ g, get_difference z f b df l sp = some g ∧ |g| > 1/100) := by
  rw [find_effective_depth_flag_fst] at h
  cases hf : find_effective_depth_flag f b df l sp with
  | none => rw [hf] at h; simp at h
  | some p =>
    rw [hf] at h
    rcases p with ⟨z2, e⟩
    have hz : z2 = z := by simpa using h
    subst hz
    exact ⟨e, rfl, find_effective_depth_flag_exit f b df l sp _ e hdf hb hf⟩

/-- C6 (amended), witness: `find_effective_depth_post` applied to the
effective-depth example (its result `1603/8` is nonzero, so the exit is not
the collapse guard). -/
theorem find_effective_depth_post_witness :
    (0 : ℚ) ≤ 300 ∧ (0 : ℚ) < 1 ∧
    ∃ e, find_effective_depth_flag (997901163/2560) 1 300 1 exProfileC6 =
        some (1603/8, e) ∧
      ((1603/8 : ℚ) = 0 ↔ e = SolverExit.collapse) ∧
      (e = SolverExit.tolerance →
        ∃ g, get_difference (1603/8) (997901163/2560) 1 300 1 exProfileC6 = some g ∧
          |g| ≤ 1/100) ∧
      (e = SolverExit.cap →
        ∃ g, get_difference (1603/8) (997901163/2560) 1 300 1 exProfileC6 = some g ∧
          |g| > 1/100) :=
  ⟨by norm_num, by norm_num,
    find_effective_depth_post _ _ _ _ _ _ (by norm_num) (by norm_num) exC6_find_eval⟩

/-- `get_mode_value` on a one-element list returns that element under every
policy. -/
theorem get_mode_value_singleton (mode : SelectionMethod) (v : ℚ) :
    get_mode_value mode [v] = v := by
  cases mode with
  | Min => rfl
  | Avg => simp [get_mode_value]
  | Max => rfl

/-- Inserting a depth above every element of a sorted-unique list appends it
at the end. -/
theorem insert_unique_depth_append (d : ℚ) :
    ∀ (acc : List ℚ), (∀ x ∈ acc, x < d) → insert_unique_depth d acc = acc ++ [d] := by
  intro acc
  induction acc with
  | nil => intro _; rfl
  | cons x xs ih =>
    intro hall
    have hx : x < d := hall x (by simp)
    have hne : ¬ d = x := by intro hc; rw [hc] at hx; exact lt_irrefl x hx
    simp only [insert_unique_depth, if_neg (by linarith : ¬ d < x), if_neg hne]
    rw [ih (fun y hy => hall y (by simp [hy]))]
    simp

/-- Folding `insert_unique_depth` over a strictly increasing list extends the
accumulator in order. -/
theorem foldl_insert_increasing :
    ∀ (ds acc : List ℚ), (acc ++ ds).Pairwise (· < ·) →
      ds.foldl (fun acc d => insert_unique_depth d acc) acc = acc ++ ds := by
  intro ds
  induction ds with
  | nil => intro acc _; simp
  | cons d rest ih =>
    intro acc hpw
    have hlt : ∀ x ∈ acc, x < d := by
      intro x hx
      exact (List.pairwise_append.mp hpw).2.2 x hx d (by simp)
    simp only [List.foldl_cons]
    rw [insert_unique_depth_append d acc hlt]
    have : ((acc ++ [d]) ++ rest).Pairwise (· < ·) := by
      simpa [List.append_assoc] using hpw
    rw [ih (acc ++ [d]) this]
    simp

/-- Every entry of `depth_map_insert d v m` has the key `d` or a key of
`m`. -/
theorem depth_map_insert_keys {α : Type} (d : ℚ) (v : α) :
    ∀ (m : List (ℚ × List α)) (p : ℚ × List α), p ∈ depth_map_insert d v m →
      p.1 = d ∨ ∃ q ∈ m, p.1 = q.1 := by
  intro m
  induction m with
  | nil =>
    intro p hp
    simp only [depth_map_insert, List.mem_singleton] at hp
    subst hp
    exact Or.inl rfl
  | cons q rest ih =>
    intro p hp
    rcases q with ⟨d0, vs⟩
    simp only [depth_map_insert] at hp
    by_cases h1 : d < d0
    · rw [if_pos h1] at hp
      rcases List.mem_cons.mp hp with h | h
      · subst h; exact Or.inl rfl
      · exact Or.inr ⟨p, h, rfl⟩
    · rw [if_neg h1] at hp
      by_cases h2 : d = d0
      · rw [if_pos h2] at hp
        rcases List.mem_cons.mp hp with h | h
        · subst h; exact Or.inl h2.symm
        · exact Or.inr ⟨p, by simp [h], rfl⟩
      · rw [if_neg h2] at hp
        rcases List.mem_cons.mp hp with h | h
        · subst h; exact Or.inr ⟨(d0, vs), by simp, rfl⟩
        · rcases ih p h with h3 | ⟨q2, hq2, h3⟩
          · exact Or.inl h3
          · exact Or.inr ⟨q2, by simp [hq2], h3⟩

/-- `depth_map_insert` preserves strictly increasing keys. -/
theorem depth_map_insert_sorted {α : Type} (d : ℚ) (v : α) :
    ∀ (m : List (ℚ × List α)), m.Pairwise (fun p q => p.1 < q.1) →
      (depth_map_insert d v m).Pairwise (fun p q => p.1 < q.1) := by
  intro m
  induction m with
  | nil => intro _; simp [depth_map_insert]
  | cons q rest ih =>
    intro hpw
    rcases q with ⟨d0, vs⟩
    rcases List.pairwise_cons.mp hpw with ⟨hall, hrest⟩
    simp only [depth_map_insert]
    by_cases h1 : d < d0
    · rw [if_pos h1]
      refine List.pairwise_cons.mpr ⟨?_, hpw⟩
      intro p hp
      rcases List.mem_cons.mp hp with h | h
      · subst h; exact h1
      · exact lt_trans h1 (hall p h)
    · rw [if_neg h1]
      by_cases h2 : d = d0
      · rw [if_pos h2]
        exact List.pairwise_cons.mpr ⟨hall, hrest⟩
      · rw [if_neg h2]
        refine List.pairwise_cons.mpr ⟨?_, ih hrest⟩
        intro p hp
        rcases depth_map_insert_keys d v rest p hp with h | ⟨q2, hq2, h3⟩
        · rw [h]
          exact lt_of_le_of_ne (not_lt.mp h1) (Ne.symm h2)
        · rw [h3]
          exact hall q2 hq2

/-- Lookup of an absent key is `none`. -/
theorem depth_map_lookup_none {α : Type} (d : ℚ) :
    ∀ (m : List (ℚ × List α)), (∀ p ∈ m, d ≠ p.1) → depth_map_lookup d m = none := by
  intro m
  induction m with
  | nil => intro _; rfl
  | cons q rest ih =>
    intro hall
    rcases q with ⟨d0, vs⟩
    simp only [depth_map_lookup, if_neg (hall (d0, vs) (by simp))]
    exact ih (fun p hp => hall p (by simp [hp]))

/-- Lookup after insertion: under sorted keys, inserting appends the value to
exactly its own depth bucket. -/
theorem depth_map_insert_lookup {α : Type} (d d0 : ℚ) (v : α) :
    ∀ (m : List (ℚ × List α)), m.Pairwise (fun p q => p.1 < q.1) →
      depth_map_lookup d (depth_map_insert d0 v m) =
        if d = d0 then some ((depth_map_lookup d m).getD [] ++ [v])
        else depth_map_lookup d m := by
  intro m
  induction m with
  | nil =>
    intro _
    by_cases h : d = d0
    · simp [depth_map_insert, depth_map_lookup, h]
    · simp [depth_map_insert, depth_map_lookup, h]
  | cons q rest ih =>
    intro hpw
    rcases q with ⟨d1, vs⟩
    rcases List.pairwise_cons.mp hpw with ⟨hall, hrest⟩
    simp only [depth_map_insert]
    by_cases h1 : d0 < d1
    · rw [if_pos h1]
      by_cases h : d = d0
      · subst h
        have hnone : depth_map_lookup d ((d1, vs) :: rest) = none := by
          apply depth_map_lookup_none
          intro p hp
          rcases List.mem_cons.mp hp with hh | hh
          · subst hh; exact ne_of_lt h1
          · exact ne_of_lt (lt_trans h1 (hall p hh))
        rw [if_pos rfl, hnone]
        simp [depth_map_lookup]
      · rw [if_neg h]
        simp only [depth_map_lookup, if_neg h]
    · rw [if_neg h1]
      by_cases h2 : d0 = d1
      · rw [if_pos h2]
        subst h2
        by_cases h : d = d0
        · subst h
          simp [depth_map_lookup]
        · simp [depth_map_lookup, if_neg h]
      · rw [if_neg h2]
        simp only [depth_map_lookup]
        by_cases h3 : d = d1
        · rw [if_pos h3, if_pos h3]
          rw [if_neg (by
            intro hc
            rw [h3] at hc
            exact h2 hc.symm)]
        · rw [if_neg h3, if_neg h3, ih hrest]

/-- A successful `List.mapM.loop` over `Option` is described by `Forall₂`. -/
theorem list_mapM_loop_option_forall2 {α β : Type} (f : α → Option β) :
    ∀ (l : List α) (acc r : List β), List.mapM.loop f l acc = some r →
      ∃ r2, List.Forall₂ (fun a b => f a = some b) l r2 ∧ r = acc.reverse ++ r2 := by
  intro l
  induction l with
  | nil =>
    intro acc r h
    simp only [List.mapM.loop] at h
    injection h with h
    exact ⟨[], List.Forall₂.nil, by simp [h.symm]⟩
  | cons a as ih =>
    intro acc r h
    simp only [List.mapM.loop] at h
    cases hfa : f a with
    | none => rw [hfa] at h; simp at h
    | some b =>
      rw [hfa] at h
      simp only [Option.bind_eq_bind', Option.some_bind] at h
      obtain ⟨r2, hf2, hr⟩ := ih (b :: acc) r h
      exact ⟨b :: r2, List.Forall₂.cons hfa hf2, by simp [hr]⟩

/-- A successful `List.mapM` over `Option` is described by `Forall₂`. -/
theorem list_mapM_option_forall2 {α β : Type} (f : α → Option β) (l : List α) (r : List β)
    (h : l.mapM f = some r) : List.Forall₂ (fun a b => f a = some b) l r := by
  obtain ⟨r2, hf2, hr⟩ := list_mapM_loop_option_forall2 f l [] r h
  simpa [hr] using hf2

/-- Converse: a `Forall₂` description yields the `List.mapM.loop` result. -/
theorem list_mapM_loop_option_of_forall2 {α β : Type} (f : α → Option β) :
    ∀ (l : List α) (r : List β), List.Forall₂ (fun a b => f a = some b) l r →
      ∀ acc : List β, List.mapM.loop f l acc = some (acc.reverse ++ r) := by
  intro l
  induction l with
  | nil =>
    intro r h acc
    cases h
    simp [List.mapM.loop]
  | cons a as ih =>
    intro r h acc
    cases h with
    | cons hfa hrest =>
      simp only [List.mapM.loop, hfa, Option.bind_eq_bind', Option.some_bind]
      rw [ih _ hrest]
      simp

/-- Converse: a `Forall₂` description yields the `List.mapM` result. -/
theorem list_mapM_option_of_forall2 {α β : Type} (f : α → Option β) (l : List α) (r : List β)
    (h : List.Forall₂ (fun a b => f a = some b) l r) : l.mapM f = some r := by
  have := list_mapM_loop_option_of_forall2 f l r h []
  simpa using this

/-- `unwrap_depths` on all-present depths returns the defaulted values. -/
theorem unwrap_depths_all_some :
    ∀ (ds : List (Option ℚ)), (∀ d ∈ ds, d.isSome) →
      unwrap_depths ds = some (ds.map (fun d => d.getD 0)) := by
  intro ds
  induction ds with
  | nil => intro _; rfl
  | cons d rest ih =>
    intro hall
    obtain ⟨dv, hdv⟩ := Option.isSome_iff_exists.mp (hall d (by simp))
    subst hdv
    simp only [unwrap_depths, ih (fun x hx => hall x (by simp [hx])), Option.map_some]
    simp

/-- Nearest-depth lookup in a depth-sorted CPT experiment hits each record at
its own depth. -/
theorem cpt_find_sorted (whole : List CPTLayer) :
    ∀ (ls : List CPTLayer), (∀ l ∈ ls, l.depth.isSome) →
      List.Pairwise (fun a b => a.depth.getD 0 < b.depth.getD 0) ls →
      ∀ (i : Nat) (layer : CPTLayer), ls.get? i = some layer →
        cpt_get_layer_at_depth_go (layer.depth.getD 0) whole ls = some layer := by
  intro ls
  induction ls with
  | nil => intro _ _ i layer h; simp at h
  | cons hd tl ih =>
    intro hpres hsort i layer hget
    obtain ⟨dh, hdh⟩ := Option.isSome_iff_exists.mp (hpres hd (by simp))
    cases i with
    | zero =>
      simp only [List.get?] at hget
      injection hget with hget
      subst hget
      simp [cpt_get_layer_at_depth_go, hdh]
    | succ j =>
      simp only [List.get?] at hget
      have hmem : layer ∈ tl := List.get?_mem hget
      have hlt : hd.depth.getD 0 < layer.depth.getD 0 :=
        (List.pairwise_cons.mp hsort).1 layer hmem
      rw [hdh] at hlt
      simp only [cpt_get_layer_at_depth_go, hdh]
      rw [if_neg (by simpa using not_le.mpr hlt)]
      exact ih (fun l hl => hpres l (by simp [hl])) (List.pairwise_cons.mp hsort).2 j layer hget

/-- C5 helper (CPT): idealizing a collection with exactly one depth-sorted,
fully populated experiment preserves every measured value. -/
theorem cpt_single_identity (exp : CPTExp) (mode : SelectionMethod) (name : String)
    (hpres : ∀ l ∈ exp.layers, l.depth.isSome ∧ l.cone_resistance.isSome ∧
      l.sleeve_friction.isSome ∧ l.pore_pressure.isSome)
    (hsort : List.Pairwise (fun a b => a.depth.getD 0 < b.depth.getD 0) exp.layers) :
    ∃ out, CPT.get_idealized_exp ⟨[exp], mode⟩ name = some out ∧
      out.layers.map (fun l =>
        (l.depth, l.cone_resistance, l.sleeve_friction, l.pore_pressure)) =
      exp.layers.map (fun l =>
        (l.depth, l.cone_resistance, l.sleeve_friction, l.pore_pressure)) := by
  have hflat : (([exp] : List CPTExp).flatMap (fun e => e.layers.map (fun l => l.depth))) =
      exp.layers.map (fun l => l.depth) := by simp
  have hud : unwrap_depths (([exp] : List CPTExp).flatMap
      (fun e => e.layers.map (fun l => l.depth))) =
      some (exp.layers.map (fun l => l.depth.getD 0)) := by
    rw [hflat, unwrap_depths_all_some]
    · simp
    · intro d hd
      rcases List.mem_map.mp hd with ⟨l, hl, hleq⟩
      rw [← hleq]
      exact (hpres l hl).1
  have hsorted : ((exp.layers.map (fun l => l.depth.getD 0)).foldl
      (fun acc d => insert_unique_depth d acc) []) =
      exp.layers.map (fun l => l.depth.getD 0) := by
    have := foldl_insert_increasing (exp.layers.map (fun l => l.depth.getD 0)) []
      (by simpa [List.pairwise_map] using hsort)
    simpa using this
  have hsample : ∀ layer ∈ exp.layers,
      cpt_sample_at [exp] (layer.depth.getD 0) =
        some [(layer.cone_resistance.getD 0, layer.sleeve_friction.getD 0,
          layer.pore_pressure.getD 0)] := by
    intro layer hmem
    obtain ⟨i, hget⟩ := List.get?_of_mem hmem
    have hfind := cpt_find_sorted exp.layers exp.layers
      (fun l hl => (hpres l hl).1) hsort i layer hget
    obtain ⟨qc, hqc⟩ := Option.isSome_iff_exists.mp (hpres layer hmem).2.1
    obtain ⟨fs, hfs⟩ := Option.isSome_iff_exists.mp (hpres layer hmem).2.2.1
    simp [cpt_sample_at, List.mapM.loop, CPTExp.get_layer_at_depth, hfind, hqc, hfs]
  have hmapM : (exp.layers.map (fun l => l.depth.getD 0)).mapM (fun depth => do
      let samples ← cpt_sample_at [exp] depth
      let qc := get_mode_value mode (samples.map (fun s => s.1))
      let fs := get_mode_value mode (samples.map (fun s => s.2.1))
      let u2 := get_mode_value mode (samples.map (fun s => s.2.2))
      pure (CPTLayer.new depth qc fs (some u2))) =
      some (exp.layers.map (fun l => CPTLayer.new (l.depth.getD 0) (l.cone_resistance.getD 0)
        (l.sleeve_friction.getD 0) (some (l.pore_pressure.getD 0)))) := by
    apply list_mapM_option_of_forall2
    rw [List.forall₂_map_right_iff, List.forall₂_map_left_iff]
    apply List.forall₂_same.mpr
    intro layer hmem
    simp [hsample layer hmem, get_mode_value_singleton]
  simp only [Option.bind_eq_bind', Option.pure_def] at hmapM
  refine ⟨CPTExp.new (exp.layers.map (fun l => CPTLayer.new (l.depth.getD 0)
    (l.cone_resistance.getD 0) (l.sleeve_friction.getD 0)
    (some (l.pore_pressure.getD 0)))) name, ?_, ?_⟩
  · simp only [CPT.get_idealized_exp, if_neg (by simp : ¬([exp] : List CPTExp) = []),
      hud, Option.bind_eq_bind', Option.some_bind, Option.pure_def, hsorted, hmapM]
  · simp only [CPTExp.new, List.map_map]
    apply List.map_congr_left
    intro layer hmem
    obtain ⟨dv, hdv⟩ := Option.isSome_iff_exists.mp (hpres layer hmem).1
    obtain ⟨qc, hqc⟩ := Option.isSome_iff_exists.mp (hpres layer hmem).2.1
    obtain ⟨fs, hfs⟩ := Option.isSome_iff_exists.mp (hpres layer hmem).2.2.1
    obtain ⟨u2, hu2⟩ := Option.isSome_iff_exists.mp (hpres layer hmem).2.2.2
    simp [CPTLayer.new, Function.comp, hdv, hqc, hfs, hu2]

/-- Inserting a key above every key of a map appends a fresh bucket. -/
theorem depth_map_insert_append {α : Type} (d : ℚ) (v : α) :
    ∀ (m : List (ℚ × List α)), (∀ p ∈ m, p.1 < d) →
      depth_map_insert d v m = m ++ [(d, [v])] := by
  intro m
  induction m with
  | nil => intro _; rfl
  | cons q rest ih =>
    intro hall
    rcases q with ⟨d0, vs⟩
    have h0 : d0 < d := hall (d0, vs) (by simp)
    have hne : ¬ d = d0 := by intro hc; rw [hc] at h0; exact lt_irrefl d0 h0
    simp only [depth_map_insert, if_neg (by linarith : ¬ d < d0), if_neg hne]
    rw [ih (fun p hp => hall p (by simp [hp]))]
    simp

/-- Collecting depth-sorted blows with fresh depths appends one singleton
bucket per blow. -/
theorem spt_collect_blows_sorted :
    ∀ (blows : List SPTBlow) (m : List (ℚ × List NValue)),
    (∀ b ∈ blows, b.depth.isSome ∧ b.n.isSome) →
    List.Pairwise (fun a b => a.depth.getD 0 < b.depth.getD 0) blows →
    (∀ p ∈ m, ∀ b ∈ blows, p.1 < b.depth.getD 0) →
    spt_collect_blows m blows =
      some (m ++ blows.map (fun b => (b.depth.getD 0, [b.n.getD (NValue.Value 0)]))) := by
  intro blows
  induction blows with
  | nil => intro m _ _ _; simp [spt_collect_blows]
  | cons b rest ih =>
    intro m hpres hsort hfresh
    obtain ⟨db, hdb⟩ := Option.isSome_iff_exists.mp (hpres b (by simp)).1
    obtain ⟨nb, hnb⟩ := Option.isSome_iff_exists.mp (hpres b (by simp)).2
    have hins : depth_map_insert db nb m = m ++ [(db, [nb])] := by
      apply depth_map_insert_append
      intro p hp
      have := hfresh p hp b (by simp)
      rw [hdb] at this
      simpa using this
    have hih := ih (m ++ [(db, [nb])])
      (fun b2 hb2 => hpres b2 (by simp [hb2]))
      (List.pairwise_cons.mp hsort).2
      (by
        intro p hp b2 hb2
        rcases List.mem_append.mp hp with h | h
        · exact hfresh p h b2 (by simp [hb2])
        · have hpd : p = (db, [nb]) := by simpa using h
          subst hpd
          have := (List.pairwise_cons.mp hsort).1 b2 hb2
          rw [hdb] at this
          simpa using this)
    simp only [spt_collect_blows, hdb, hnb, Option.bind_eq_bind', Option.some_bind, hins, hih]
    simp [hdb, hnb]

/-- `spt_selected_n` on a singleton bucket under Min or Max returns that
value. -/
theorem spt_selected_n_singleton_min (v : NValue) :
    spt_selected_n SelectionMethod.Min [v] = some v := rfl

/-- `spt_selected_n` on a singleton bucket under Max returns that value. -/
theorem spt_selected_n_singleton_max (v : NValue) :
    spt_selected_n SelectionMethod.Max [v] = some v := rfl

/-- `spt_selected_n` on a singleton finite count of at least 1 under Avg
returns it unchanged (the mean of one value rounds to itself). -/
theorem spt_selected_n_singleton_avg (k : ℤ) (hk : 1 ≤ k) :
    spt_selected_n SelectionMethod.Avg [NValue.Value k] = some (NValue.Value k) := by
  have hsum : (([NValue.Value k] : List NValue).filterMap
      (fun n => n.to_option.map (fun v => (v : ℚ)))).sum = (k : ℚ) := by
    simp [NValue.to_option, List.filterMap]
  have hround : round_half_away ((k : ℚ) / 1) = k := by
    rw [div_one, round_half_away, if_pos (by exact_mod_cast le_trans zero_le_one hk)]
    rw [Int.floor_eq_iff]
    constructor
    · linarith
    · linarith
  simp only [spt_selected_n, hsum, List.length_singleton, Nat.cast_one, hround,
    NValue.from_i32]
  rw [if_neg (show ¬ k ≤ 0 by omega)]

/-- C5 helper (SPT): idealizing a collection with a single depth-sorted
experiment preserves depth and blow count, provided under the Avg policy
every blow count is a finite value of at least 1. -/
theorem spt_single_identity (exp : SPTExp) (mode : SelectionMethod) (name : String)
    (hpres : ∀ b ∈ exp.blows, b.depth.isSome ∧ b.n.isSome)
    (hsort : List.Pairwise (fun a b => a.depth.getD 0 < b.depth.getD 0) exp.blows)
    (havg : mode = SelectionMethod.Avg →
      ∀ b ∈ exp.blows, ∃ k : ℤ, 1 ≤ k ∧ b.n = some (NValue.Value k)) :
    ∃ out, SPT.get_idealized_exp
        { exps := [exp], idealization_method := mode } name = some out ∧
      out.blows.map (fun b => (b.depth, b.n)) = exp.blows.map (fun b => (b.depth, b.n)) := by
  have hbuild : spt_build_map [] [exp] =
      some (exp.blows.map (fun b => (b.depth.getD 0, [b.n.getD (NValue.Value 0)]))) := by
    have hcollect := spt_collect_blows_sorted exp.blows [] hpres hsort (by simp)
    simp only [spt_build_map, hcollect, Option.bind_eq_bind', Option.some_bind]
    simp [spt_build_map]
  have hmapM : (exp.blows.map (fun b => (b.depth.getD 0, [b.n.getD (NValue.Value 0)]))).mapM
      (fun p => do
        let selected ← spt_selected_n mode p.2
        pure ({ depth := some p.1, n1 := some (NValue.Value 0), n2 := some (NValue.Value 0),
                n3 := some (NValue.Value 0), n := some selected } : SPTBlow)) =
      some (exp.blows.map (fun b =>
        ({ depth := some (b.depth.getD 0), n1 := some (NValue.Value 0),
           n2 := some (NValue.Value 0), n3 := some (NValue.Value 0),
           n := some (b.n.getD (NValue.Value 0)) } : SPTBlow))) := by
    apply list_mapM_option_of_forall2
    rw [List.forall₂_map_right_iff, List.forall₂_map_left_iff]
    apply List.forall₂_same.mpr
    intro b hmem
    have hsel : spt_selected_n mode [b.n.getD (NValue.Value 0)] =
        some (b.n.getD (NValue.Value 0)) := by
      cases mode with
      | Min => exact spt_selected_n_singleton_min _
      | Max => exact spt_selected_n_singleton_max _
      | Avg =>
        obtain ⟨k, hk, hbn⟩ := havg rfl b hmem
        rw [hbn]
        exact spt_selected_n_singleton_avg k hk
    simp [hsel]
  simp only [Option.bind_eq_bind', Option.pure_def] at hmapM
  refine ⟨SPTExp.new (exp.blows.map (fun b =>
    ({ depth := some (b.depth.getD 0), n1 := some (NValue.Value 0),
       n2 := some (NValue.Value 0), n3 := some (NValue.Value 0),
       n := some (b.n.getD (NValue.Value 0)) } : SPTBlow))) name, ?_, ?_⟩
  · simp only [SPT.get_idealized_exp, hbuild, Option.bind_eq_bind', Option.some_bind,
      Option.pure_def, hmapM]
  · simp only [SPTExp.new, List.map_map]
    apply List.map_congr_left
    intro b hmem
    obtain ⟨db, hdb⟩ := Option.isSome_iff_exists.mp (hpres b hmem).1
    obtain ⟨nb, hnb⟩ := Option.isSome_iff_exists.mp (hpres b hmem).2
    simp [Function.comp, hdb, hnb]

/-- Collecting depth-sorted point-load samples with fresh depths appends one
singleton bucket per sample. -/
theorem plt_collect_samples_sorted :
    ∀ (samples : List PointLoadSample) (m : List (ℚ × List (ℚ × ℚ))),
    (∀ s ∈ samples, s.depth.isSome ∧ s.is50.isSome ∧ s.d.isSome) →
    List.Pairwise (fun a b => a.depth.getD 0 < b.depth.getD 0) samples →
    (∀ p ∈ m, ∀ s ∈ samples, p.1 < s.depth.getD 0) →
    plt_collect_samples m samples =
      some (m ++ samples.map (fun s => (s.depth.getD 0, [(s.is50.getD 0, s.d.getD 0)]))) := by
  intro samples
  induction samples with
  | nil => intro m _ _ _; simp [plt_collect_samples]
  | cons s rest ih =>
    intro m hpres hsort hfresh
    obtain ⟨ds, hds⟩ := Option.isSome_iff_exists.mp (hpres s (by simp)).1
    obtain ⟨i50, hi50⟩ := Option.isSome_iff_exists.mp (hpres s (by simp)).2.1
    obtain ⟨dia, hdia⟩ := Option.isSome_iff_exists.mp (hpres s (by simp)).2.2
    have hins : depth_map_insert ds (i50, dia) m = m ++ [(ds, [(i50, dia)])] := by
      apply depth_map_insert_append
      intro p hp
      have := hfresh p hp s (by simp)
      rw [hds] at this
      simpa using this
    have hih := ih (m ++ [(ds, [(i50, dia)])])
      (fun s2 hs2 => hpres s2 (by simp [hs2]))
      (List.pairwise_cons.mp hsort).2
      (by
        intro p hp s2 hs2
        rcases List.mem_append.mp hp with h | h
        · exact hfresh p h s2 (by simp [hs2])
        · have hpd : p = (ds, [(i50, dia)]) := by simpa using h
          subst hpd
          have := (List.pairwise_cons.mp hsort).1 s2 hs2
          rw [hds] at this
          simpa using this)
    simp only [plt_collect_samples, hds, hi50, hdia, Option.bind_eq_bind', Option.some_bind,
      hins, hih]
    simp [hds, hi50, hdia]

/-- `plt_selected` on a singleton bucket returns that pair under every
policy. -/
theorem plt_selected_singleton (mode : SelectionMethod) (p : ℚ × ℚ) :
    plt_selected mode [p] = some p := by
  cases mode with
  | Min => rfl
  | Max => rfl
  | Avg => simp [plt_selected]

/-- C5 helper (point-load): idealizing a collection with a single depth-sorted
experiment preserves depth, `is50` and `d` under every policy. -/
theorem plt_single_identity (exp : PointLoadExp) (mode : SelectionMethod) (name : String)
    (hpres : ∀ s ∈ exp.samples, s.depth.isSome ∧ s.is50.isSome ∧ s.d.isSome)
    (hsort : List.Pairwise (fun a b => a.depth.getD 0 < b.depth.getD 0) exp.samples) :
    ∃ out, PointLoadTest.get_idealized_exp
        { exps := [exp], idealization_method := mode } name = some out ∧
      out.samples.map (fun s => (s.depth, s.is50, s.d)) =
        exp.samples.map (fun s => (s.depth, s.is50, s.d)) := by
  have hbuild : plt_build_map [] [exp] =
      some (exp.samples.map (fun s => (s.depth.getD 0, [(s.is50.getD 0, s.d.getD 0)]))) := by
    have hcollect := plt_collect_samples_sorted exp.samples [] hpres hsort (by simp)
    simp only [plt_build_map, hcollect, Option.bind_eq_bind', Option.some_bind]
    simp [plt_build_map]
  have hmapM : (exp.samples.map
      (fun s => (s.depth.getD 0, [(s.is50.getD 0, s.d.getD 0)]))).mapM (fun p => do
        let sel ← plt_selected mode p.2
        pure (PointLoadSample.new p.1 sel.1 sel.2)) =
      some (exp.samples.map (fun s =>
        PointLoadSample.new (s.depth.getD 0) (s.is50.getD 0) (s.d.getD 0))) := by
    apply list_mapM_option_of_forall2
    rw [List.forall₂_map_right_iff, List.forall₂_map_left_iff]
    apply List.forall₂_same.mpr
    intro s hmem
    simp [plt_selected_singleton]
  simp only [Option.bind_eq_bind', Option.pure_def] at hmapM
  refine ⟨PointLoadExp.new name (exp.samples.map (fun s =>
    PointLoadSample.new (s.depth.getD 0) (s.is50.getD 0) (s.d.getD 0))), ?_, ?_⟩
  · simp only [PointLoadTest.get_idealized_exp,
      if_neg (by simp : ¬([exp] : List PointLoadExp) = []), hbuild,
      Option.bind_eq_bind', Option.some_bind, Option.pure_def, hmapM]
  · simp only [PointLoadExp.new, List.map_map]
    apply List.map_congr_left
    intro s hmem
    obtain ⟨ds, hds⟩ := Option.isSome_iff_exists.mp (hpres s hmem).1
    obtain ⟨i50, hi50⟩ := Option.isSome_iff_exists.mp (hpres s hmem).2.1
    obtain ⟨dia, hdia⟩ := Option.isSome_iff_exists.mp (hpres s hmem).2.2
    simp [Function.comp, PointLoadSample.new, hds, hi50, hdia]

/-- Unfolding lemma for `masw_thickness_sum` on a cons cell. -/
theorem masw_tsum_cons (hd : MaswLayer) (tl : List MaswLayer) (i : Nat) :
    masw_thickness_sum (hd :: tl) (i + 1) =
      hd.thickness.getD 0 + masw_thickness_sum tl i := by
  simp [masw_thickness_sum, List.take]

/-- One step of `masw_thickness_sum`: extending the prefix by layer `k` adds
its thickness. -/
theorem masw_tsum_step (ls : List MaswLayer) (k : Nat) (layer : MaswLayer)
    (h : ls.get? k = some layer) :
    masw_thickness_sum ls (k + 1) = masw_thickness_sum ls k + layer.thickness.getD 0 := by
  unfold masw_thickness_sum
  rw [List.take_succ]
  rw [List.get?_eq_getElem?] at h
  rw [h]
  simp

/-- Strict monotonicity of `masw_thickness_sum` in the index on layers with
positive thickness. -/
theorem masw_tsum_lt (ls : List MaswLayer)
    (hpos : ∀ l ∈ ls, 0 < l.thickness.getD 0) :
    ∀ i j : Nat, i < j → j ≤ ls.length →
      masw_thickness_sum ls i < masw_thickness_sum ls j := by
  have step : ∀ k : Nat, (hk : k < ls.length) →
      masw_thickness_sum ls k < masw_thickness_sum ls (k + 1) := by
    intro k hk
    rw [masw_tsum_step ls k (ls.get ⟨k, hk⟩) (List.get?_eq_get hk)]
    have hmem : ls.get ⟨k, hk⟩ ∈ ls := List.get?_mem (List.get?_eq_get hk)
    have := hpos (ls.get ⟨k, hk⟩) hmem
    linarith
  intro i j
  induction j with
  | zero => intro hij _; omega
  | succ j ihj =>
    intro hij hj
    by_cases h : i < j
    · exact lt_trans (ihj h (by omega)) (step j (by omega))
    · have hieq : i = j := by omega
      subst hieq
      exact step i (by omega)

/-- Weak monotonicity of `masw_thickness_sum`. -/
theorem masw_tsum_le (ls : List MaswLayer)
    (hpos : ∀ l ∈ ls, 0 < l.thickness.getD 0)
    (i j : Nat) (hij : i ≤ j) (hj : j ≤ ls.length) :
    masw_thickness_sum ls i ≤ masw_thickness_sum ls j := by
  rcases lt_or_eq_of_le hij with h | h
  · exact le_of_lt (masw_tsum_lt ls hpos i j h hj)
  · rw [h]

/-- A list whose entries are given by a strictly monotone index function is
pairwise increasing. -/
theorem pairwise_lt_of_get (l : List ℚ) (f : Nat → ℚ)
    (hf : ∀ i : Nat, i < l.length → l.get? i = some (f i))
    (hmono : ∀ i j : Nat, i < j → j < l.length → f i < f j) :
    l.Pairwise (· < ·) := by
  rw [List.pairwise_iff_getElem]
  intro i j hi hj hij
  have h1 := hf i (by omega)
  have h2 := hf j hj
  rw [List.get?_eq_getElem?, List.getElem?_eq_getElem (by omega : i < l.length)] at h1
  rw [List.get?_eq_getElem?, List.getElem?_eq_getElem hj] at h2
  injection h1 with h1
  injection h2 with h2
  rw [h1, h2]
  exact hmono i j hij hj

/-- Helper: `masw_calc_depths_go` succeeds on layers with present positive
thicknesses and labels layer `i` with depth `bottom + masw_thickness_sum (i+1)`. -/
theorem masw_calc_depths_go_spec (ls : List MaswLayer) :
    ∀ bottom : ℚ,
    (∀ layer ∈ ls, layer.thickness.isSome ∧ 0 < layer.thickness.getD 0) →
    ∃ out, masw_calc_depths_go bottom ls = some out ∧
      out.length = ls.length ∧
      ∀ i layer, ls.get? i = some layer →
        out.get? i = some { layer with
          depth := some (bottom + masw_thickness_sum ls (i + 1)) } := by
  induction ls with
  | nil =>
    intro bottom _
    exact ⟨[], rfl, rfl, fun i layer h => by simp at h⟩
  | cons hd tl ih =>
    intro bottom hall
    obtain ⟨t, ht⟩ := Option.isSome_iff_exists.mp (hall hd (by simp)).1
    have htpos : (0 : ℚ) < t := by
      have := (hall hd (by simp)).2
      rw [ht] at this
      simpa using this
    obtain ⟨out, hout, hlen, hidx⟩ :=
      ih (bottom + t) (fun layer hmem => hall layer (by simp [hmem]))
    refine ⟨({ hd with depth := some (bottom + t) }) :: out, ?_, by simp [hlen], ?_⟩
    · simp [masw_calc_depths_go, ht, hout, not_le.mpr htpos]
    · intro i layer hget
      cases i with
      | zero =>
        simp only [List.get?] at hget
        injection hget with hget
        subst hget
        simp [masw_thickness_sum, List.take, ht]
      | succ j =>
        simp only [List.get?] at hget ⊢
        rw [hidx j layer hget]
        rw [masw_tsum_cons, ht]
        simp [add_assoc]

/-- Nearest-depth lookup in a MASW layer list: the layer at index `i` is
returned when every earlier depth falls strictly below the query and the
query does not exceed its own depth. -/
theorem masw_find_interval (whole : List MaswLayer) :
    ∀ (ls : List MaswLayer) (i : Nat) (layer : MaswLayer) (q : ℚ),
      ls.get? i = some layer →
      (∀ j l2, j < i → ls.get? j = some l2 → l2.depth.getD 0 < q) →
      (∀ l ∈ ls, l.depth.isSome) →
      q ≤ layer.depth.getD 0 →
      masw_get_layer_at_depth_go q whole ls = some layer := by
  intro ls
  induction ls with
  | nil => intro i layer q hget _ _ _; simp at hget
  | cons hd tl ih =>
    intro i layer q hget hbefore hpres hle
    obtain ⟨d, hd2⟩ := Option.isSome_iff_exists.mp (hpres hd (by simp))
    cases i with
    | zero =>
      simp only [List.get?] at hget
      injection hget with hget
      subst hget
      have hle2 : d ≥ q := by
        rw [hd2] at hle
        simpa using hle
      simp [masw_get_layer_at_depth_go, hd2, hle2]
    | succ j =>
      simp only [List.get?] at hget
      have hlt : hd.depth.getD 0 < q := hbefore 0 hd (by omega) rfl
      rw [hd2] at hlt
      simp only [Option.getD_some] at hlt
      simp only [masw_get_layer_at_depth_go, hd2]
      rw [if_neg (by simpa using not_le.mpr hlt)]
      exact ih j layer q hget
        (fun j2 l2 hj2 hget2 => hbefore (j2 + 1) l2 (by omega) hget2)
        (fun l hl => hpres l (by simp [hl]))
        hle

/-- C5 helper (MASW): idealizing a collection with exactly one experiment
whose layers all carry present positive thicknesses and present velocities
reproduces the source thickness/vs/vp values (depths are recomputed). -/
theorem masw_single_identity (exp : MaswExp) (mode : SelectionMethod) (name : String)
    (hpres : ∀ l ∈ exp.layers, l.thickness.isSome ∧ 0 < l.thickness.getD 0 ∧
      l.vs.isSome ∧ l.vp.isSome) :
    ∃ out st,
      Masw.get_idealized_exp { exps := [exp], idealization_method := mode } name =
        some (out, st) ∧
      out.layers.map (fun l => (l.thickness, l.vs, l.vp)) =
        exp.layers.map (fun l => (l.thickness, l.vs, l.vp)) := by
  by_cases hemp : exp.layers = []
  · refine ⟨{ layers := [], name := name },
      { exps := [exp], idealization_method := mode }, ?_, by simp [hemp]⟩
    simp [Masw.get_idealized_exp, Masw.calc_depths, MaswExp.calc_depths, MaswExp.new,
      hemp, List.mapM, List.mapM.loop, unwrap_depths, insert_unique_depth,
      Option.bind_eq_bind', Option.pure_def]
  · have hne : exp.layers ≠ [] := hemp
    have hp2 : ∀ l ∈ exp.layers, 0 < l.thickness.getD 0 := fun l hl => (hpres l hl).2.1
    obtain ⟨dl, hdl, hdlen, hdidx0⟩ := masw_calc_depths_go_spec exp.layers 0
      (fun l hl => ⟨(hpres l hl).1, (hpres l hl).2.1⟩)
    have hdidx : ∀ i layer, exp.layers.get? i = some layer →
        dl.get? i = some { layer with
          depth := some (masw_thickness_sum exp.layers (i + 1)) } := by
      intro i layer h
      rw [hdidx0 i layer h, zero_add]
    have hcd : MaswExp.calc_depths exp = some { exp with layers := dl } := by
      simp only [MaswExp.calc_depths]
      rw [if_neg hne, hdl]
      rfl
    have hmapcd : ([exp] : List MaswExp).mapM MaswExp.calc_depths =
        some [{ exp with layers := dl }] := by
      simp [List.mapM, List.mapM.loop, hcd]
    have hmasw_cd : Masw.calc_depths { exps := [exp], idealization_method := mode } =
        some { exps := [{ exp with layers := dl }], idealization_method := mode } := by
      simp only [Masw.calc_depths, hmapcd, Option.map_some']
    have hpres_dl : ∀ l ∈ dl, l.depth.isSome := by
      intro l hl
      obtain ⟨i, hi⟩ := List.get?_of_mem hl
      obtain ⟨hilt, -⟩ := List.get?_eq_some.mp hi
      have hin : i < exp.layers.length := by rw [← hdlen]; exact hilt
      have hlayer : exp.layers.get? i = some (exp.layers.get ⟨i, hin⟩) := List.get?_eq_get hin
      have h2 := hdidx i _ hlayer
      rw [hi] at h2
      injection h2 with h2
      rw [h2]
      rfl
    have hudep : unwrap_depths (dl.map (fun l => l.depth)) =
        some (dl.map (fun l => l.depth.getD 0)) := by
      have h0 := unwrap_depths_all_some (dl.map (fun l => l.depth)) (by
        intro d hd
        rcases List.mem_map.mp hd with ⟨l, hl, hleq⟩
        rw [← hleq]
        exact hpres_dl l hl)
      rw [h0, List.map_map]
      rfl
    have hds_idx : ∀ i : Nat, i < exp.layers.length →
        (dl.map (fun l => l.depth.getD 0)).get? i =
          some (masw_thickness_sum exp.layers (i + 1)) := by
      intro i hi
      have hlayer : exp.layers.get? i = some (exp.layers.get ⟨i, hi⟩) := List.get?_eq_get hi
      rw [List.get?_map, hdidx i _ hlayer]
      rfl
    have hds_len : (dl.map (fun l => l.depth.getD 0)).length = exp.layers.length := by
      simp [hdlen]
    have hpw : ((0 : ℚ) :: dl.map (fun l => l.depth.getD 0)).Pairwise (· < ·) := by
      apply pairwise_lt_of_get _ (fun i => masw_thickness_sum exp.layers i)
      · intro i hi
        cases i with
        | zero => simp [masw_thickness_sum]
        | succ j =>
          have hj : j < exp.layers.length := by
            simp only [List.length_cons, hds_len] at hi
            omega
          simpa only [List.get?] using hds_idx j hj
      · intro i j hij hj
        apply masw_tsum_lt exp.layers hp2 i j hij
        simp only [List.length_cons, hds_len] at hj
        omega
    have hfold : (dl.map (fun l => l.depth.getD 0)).foldl
        (fun acc d => insert_unique_depth d acc) [0] =
        (0 : ℚ) :: dl.map (fun l => l.depth.getD 0) := by
      have h := foldl_insert_increasing (dl.map (fun l => l.depth.getD 0)) [0]
        (by simpa using hpw)
      simpa using h
    have hpairs_idx : ∀ i : Nat, i < exp.layers.length →
        (((0 : ℚ) :: dl.map (fun l => l.depth.getD 0)).zip
          (dl.map (fun l => l.depth.getD 0))).get? i =
        some (masw_thickness_sum exp.layers i, masw_thickness_sum exp.layers (i + 1)) := by
      intro i hi
      refine (List.get?_zip_eq_some _ _ _ _).mpr ⟨?_, ?_⟩
      · cases i with
        | zero => simp [masw_thickness_sum]
        | succ j =>
          have hj : j < exp.layers.length := by omega
          simpa only [List.get?] using hds_idx j hj
      · exact hds_idx i hi
    have hlayers : ((((0 : ℚ) :: dl.map (fun l => l.depth.getD 0)).zip
        (dl.map (fun l => l.depth.getD 0))).mapM (fun pr => do
          let top := pr.1
          let bottom := pr.2
          let thickness := bottom - top
          let vals ← ([{ exp with layers := dl }] : List MaswExp).mapM (fun e => do
            let layer ← e.get_layer_at_depth ((top + bottom) / 2)
            let vs ← layer.vs
            let vp ← layer.vp
            pure (vs, vp))
          pure (MaswLayer.new thickness
            (get_mode_value mode (vals.map (fun v => v.1)))
            (get_mode_value mode (vals.map (fun v => v.2)))))) =
        some (exp.layers.map (fun l =>
          MaswLayer.new (l.thickness.getD 0) (l.vs.getD 0) (l.vp.getD 0))) := by
      apply list_mapM_option_of_forall2
      rw [List.forall₂_iff_get]
      refine ⟨?_, ?_⟩
      · rw [List.length_zip, List.length_cons, hds_len, List.length_map]
        omega
      · intro i h1 h2
        have hn : i < exp.layers.length := by simpa using h2
        have hlayer : exp.layers.get? i = some (exp.layers.get ⟨i, hn⟩) := List.get?_eq_get hn
        have hmem : exp.layers.get ⟨i, hn⟩ ∈ exp.layers := List.get?_mem hlayer
        obtain ⟨t0, ht0⟩ := Option.isSome_iff_exists.mp (hpres _ hmem).1
        obtain ⟨vs0, hvs0⟩ := Option.isSome_iff_exists.mp (hpres _ hmem).2.2.1
        obtain ⟨vp0, hvp0⟩ := Option.isSome_iff_exists.mp (hpres _ hmem).2.2.2
        have hpget : (((0 : ℚ) :: dl.map (fun l => l.depth.getD 0)).zip
            (dl.map (fun l => l.depth.getD 0))).get ⟨i, h1⟩ =
            (masw_thickness_sum exp.layers i, masw_thickness_sum exp.layers (i + 1)) := by
          have h := hpairs_idx i hn
          rw [List.get?_eq_get h1] at h
          injection h
        have hrget : (exp.layers.map (fun l =>
            MaswLayer.new (l.thickness.getD 0) (l.vs.getD 0) (l.vp.getD 0))).get ⟨i, h2⟩ =
            MaswLayer.new ((exp.layers.get ⟨i, hn⟩).thickness.getD 0)
              ((exp.layers.get ⟨i, hn⟩).vs.getD 0) ((exp.layers.get ⟨i, hn⟩).vp.getD 0) := by
          have h := List.get?_eq_get h2
          rw [List.get?_map, hlayer, Option.map_some'] at h
          injection h with h
          exact h.symm
        rw [hpget, hrget]
        have htlt : masw_thickness_sum exp.layers i < masw_thickness_sum exp.layers (i + 1) :=
          masw_tsum_lt exp.layers hp2 i (i + 1) (by omega) (by omega)
        have hfind : masw_get_layer_at_depth_go
            ((masw_thickness_sum exp.layers i + masw_thickness_sum exp.layers (i + 1)) / 2)
            dl dl = some ({ exp.layers.get ⟨i, hn⟩ with
              depth := some (masw_thickness_sum exp.layers (i + 1)) }) := by
          apply masw_find_interval dl dl i _ _ (hdidx i _ hlayer) ?_ hpres_dl ?_
          · intro j l2 hj hget2
            have hjn : j < exp.layers.length := by omega
            have hlj : exp.layers.get? j = some (exp.layers.get ⟨j, hjn⟩) :=
              List.get?_eq_get hjn
            have h3 := hdidx j _ hlj
            rw [hget2] at h3
            injection h3 with h3
            subst h3
            have hle1 : masw_thickness_sum exp.layers (j + 1) ≤
                masw_thickness_sum exp.layers i :=
              masw_tsum_le exp.layers hp2 (j + 1) i (by omega) (by omega)
            show masw_thickness_sum exp.layers (j + 1) <
              (masw_thickness_sum exp.layers i + masw_thickness_sum exp.layers (i + 1)) / 2
            linarith
          · show (masw_thickness_sum exp.layers i + masw_thickness_sum exp.layers (i + 1)) / 2 ≤
              masw_thickness_sum exp.layers (i + 1)
            linarith
        have hvals : ([{ exp with layers := dl }] : List MaswExp).mapM (fun e => do
            let layer ← e.get_layer_at_depth
              ((masw_thickness_sum exp.layers i + masw_thickness_sum exp.layers (i + 1)) / 2)
            let vs ← layer.vs
            let vp ← layer.vp
            pure (vs, vp)) = some [(vs0, vp0)] := by
          simp [List.mapM, List.mapM.loop, MaswExp.get_layer_at_depth, hfind,
            Option.bind_eq_bind', Option.pure_def,
            show exp.layers[i].vs = some vs0 from hvs0,
            show exp.layers[i].vp = some vp0 from hvp0]
        simp only [Option.bind_eq_bind', Option.pure_def] at hvals
        have hstep := masw_tsum_step exp.layers i _ hlayer
        simp only [Option.bind_eq_bind', Option.pure_def]
        rw [hvals, Option.some_bind]
        rw [hstep, add_sub_cancel_left]
        simp [get_mode_value_singleton,
          show exp.layers[i].thickness = some t0 from ht0,
          show exp.layers[i].vs = some vs0 from hvs0,
          show exp.layers[i].vp = some vp0 from hvp0]
    simp only [Option.bind_eq_bind', Option.pure_def] at hlayers
    have hLpos : ∀ l ∈ exp.layers.map (fun l =>
        MaswLayer.new (l.thickness.getD 0) (l.vs.getD 0) (l.vp.getD 0)),
        l.thickness.isSome ∧ 0 < l.thickness.getD 0 := by
      intro l hl
      rcases List.mem_map.mp hl with ⟨l0, hl0, hleq⟩
      rw [← hleq]
      exact ⟨rfl, (hpres l0 hl0).2.1⟩
    obtain ⟨dl2, hdl2, hdl2len, hdl2idx⟩ := masw_calc_depths_go_spec
      (exp.layers.map (fun l =>
        MaswLayer.new (l.thickness.getD 0) (l.vs.getD 0) (l.vp.getD 0))) 0 hLpos
    have hnew : MaswExp.new (exp.layers.map (fun l =>
        MaswLayer.new (l.thickness.getD 0) (l.vs.getD 0) (l.vp.getD 0))) name =
        some { layers := dl2, name := name } := by
      simp only [MaswExp.new, MaswExp.calc_depths]
      rw [if_neg (by simpa using hne), hdl2]
      rfl
    refine ⟨{ layers := dl2, name := name },
      { exps := [{ exp with layers := dl }], idealization_method := mode }, ?_, ?_⟩
    · simp only [Masw.get_idealized_exp,
        if_neg (by simp : ¬([exp] : List MaswExp) = []), hmasw_cd,
        Option.bind_eq_bind', Option.some_bind, Option.pure_def,
        List.flatMap_cons, List.flatMap_nil, List.append_nil,
        hudep, hfold, List.tail_cons, hlayers, hnew]
    · show dl2.map (fun l => (l.thickness, l.vs, l.vp)) =
        exp.layers.map (fun l => (l.thickness, l.vs, l.vp))
      apply List.ext_get?
      intro i
      rcases Nat.lt_or_ge i exp.layers.length with hi | hi
      · have hlayer : exp.layers.get? i = some (exp.layers.get ⟨i, hi⟩) := List.get?_eq_get hi
        have hmem : exp.layers.get ⟨i, hi⟩ ∈ exp.layers := List.get?_mem hlayer
        obtain ⟨t0, ht0⟩ := Option.isSome_iff_exists.mp (hpres _ hmem).1
        obtain ⟨vs0, hvs0⟩ := Option.isSome_iff_exists.mp (hpres _ hmem).2.2.1
        obtain ⟨vp0, hvp0⟩ := Option.isSome_iff_exists.mp (hpres _ hmem).2.2.2
        have hLget : (exp.layers.map (fun l =>
            MaswLayer.new (l.thickness.getD 0) (l.vs.getD 0) (l.vp.getD 0))).get? i =
            some (MaswLayer.new ((exp.layers.get ⟨i, hi⟩).thickness.getD 0)
              ((exp.layers.get ⟨i, hi⟩).vs.getD 0) ((exp.layers.get ⟨i, hi⟩).vp.getD 0)) := by
          rw [List.get?_map, hlayer, Option.map_some']
        rw [List.get?_map, List.get?_map, hdl2idx i _ hLget, hlayer]
        simp [MaswLayer.new,
          show exp.layers[i].thickness = some t0 from ht0,
          show exp.layers[i].vs = some vs0 from hvs0,
          show exp.layers[i].vp = some vp0 from hvp0]
      · have h1 : dl2.get? i = none := List.get?_eq_none.mpr (by
          rw [hdl2len, List.length_map]
          exact hi)
        have h2 : exp.layers.get? i = none := List.get?_eq_none.mpr hi
        rw [List.get?_map, List.get?_map, h1, h2]

/-- C5 (corrected), counterexample: a single-experiment SPT whose only blow is
a refusal is not idealized to itself under the Avg policy — the refusal is
replaced by the numeric ceiling 50, so the identity law fails for Avg. -/
theorem spt_single_source_avg_changes_value :
    ∃ out, SPT.get_idealized_exp exSptRefusal "ideal" = some out ∧
      out.blows.map (fun b => b.n) = [some (NValue.Value 50)] ∧
      (exSptRefusal.exps.flatMap (fun e => e.blows)).map (fun b => b.n) =
        [some NValue.Refusal] ∧
      NValue.Value 50 ≠ NValue.Refusal := by
  have hsum : (([NValue.Refusal] : List NValue).filterMap
      (fun n => n.to_option.map (fun v => (v : ℚ)))).sum = (50 : ℚ) := by
    simp [NValue.to_option, List.filterMap]
  have hround : round_half_away ((50 : ℚ) / 1) = 50 := by
    rw [div_one, round_half_away, if_pos (by norm_num : (0 : ℚ) ≤ 50)]
    rw [Int.floor_eq_iff]
    constructor <;> norm_num
  have hsel : spt_selected_n SelectionMethod.Avg [NValue.Refusal] =
      some (NValue.Value 50) := by
    simp only [spt_selected_n, hsum, List.length_singleton, Nat.cast_one, hround,
      NValue.from_i32]
    rw [if_neg (show ¬ (50 : ℤ) ≤ 0 by omega)]
  refine ⟨exSptRefusalIdealized, ?_,
    by simp [exSptRefusalIdealized, SPTExp.new], by simp [exSptRefusal], by simp⟩
  norm_num [SPT.get_idealized_exp, exSptRefusal, exSptRefusalIdealized, spt_build_map,
    spt_collect_blows, depth_map_insert, hsel, List.mapM, List.mapM.loop, SPTExp.new,
    Option.bind_eq_bind', Option.pure_def]

/-- C5 (amended): idealizing a collection that contains exactly one source
experiment returns that experiment's measured values unchanged under every
policy, provided the experiment is well-formed — records fully populated and
strictly depth-sorted (CPT, SPT, point-load) or with positive thicknesses
(MASW, whose output also carries recomputed depths) — and, under the Avg
policy, every SPT blow count is a finite count of at least 1 (a refusal is
averaged to the ceiling 50 instead of being preserved). -/
theorem single_source_identity (mode : SelectionMethod) (name : String) :
    (∀ exp : CPTExp,
      (∀ l ∈ exp.layers, l.depth.isSome ∧ l.cone_resistance.isSome ∧
        l.sleeve_friction.isSome ∧ l.pore_pressure.isSome) →
      List.Pairwise (fun a b => a.depth.getD 0 < b.depth.getD 0) exp.layers →
      ∃ out, CPT.get_idealized_exp ⟨[exp], mode⟩ name = some out ∧
        out.layers.map (fun l =>
          (l.depth, l.cone_resistance, l.sleeve_friction, l.pore_pressure)) =
        exp.layers.map (fun l =>
          (l.depth, l.cone_resistance, l.sleeve_friction, l.pore_pressure))) ∧
    (∀ exp : SPTExp,
      (∀ b ∈ exp.blows, b.depth.isSome ∧ b.n.isSome) →
      List.Pairwise (fun a b => a.depth.getD 0 < b.depth.getD 0) exp.blows →
      (mode = SelectionMethod.Avg →
        ∀ b ∈ exp.blows, ∃ k : ℤ, 1 ≤ k ∧ b.n = some (NValue.Value k)) →
      ∃ out, SPT.get_idealized_exp
          { exps := [exp], idealization_method := mode } name = some out ∧
        out.blows.map (fun b => (b.depth, b.n)) =
          exp.blows.map (fun b => (b.depth, b.n))) ∧
    (∀ exp : PointLoadExp,
      (∀ s ∈ exp.samples, s.depth.isSome ∧ s.is50.isSome ∧ s.d.isSome) →
      List.Pairwise (fun a b => a.depth.getD 0 < b.depth.getD 0) exp.samples →
      ∃ out, PointLoadTest.get_idealized_exp
          { exps := [exp], idealization_method := mode } name = some out ∧
        out.samples.map (fun s => (s.depth, s.is50, s.d)) =
          exp.samples.map (fun s => (s.depth, s.is50, s.d))) ∧
    (∀ exp : MaswExp,
      (∀ l ∈ exp.layers, l.thickness.isSome ∧ 0 < l.thickness.getD 0 ∧
        l.vs.isSome ∧ l.vp.isSome) →
      ∃ out st, Masw.get_idealized_exp
          { exps := [exp], idealization_method := mode } name = some (out, st) ∧
        out.layers.map (fun l => (l.thickness, l.vs, l.vp)) =
          exp.layers.map (fun l => (l.thickness, l.vs, l.vp))) :=
  ⟨fun exp h1 h2 => cpt_single_identity exp mode name h1 h2,
   fun exp h1 h2 h3 => spt_single_identity exp mode name h1 h2 h3,
   fun exp h1 h2 => plt_single_identity exp mode name h1 h2,
   fun exp h1 => masw_single_identity exp mode name h1⟩

/-- C5 (amended), witness: the single-source identity at concrete two-record
collections of every kind under the Avg policy. -/
theorem single_source_identity_witness :
    (∃ out, CPT.get_idealized_exp ⟨[exCptC5], SelectionMethod.Avg⟩ "ideal" = some out ∧
      out.layers.map (fun l =>
        (l.depth, l.cone_resistance, l.sleeve_friction, l.pore_pressure)) =
      exCptC5.layers.map (fun l =>
        (l.depth, l.cone_resistance, l.sleeve_friction, l.pore_pressure))) ∧
    (∃ out, SPT.get_idealized_exp
        { exps := [exSptC5], idealization_method := SelectionMethod.Avg } "ideal" =
          some out ∧
      out.blows.map (fun b => (b.depth, b.n)) =
        exSptC5.blows.map (fun b => (b.depth, b.n))) ∧
    (∃ out, PointLoadTest.get_idealized_exp
        { exps := [exPltC5], idealization_method := SelectionMethod.Avg } "ideal" =
          some out ∧
      out.samples.map (fun s => (s.depth, s.is50, s.d)) =
        exPltC5.samples.map (fun s => (s.depth, s.is50, s.d))) ∧
    (∃ out st, Masw.get_idealized_exp
        { exps := [exMaswC5], idealization_method := SelectionMethod.Avg } "ideal" =
          some (out, st) ∧
      out.layers.map (fun l => (l.thickness, l.vs, l.vp)) =
        exMaswC5.layers.map (fun l => (l.thickness, l.vs, l.vp))) := by
  obtain ⟨hc, hs, hp, hm⟩ := single_source_identity SelectionMethod.Avg "ideal"
  refine ⟨hc exCptC5 ?_ ?_, hs exSptC5 ?_ ?_ ?_, hp exPltC5 ?_ ?_, hm exMaswC5 ?_⟩
  · intro l hl
    rcases (by simpa [exCptC5] using hl : l = CPTLayer.new 1 10 2 (some 3) ∨
      l = CPTLayer.new 2 20 4 (some 5)) with rfl | rfl <;> simp [CPTLayer.new]
  · norm_num [exCptC5, CPTLayer.new, List.pairwise_cons]
  · intro b hb
    rcases (by simpa [exSptC5] using hb :
      b = SPTBlow.new 1 (NValue.Value 2) (NValue.Value 3) (NValue.Value 4) ∨
      b = SPTBlow.new 2 (NValue.Value 5) (NValue.Value 6) (NValue.Value 7)) with
      rfl | rfl <;> simp [SPTBlow.new]
  · norm_num [exSptC5, SPTBlow.new, List.pairwise_cons]
  · intro _ b hb
    rcases (by simpa [exSptC5] using hb :
      b = SPTBlow.new 1 (NValue.Value 2) (NValue.Value 3) (NValue.Value 4) ∨
      b = SPTBlow.new 2 (NValue.Value 5) (NValue.Value 6) (NValue.Value 7)) with
      rfl | rfl
    · exact ⟨7, by norm_num, by norm_num [SPTBlow.new, NValue.sum_with]⟩
    · exact ⟨13, by norm_num, by norm_num [SPTBlow.new, NValue.sum_with]⟩
  · intro s hs2
    rcases (by simpa [exPltC5] using hs2 : s = PointLoadSample.new 1 5 50 ∨
      s = PointLoadSample.new 2 6 60) with rfl | rfl <;> simp [PointLoadSample.new]
  · norm_num [exPltC5, PointLoadSample.new, List.pairwise_cons]
  · intro l hl
    rcases (by simpa [exMaswC5] using hl : l = MaswLayer.new 1 100 200 ∨
      l = MaswLayer.new 2 150 300) with rfl | rfl <;> norm_num [MaswLayer.new]

/-- Lookup in a key-sorted depth map finds exactly the stored bucket of any
entry. -/
theorem depth_map_lookup_mem {α : Type} :
    ∀ (m : List (ℚ × List α)), m.Pairwise (fun p q => p.1 < q.1) →
    ∀ p ∈ m, depth_map_lookup p.1 m = some p.2 := by
  intro m
  induction m with
  | nil => intro _ p hp; simp at hp
  | cons q rest ih =>
    intro hpw p hp
    rcases List.pairwise_cons.mp hpw with ⟨hall, hrest⟩
    rcases List.mem_cons.mp hp with h | h
    · subst h
      rcases p with ⟨d0, vs⟩
      simp [depth_map_lookup]
    · have hlt : q.1 < p.1 := hall p h
      rcases q with ⟨d0, vs⟩
      simp only [depth_map_lookup]
      rw [if_neg (by intro hc; rw [hc] at hlt; exact lt_irrefl d0 hlt)]
      exact ih hrest p h

/-- A successful depth-map lookup exhibits a map entry. -/
theorem depth_map_lookup_some_mem {α : Type} (d : ℚ) :
    ∀ (m : List (ℚ × List α)) (vs : List α),
      depth_map_lookup d m = some vs → (d, vs) ∈ m := by
  intro m
  induction m with
  | nil => intro vs h; simp [depth_map_lookup] at h
  | cons q rest ih =>
    intro vs h
    rcases q with ⟨d0, vs0⟩
    simp only [depth_map_lookup] at h
    by_cases hd : d = d0
    · rw [if_pos hd] at h
      injection h with h
      subst hd
      subst h
      exact List.mem_cons_self _ _
    · rw [if_neg hd] at h
      exact List.mem_cons.mpr (Or.inr (ih vs h))

/-- Collecting the blows of one SPT experiment appends, bucket by bucket, the
values recorded at exactly each depth. -/
theorem spt_collect_blows_lookup :
    ∀ (blows : List SPTBlow) (m m2 : List (ℚ × List NValue)),
    m.Pairwise (fun p q => p.1 < q.1) →
    spt_collect_blows m blows = some m2 →
    m2.Pairwise (fun p q => p.1 < q.1) ∧
    ∀ d : ℚ,
      depth_map_lookup d m2 =
        if blows.filterMap (fun b => if b.depth = some d then b.n else none) = []
        then depth_map_lookup d m
        else some ((depth_map_lookup d m).getD [] ++
          blows.filterMap (fun b => if b.depth = some d then b.n else none)) := by
  intro blows
  induction blows with
  | nil =>
    intro m m2 hsort h
    simp only [spt_collect_blows] at h
    injection h with h
    subst h
    exact ⟨hsort, fun d => by simp⟩
  | cons b rest ih =>
    intro m m2 hsort h
    simp only [spt_collect_blows, Option.bind_eq_bind', Option.bind_eq_some'] at h
    obtain ⟨db, hdb, nb, hnb, h⟩ := h
    obtain ⟨hs2, hlook⟩ := ih (depth_map_insert db nb m) m2
      (depth_map_insert_sorted db nb m hsort) h
    refine ⟨hs2, fun d => ?_⟩
    rw [hlook d]
    have hil := depth_map_insert_lookup d db nb m hsort
    by_cases hd : d = db
    · subst hd
      rw [if_pos rfl] at hil
      have hcons : (b :: rest).filterMap (fun x => if x.depth = some d then x.n else none) =
          nb :: rest.filterMap (fun x => if x.depth = some d then x.n else none) := by
        simp [List.filterMap_cons, hdb, hnb]
      rw [hcons, hil]
      by_cases hrest : rest.filterMap (fun x => if x.depth = some d then x.n else none) = [] <;>
        simp [hrest]
    · rw [if_neg hd] at hil
      have hbd : ¬ b.depth = some d := by
        rw [hdb]
        intro hc
        injection hc with hc
        exact hd hc.symm
      have hcons : (b :: rest).filterMap (fun x => if x.depth = some d then x.n else none) =
          rest.filterMap (fun x => if x.depth = some d then x.n else none) := by
        simp [List.filterMap_cons, hbd]
      rw [hcons, hil]

/-- Building the full SPT depth map groups, at every depth, exactly the values
recorded at that depth across all experiments in order. -/
theorem spt_build_map_lookup :
    ∀ (exps : List SPTExp) (m m2 : List (ℚ × List NValue)),
    m.Pairwise (fun p q => p.1 < q.1) →
    spt_build_map m exps = some m2 →
    m2.Pairwise (fun p q => p.1 < q.1) ∧
    ∀ d : ℚ,
      depth_map_lookup d m2 =
        if spt_values_at exps d = [] then depth_map_lookup d m
        else some ((depth_map_lookup d m).getD [] ++ spt_values_at exps d) := by
  intro exps
  induction exps with
  | nil =>
    intro m m2 hsort h
    simp only [spt_build_map] at h
    injection h with h
    subst h
    exact ⟨hsort, fun d => by simp [spt_values_at]⟩
  | cons e rest ih =>
    intro m m2 hsort h
    simp only [spt_build_map, Option.bind_eq_bind', Option.bind_eq_some'] at h
    obtain ⟨m1, hm1, h⟩ := h
    obtain ⟨hs1, hlook1⟩ := spt_collect_blows_lookup e.blows m m1 hsort hm1
    obtain ⟨hs2, hlook2⟩ := ih m1 m2 hs1 h
    refine ⟨hs2, fun d => ?_⟩
    rw [hlook2 d]
    have hsplit : spt_values_at (e :: rest) d =
        e.blows.filterMap (fun b => if b.depth = some d then b.n else none) ++
        spt_values_at rest d := by
      simp [spt_values_at, List.flatMap_cons, List.filterMap_append]
    rw [hsplit]
    by_cases h1 : e.blows.filterMap (fun b => if b.depth = some d then b.n else none) = [] <;>
      by_cases h2 : spt_values_at rest d = [] <;>
        simp [h1, h2, hlook1 d, List.append_assoc]

/-- Collecting the samples of one point-load borehole appends, bucket by
bucket, the `(is50, d)` pairs recorded at exactly each depth. -/
theorem plt_collect_samples_lookup :
    ∀ (samples : List PointLoadSample) (m m2 : List (ℚ × List (ℚ × ℚ))),
    m.Pairwise (fun p q => p.1 < q.1) →
    plt_collect_samples m samples = some m2 →
    m2.Pairwise (fun p q => p.1 < q.1) ∧
    ∀ dep : ℚ,
      depth_map_lookup dep m2 =
        if samples.filterMap (fun s => if s.depth = some dep then
            match s.is50, s.d with
            | some i, some dia => some (i, dia)
            | _, _ => none
          else none) = []
        then depth_map_lookup dep m
        else some ((depth_map_lookup dep m).getD [] ++
          samples.filterMap (fun s => if s.depth = some dep then
            match s.is50, s.d with
            | some i, some dia => some (i, dia)
            | _, _ => none
          else none)) := by
  intro samples
  induction samples with
  | nil =>
    intro m m2 hsort h
    simp only [plt_collect_samples] at h
    injection h with h
    subst h
    exact ⟨hsort, fun dep => by simp⟩
  | cons s rest ih =>
    intro m m2 hsort h
    simp only [plt_collect_samples, Option.bind_eq_bind', Option.bind_eq_some'] at h
    obtain ⟨ds0, hds0, i50, hi50, dia, hdia, h⟩ := h
    obtain ⟨hs2, hlook⟩ := ih (depth_map_insert ds0 (i50, dia) m) m2
      (depth_map_insert_sorted ds0 (i50, dia) m hsort) h
    refine ⟨hs2, fun dep => ?_⟩
    rw [hlook dep]
    have hil := depth_map_insert_lookup dep ds0 (i50, dia) m hsort
    by_cases hd : dep = ds0
    · subst hd
      rw [if_pos rfl] at hil
      have hcons : (s :: rest).filterMap (fun x => if x.depth = some dep then
          match x.is50, x.d with
          | some i, some dia2 => some (i, dia2)
          | _, _ => none
        else none) = (i50, dia) :: rest.filterMap (fun x => if x.depth = some dep then
          match x.is50, x.d with
          | some i, some dia2 => some (i, dia2)
          | _, _ => none
        else none) := by
        simp [List.filterMap_cons, hds0, hi50, hdia]
      rw [hcons, hil]
      by_cases hrest : rest.filterMap (fun x => if x.depth = some dep then
          match x.is50, x.d with
          | some i, some dia2 => some (i, dia2)
          | _, _ => none
        else none) = [] <;> simp [hrest]
    · rw [if_neg hd] at hil
      have hsd : ¬ s.depth = some dep := by
        rw [hds0]
        intro hc
        injection hc with hc
        exact hd hc.symm
      have hcons : (s :: rest).filterMap (fun x => if x.depth = some dep then
          match x.is50, x.d with
          | some i, some dia2 => some (i, dia2)
          | _, _ => none
        else none) = rest.filterMap (fun x => if x.depth = some dep then
          match x.is50, x.d with
          | some i, some dia2 => some (i, dia2)
          | _, _ => none
        else none) := by
        simp [List.filterMap_cons, hsd]
      rw [hcons, hil]

/-- Building the full point-load depth map groups, at every depth, exactly the
pairs recorded at that depth across all boreholes in order. -/
theorem plt_build_map_lookup :
    ∀ (exps : List PointLoadExp) (m m2 : List (ℚ × List (ℚ × ℚ))),
    m.Pairwise (fun p q => p.1 < q.1) →
    plt_build_map m exps = some m2 →
    m2.Pairwise (fun p q => p.1 < q.1) ∧
    ∀ dep : ℚ,
      depth_map_lookup dep m2 =
        if plt_values_at exps dep = [] then depth_map_lookup dep m
        else some ((depth_map_lookup dep m).getD [] ++ plt_values_at exps dep) := by
  intro exps
  induction exps with
  | nil =>
    intro m m2 hsort h
    simp only [plt_build_map] at h
    injection h with h
    subst h
    exact ⟨hsort, fun dep => by simp [plt_values_at]⟩
  | cons e rest ih =>
    intro m m2 hsort h
    simp only [plt_build_map, Option.bind_eq_bind', Option.bind_eq_some'] at h
    obtain ⟨m1, hm1, h⟩ := h
    obtain ⟨hs1, hlook1⟩ := plt_collect_samples_lookup e.samples m m1 hsort hm1
    obtain ⟨hs2, hlook2⟩ := ih m1 m2 hs1 h
    refine ⟨hs2, fun dep => ?_⟩
    rw [hlook2 dep]
    have hsplit : plt_values_at (e :: rest) dep =
        e.samples.filterMap (fun s => if s.depth = some dep then
          match s.is50, s.d with
          | some i, some dia => some (i, dia)
          | _, _ => none
        else none) ++ plt_values_at rest dep := by
      simp [plt_values_at, List.flatMap_cons, List.filterMap_append]
    rw [hsplit]
    by_cases h1 : e.samples.filterMap (fun s => if s.depth = some dep then
        match s.is50, s.d with
        | some i, some dia => some (i, dia)
        | _, _ => none
      else none) = [] <;>
      by_cases h2 : plt_values_at rest dep = [] <;>
        simp [h1, h2, hlook1 dep, List.append_assoc]

/-- C1 helper (CPT): the idealized CPT layers are exactly, depth by merged
depth, the policy reduction of the values obtained by sampling every source
experiment with its own nearest-depth lookup — the scheme the spec
describes. -/
theorem cpt_sampling_characterization (cpt : CPT) (name : String) (out : CPTExp)
    (h : CPT.get_idealized_exp cpt name = some out) :
    ∃ ds, unwrap_depths (cpt.exps.flatMap (fun e => e.layers.map (fun l => l.depth))) =
        some ds ∧
      List.Forall₂ (fun dep layer => ∃ samples,
          cpt_sample_at cpt.exps dep = some samples ∧
          layer = CPTLayer.new dep
            (get_mode_value cpt.idealization_method (samples.map (fun s => s.1)))
            (get_mode_value cpt.idealization_method (samples.map (fun s => s.2.1)))
            (some (get_mode_value cpt.idealization_method (samples.map (fun s => s.2.2)))))
        (ds.foldl (fun acc dep => insert_unique_depth dep acc) []) out.layers := by
  by_cases hemp : cpt.exps = []
  · simp only [CPT.get_idealized_exp, if_pos hemp] at h
    injection h with h
    refine ⟨[], by simp [hemp, unwrap_depths], ?_⟩
    rw [← h]
    exact List.Forall₂.nil
  · simp only [CPT.get_idealized_exp, if_neg hemp, Option.bind_eq_bind', Option.pure_def,
      Option.bind_eq_some'] at h
    obtain ⟨ds, hds, layers, hlayers, hout⟩ := h
    injection hout with hout
    refine ⟨ds, hds, ?_⟩
    have houtl : out.layers = layers := by rw [← hout]; rfl
    rw [houtl]
    have hF2 := list_mapM_option_forall2 _ _ _ hlayers
    refine List.Forall₂.imp ?_ hF2
    intro dep layer hrel
    obtain ⟨samples, hsamples, hlay⟩ := Option.bind_eq_some'.mp hrel
    injection hlay with hlay
    exact ⟨samples, hsamples, hlay.symm⟩

/-- C1 helper (SPT): every idealized blow carries, at its own depth, the
policy selection over exactly the values recorded at that exact depth across
all source experiments — not a nearest-depth sampling — and every depth that
carries at least one recorded value yields such a blow. -/
theorem spt_exact_depth_characterization (spt : SPT) (name : String) (out : SPTExp)
    (h : SPT.get_idealized_exp spt name = some out) :
    (∀ blow ∈ out.blows, ∃ d : ℚ, blow.depth = some d ∧
      spt_values_at spt.exps d ≠ [] ∧
      blow.n = spt_selected_n spt.idealization_method (spt_values_at spt.exps d)) ∧
    (∀ d : ℚ, spt_values_at spt.exps d ≠ [] →
      ∃ blow ∈ out.blows, blow.depth = some d ∧
        blow.n = spt_selected_n spt.idealization_method (spt_values_at spt.exps d)) := by
  simp only [SPT.get_idealized_exp, Option.bind_eq_bind', Option.pure_def,
    Option.bind_eq_some'] at h
  obtain ⟨m2, hm2, blows, hblows, hout⟩ := h
  injection hout with hout
  obtain ⟨hsort, hlook⟩ := spt_build_map_lookup spt.exps [] m2 (by simp) hm2
  have hF2 := list_mapM_option_forall2 _ m2 blows hblows
  obtain ⟨hlen, hget⟩ := List.forall₂_iff_get.mp hF2
  have houtb : out.blows = blows := by rw [← hout]; rfl
  constructor
  · intro blow hb
    rw [houtb] at hb
    obtain ⟨i, hib⟩ := List.get?_of_mem hb
    obtain ⟨hilt, hgeti⟩ := List.get?_eq_some.mp hib
    have him : i < m2.length := by rw [hlen]; exact hilt
    have hrel := hget i him hilt
    obtain ⟨sel, hsel, hblow⟩ := Option.bind_eq_some'.mp hrel
    injection hblow with hblow
    have hdepth : blow.depth = some (m2.get ⟨i, him⟩).1 := by
      rw [← hgeti, ← hblow]
    have hn : blow.n = some sel := by
      rw [← hgeti, ← hblow]
    have hpmem : m2.get ⟨i, him⟩ ∈ m2 := List.get?_mem (List.get?_eq_get him)
    have hlm := depth_map_lookup_mem m2 hsort _ hpmem
    have hl2 := hlook (m2.get ⟨i, him⟩).1
    rw [hlm] at hl2
    by_cases hv : spt_values_at spt.exps (m2.get ⟨i, him⟩).1 = []
    · rw [if_pos hv] at hl2
      simp [depth_map_lookup] at hl2
    · rw [if_neg hv] at hl2
      have hp2 : (m2.get ⟨i, him⟩).2 = spt_values_at spt.exps (m2.get ⟨i, him⟩).1 := by
        simpa [depth_map_lookup] using hl2
      refine ⟨(m2.get ⟨i, him⟩).1, hdepth, hv, ?_⟩
      rw [hn, ← hp2]
      exact hsel.symm
  · intro d hv
    have hl2 := hlook d
    rw [if_neg hv] at hl2
    have hl3 : depth_map_lookup d m2 = some (spt_values_at spt.exps d) := by
      simpa [depth_map_lookup] using hl2
    have hmem := depth_map_lookup_some_mem d m2 _ hl3
    obtain ⟨j, hj⟩ := List.get?_of_mem hmem
    obtain ⟨hjlt, hgetj⟩ := List.get?_eq_some.mp hj
    have hjb : j < blows.length := by rw [← hlen]; exact hjlt
    have hrel := hget j hjlt hjb
    rw [hgetj] at hrel
    obtain ⟨sel, hsel, hblow⟩ := Option.bind_eq_some'.mp hrel
    injection hblow with hblow
    refine ⟨blows.get ⟨j, hjb⟩, ?_, ?_, ?_⟩
    · rw [houtb]
      exact List.get?_mem (List.get?_eq_get hjb)
    · rw [← hblow]
    · rw [← hblow]
      exact hsel.symm

/-- C1 helper (point-load): every idealized sample carries, at its own depth,
the policy selection over exactly the pairs recorded at that exact depth
across all source boreholes, and every depth with at least one recorded pair
yields such a sample. -/
theorem plt_exact_depth_characterization (plt : PointLoadTest) (name : String)
    (out : PointLoadExp)
    (h : PointLoadTest.get_idealized_exp plt name = some out) :
    (∀ sample ∈ out.samples, ∃ dep : ℚ, sample.depth = some dep ∧
      plt_values_at plt.exps dep ≠ [] ∧
      ∃ sel, plt_selected plt.idealization_method (plt_values_at plt.exps dep) = some sel ∧
        sample.is50 = some sel.1 ∧ sample.d = some sel.2) ∧
    (∀ dep : ℚ, plt_values_at plt.exps dep ≠ [] →
      ∃ sample ∈ out.samples, sample.depth = some dep ∧
        ∃ sel, plt_selected plt.idealization_method (plt_values_at plt.exps dep) = some sel ∧
          sample.is50 = some sel.1 ∧ sample.d = some sel.2) := by
  by_cases hemp : plt.exps = []
  · simp only [PointLoadTest.get_idealized_exp, if_pos hemp] at h
    injection h with h
    constructor
    · intro sample hs
      rw [← h] at hs
      simp [PointLoadExp.new] at hs
    · intro dep hv
      exfalso
      apply hv
      simp [plt_values_at, hemp]
  · simp only [PointLoadTest.get_idealized_exp, if_neg hemp, Option.bind_eq_bind',
      Option.pure_def, Option.bind_eq_some'] at h
    obtain ⟨m2, hm2, samples, hsamples, hout⟩ := h
    injection hout with hout
    obtain ⟨hsort, hlook⟩ := plt_build_map_lookup plt.exps [] m2 (by simp) hm2
    have hF2 := list_mapM_option_forall2 _ m2 samples hsamples
    obtain ⟨hlen, hget⟩ := List.forall₂_iff_get.mp hF2
    have houts : out.samples = samples := by rw [← hout]; rfl
    constructor
    · intro sample hs
      rw [houts] at hs
      obtain ⟨i, his⟩ := List.get?_of_mem hs
      obtain ⟨hilt, hgeti⟩ := List.get?_eq_some.mp his
      have him : i < m2.length := by rw [hlen]; exact hilt
      have hrel := hget i him hilt
      obtain ⟨sel, hsel, hsample⟩ := Option.bind_eq_some'.mp hrel
      injection hsample with hsample
      have hdepth : sample.depth = some (m2.get ⟨i, him⟩).1 := by
        rw [← hgeti, ← hsample]
        rfl
      have hi50 : sample.is50 = some sel.1 := by
        rw [← hgeti, ← hsample]
        rfl
      have hdd : sample.d = some sel.2 := by
        rw [← hgeti, ← hsample]
        rfl
      have hpmem : m2.get ⟨i, him⟩ ∈ m2 := List.get?_mem (List.get?_eq_get him)
      have hlm := depth_map_lookup_mem m2 hsort _ hpmem
      have hl2 := hlook (m2.get ⟨i, him⟩).1
      rw [hlm] at hl2
      by_cases hv : plt_values_at plt.exps (m2.get ⟨i, him⟩).1 = []
      · rw [if_pos hv] at hl2
        simp [depth_map_lookup] at hl2
      · rw [if_neg hv] at hl2
        have hp2 : (m2.get ⟨i, him⟩).2 = plt_values_at plt.exps (m2.get ⟨i, him⟩).1 := by
          simpa [depth_map_lookup] using hl2
        refine ⟨(m2.get ⟨i, him⟩).1, hdepth, hv, sel, ?_, hi50, hdd⟩
        rw [← hp2]
        exact hsel
    · intro dep hv
      have hl2 := hlook dep
      rw [if_neg hv] at hl2
      have hl3 : depth_map_lookup dep m2 = some (plt_values_at plt.exps dep) := by
        simpa [depth_map_lookup] using hl2
      have hmem := depth_map_lookup_some_mem dep m2 _ hl3
      obtain ⟨j, hj⟩ := List.get?_of_mem hmem
      obtain ⟨hjlt, hgetj⟩ := List.get?_eq_some.mp hj
      have hjb : j < samples.length := by rw [← hlen]; exact hjlt
      have hrel := hget j hjlt hjb
      rw [hgetj] at hrel
      obtain ⟨sel, hsel, hsample⟩ := Option.bind_eq_some'.mp hrel
      injection hsample with hsample
      refine ⟨samples.get ⟨j, hjb⟩, ?_, ?_, sel, hsel, ?_, ?_⟩
      · rw [houts]
        exact List.get?_mem (List.get?_eq_get hjb)
      · rw [← hsample]
        rfl
      · rw [← hsample]
        rfl
      · rw [← hsample]
        rfl

/-- C1 (corrected), counterexample: on `exSptC1` the blow the idealization
emits at depth 3/2 carries n = 9 — only borehole e2, which recorded exactly at
depth 3/2, contributes — whereas the nearest-depth sampling described by the
spec would collect 7 (e1 sampled at 3/2 yields its depth-2 blow) and 9, whose
Min is 7. -/
theorem spt_idealization_not_nearest_sampling :
    ∃ out, SPT.get_idealized_exp exSptC1 "ideal" = some out ∧
      out.blows.filterMap (fun b => if b.depth = some (3/2) then b.n else none) =
        [NValue.Value 9] ∧
      exSptC1.exps.map (fun e => (spec_spt_blow_at_depth e (3/2)).bind (fun b => b.n)) =
        [some (NValue.Value 7), some (NValue.Value 9)] ∧
      spt_selected_n SelectionMethod.Min [NValue.Value 7, NValue.Value 9] =
        some (NValue.Value 7) ∧
      NValue.Value 9 ≠ NValue.Value 7 := by
  refine ⟨exSptC1Idealized, ?_, ?_, ?_, by decide, by decide⟩
  · norm_num [SPT.get_idealized_exp, exSptC1, exSptC1Idealized, spt_build_map,
      spt_collect_blows, depth_map_insert, spt_selected_n, List.mapM, List.mapM.loop,
      SPTExp.new, Option.bind_eq_bind', Option.pure_def]
  · norm_num [exSptC1Idealized, SPTExp.new, List.filterMap_cons]
  · norm_num [exSptC1, spec_spt_blow_at_depth, List.find?]

/-- C1 (amended): the merged-depth idealization samples per the spec only for
CPT — each idealized CPT layer is the policy reduction of every source
experiment sampled with its own nearest-depth lookup — while SPT and
point-load idealization instead group records by exact depth: each emitted
record carries the policy selection over exactly the values recorded at that
exact depth, one record per depth that has at least one recorded value. -/
theorem idealization_sampling_characterization :
    (∀ (cpt : CPT) (name : String) (out : CPTExp),
      CPT.get_idealized_exp cpt name = some out →
      ∃ ds, unwrap_depths (cpt.exps.flatMap (fun e => e.layers.map (fun l => l.depth))) =
          some ds ∧
        List.Forall₂ (fun dep layer => ∃ samples,
            cpt_sample_at cpt.exps dep = some samples ∧
            layer = CPTLayer.new dep
              (get_mode_value cpt.idealization_method (samples.map (fun s => s.1)))
              (get_mode_value cpt.idealization_method (samples.map (fun s => s.2.1)))
              (some (get_mode_value cpt.idealization_method
                (samples.map (fun s => s.2.2)))))
          (ds.foldl (fun acc dep => insert_unique_depth dep acc) []) out.layers) ∧
    (∀ (spt : SPT) (name : String) (out : SPTExp),
      SPT.get_idealized_exp spt name = some out →
      (∀ blow ∈ out.blows, ∃ d : ℚ, blow.depth = some d ∧
        spt_values_at spt.exps d ≠ [] ∧
        blow.n = spt_selected_n spt.idealization_method (spt_values_at spt.exps d)) ∧
      (∀ d : ℚ, spt_values_at spt.exps d ≠ [] →
        ∃ blow ∈ out.blows, blow.depth = some d ∧
          blow.n = spt_selected_n spt.idealization_method (spt_values_at spt.exps d))) ∧
    (∀ (plt : PointLoadTest) (name : String) (out : PointLoadExp),
      PointLoadTest.get_idealized_exp plt name = some out →
      (∀ sample ∈ out.samples, ∃ dep : ℚ, sample.depth = some dep ∧
        plt_values_at plt.exps dep ≠ [] ∧
        ∃ sel, plt_selected plt.idealization_method (plt_values_at plt.exps dep) =
            some sel ∧
          sample.is50 = some sel.1 ∧ sample.d = some sel.2) ∧
      (∀ dep : ℚ, plt_values_at plt.exps dep ≠ [] →
        ∃ sample ∈ out.samples, sample.depth = some dep ∧
          ∃ sel, plt_selected plt.idealization_method (plt_values_at plt.exps dep) =
              some sel ∧
            sample.is50 = some sel.1 ∧ sample.d = some sel.2)) :=
  ⟨fun cpt name out h => cpt_sampling_characterization cpt name out h,
   fun spt name out h => spt_exact_depth_characterization spt name out h,
   fun plt name out h => plt_exact_depth_characterization plt name out h⟩

/-- C1 (amended), witness: the characterization at concrete one-record
collections of each kind. -/
theorem idealization_sampling_characterization_witness :
    (∃ ds, unwrap_depths (exCptC1W.exps.flatMap (fun e => e.layers.map (fun l => l.depth))) =
        some ds ∧
      List.Forall₂ (fun dep layer => ∃ samples,
          cpt_sample_at exCptC1W.exps dep = some samples ∧
          layer = CPTLayer.new dep
            (get_mode_value exCptC1W.idealization_method (samples.map (fun s => s.1)))
            (get_mode_value exCptC1W.idealization_method (samples.map (fun s => s.2.1)))
            (some (get_mode_value exCptC1W.idealization_method
              (samples.map (fun s => s.2.2)))))
        (ds.foldl (fun acc dep => insert_unique_depth dep acc) [])
        (CPTExp.new [CPTLayer.new 1 2 3 (some 4)] "ideal").layers) ∧
    ((∀ blow ∈ exSptC1WIdealized.blows, ∃ d : ℚ, blow.depth = some d ∧
        spt_values_at exSptC1W.exps d ≠ [] ∧
        blow.n = spt_selected_n exSptC1W.idealization_method
          (spt_values_at exSptC1W.exps d)) ∧
      (∀ d : ℚ, spt_values_at exSptC1W.exps d ≠ [] →
        ∃ blow ∈ exSptC1WIdealized.blows, blow.depth = some d ∧
          blow.n = spt_selected_n exSptC1W.idealization_method
            (spt_values_at exSptC1W.exps d))) ∧
    ((∀ sample ∈ (PointLoadExp.new "ideal" [PointLoadSample.new 1 5 50]).samples,
        ∃ dep : ℚ, sample.depth = some dep ∧
        plt_values_at exPltC1W.exps dep ≠ [] ∧
        ∃ sel, plt_selected exPltC1W.idealization_method (plt_values_at exPltC1W.exps dep) =
            some sel ∧
          sample.is50 = some sel.1 ∧ sample.d = some sel.2) ∧
      (∀ dep : ℚ, plt_values_at exPltC1W.exps dep ≠ [] →
        ∃ sample ∈ (PointLoadExp.new "ideal" [PointLoadSample.new 1 5 50]).samples,
          sample.depth = some dep ∧
          ∃ sel, plt_selected exPltC1W.idealization_method
              (plt_values_at exPltC1W.exps dep) = some sel ∧
            sample.is50 = some sel.1 ∧ sample.d = some sel.2)) := by
  obtain ⟨hc, hs, hp⟩ := idealization_sampling_characterization
  refine ⟨hc exCptC1W "ideal" (CPTExp.new [CPTLayer.new 1 2 3 (some 4)] "ideal") ?_,
    hs exSptC1W "ideal" exSptC1WIdealized ?_,
    hp exPltC1W "ideal" (PointLoadExp.new "ideal" [PointLoadSample.new 1 5 50]) ?_⟩
  · norm_num [CPT.get_idealized_exp, exCptC1W, unwrap_depths, insert_unique_depth,
      cpt_sample_at, CPTExp.get_layer_at_depth, cpt_get_layer_at_depth_go, get_mode_value,
      List.mapM, List.mapM.loop, CPTLayer.new, CPTExp.new, Option.bind_eq_bind',
      Option.pure_def, List.flatMap]
  · norm_num [SPT.get_idealized_exp, exSptC1W, exSptC1WIdealized, spt_build_map,
      spt_collect_blows, depth_map_insert, spt_selected_n, List.mapM, List.mapM.loop,
      SPTExp.new, Option.bind_eq_bind', Option.pure_def]
  · norm_num [PointLoadTest.get_idealized_exp, exPltC1W, plt_build_map,
      plt_collect_samples, depth_map_insert, plt_selected, List.mapM, List.mapM.loop,
      PointLoadSample.new, PointLoadExp.new, Option.bind_eq_bind', Option.pure_def]

/-- Nonnegativity of one layer contribution. -/
theorem stress_contribution_nonneg (gwt prev t dry sat : ℚ)
    (ht : 0 ≤ t) (hd : 0 ≤ dry) (hs : 0 ≤ sat) :
    0 ≤ stress_contribution gwt prev t dry sat := by
  unfold stress_contribution
  split_ifs with h1 h2
  · exact mul_nonneg hd ht
  · exact mul_nonneg hs ht
  · rw [ge_iff_le, not_le] at h1
    rw [not_le] at h2
    have g1 : 0 ≤ gwt - prev := by linarith
    have g2 : 0 ≤ t - (gwt - prev) := by linarith
    have := mul_nonneg hd g1
    have := mul_nonneg hs g2
    linarith

/-- Monotonicity of one layer contribution in the thickness. -/
theorem stress_contribution_mono (gwt prev t1 t2 dry sat : ℚ)
    (h0 : 0 ≤ t1) (h : t1 ≤ t2) (hd : 0 ≤ dry) (hs : 0 ≤ sat) :
    stress_contribution gwt prev t1 dry sat ≤ stress_contribution gwt prev t2 dry sat := by
  unfold stress_contribution
  split_ifs <;> simp only [ge_iff_le, not_le] at * <;>
    nlinarith [mul_nonneg hd (sub_nonneg.mpr h), mul_nonneg hs (sub_nonneg.mpr h),
      mul_nonneg hd h0, mul_nonneg hs h0]

/-- A zero-thickness slice contributes nothing. -/
theorem stress_contribution_zero (gwt p dry sat : ℚ) :
    stress_contribution gwt p 0 dry sat = 0 := by
  unfold stress_contribution
  split_ifs with h1 h2
  · ring
  · ring
  · rw [ge_iff_le, not_le] at h1
    rw [not_le] at h2
    linarith

/-- The layer-index search never goes below its start on a nonempty list. -/
theorem get_layer_index_go_ge (d : ℚ) :
    ∀ (ls : List SoilLayer) (start : Nat), ls ≠ [] →
      start ≤ get_layer_index_go d ls start := by
  intro ls
  induction ls with
  | nil => intro start h; exact absurd rfl h
  | cons layer rest ih =>
    intro start _
    by_cases hr : rest = []
    · subst hr
      cases hld : layer.depth with
      | none => simp [get_layer_index_go, hld]
      | some ld =>
        by_cases hge : ld ≥ d
        · simp [get_layer_index_go, hld, hge]
        · simp [get_layer_index_go, hld, hge]
    · have hrec := ih (start + 1) hr
      cases hld : layer.depth with
      | none =>
        simp only [get_layer_index_go, hld]
        omega
      | some ld =>
        by_cases hge : ld ≥ d
        · simp [get_layer_index_go, hld, hge]
        · simp only [get_layer_index_go, hld, if_neg hge]
          omega

/-- Destructuring a fixed point of the depth computation. -/
theorem calc_layer_depths_go_fixed (layer : SoilLayer) (rest : List SoilLayer) (prev : ℚ)
    (h : calc_layer_depths_go prev (layer :: rest) = some (layer :: rest)) :
    ∃ t, layer.thickness = some t ∧ layer.depth = some (prev + t) ∧
      calc_layer_depths_go (prev + t) rest = some rest := by
  cases ht : layer.thickness with
  | none => simp [calc_layer_depths_go, ht] at h
  | some t =>
    refine ⟨t, rfl, ?_, ?_⟩
    · simp only [calc_layer_depths_go, ht] at h
      cases hgo : calc_layer_depths_go (prev + t) rest with
      | none => rw [hgo] at h; simp at h
      | some rest2 =>
        rw [hgo] at h
        simp only [Option.map_some'] at h
        injection h with h
        injection h with h1 h2
        rw [← h1]
    · simp only [calc_layer_depths_go, ht] at h
      cases hgo : calc_layer_depths_go (prev + t) rest with
      | none => rw [hgo] at h; simp at h
      | some rest2 =>
        rw [hgo] at h
        simp only [Option.map_some'] at h
        injection h with h
        injection h with h1 h2
        rw [h2]

/-- Success of the stress loop yields a nonnegative stress, under computed
depths, positive thicknesses, nonnegative weights, and a query at or below
the running previous depth. -/
theorem calc_normal_stress_go_nonneg :
    ∀ (ls : List SoilLayer) (prev d gwt : ℚ) (i : Nat) (s : ℚ),
    calc_layer_depths_go prev ls = some ls →
    (∀ l ∈ ls, 0 < l.thickness.getD 0) →
    (∀ l ∈ ls, 0 ≤ l.dry_unit_weight.getD 0 ∧ 0 ≤ l.saturated_unit_weight.getD 0) →
    prev ≤ d →
    calc_normal_stress_go gwt d (get_layer_index_go d ls i) ls i prev = some s →
    0 ≤ s := by
  intro ls
  induction ls with
  | nil =>
    intro prev d gwt i s _ _ _ _ h
    simp only [calc_normal_stress_go] at h
    injection h with h
    rw [← h]
  | cons layer rest ih =>
    intro prev d gwt i s hfix hpos hw hpd h
    obtain ⟨t, ht, hdep, hfixr⟩ := calc_layer_depths_go_fixed layer rest prev hfix
    have htpos : 0 < t := by
      have := hpos layer (by simp)
      rw [ht] at this
      simpa using this
    have hwl := hw layer (by simp)
    by_cases hge : prev + t ≥ d
    · have hli : get_layer_index_go d (layer :: rest) i = i := by
        simp only [get_layer_index_go, hdep]
        rw [if_pos hge]
      rw [hli] at h
      simp [calc_normal_stress_go] at h
      rw [← h.2]
      exact stress_contribution_nonneg gwt prev (d - prev) _ _ (by linarith) hwl.1 hwl.2
    · have hli : get_layer_index_go d (layer :: rest) i =
          get_layer_index_go d rest (i + 1) := by
        simp only [get_layer_index_go, hdep]
        rw [if_neg hge]
      rw [hli] at h
      by_cases hr : rest = []
      · subst hr
        have hli2 : get_layer_index_go d ([] : List SoilLayer) (i + 1) = i := by
          simp [get_layer_index_go]
        rw [hli2] at h
        simp [calc_normal_stress_go] at h
        rw [← h.2]
        exact stress_contribution_nonneg gwt prev (d - prev) _ _ (by linarith) hwl.1 hwl.2
      · have hne : ¬ i = get_layer_index_go d rest (i + 1) := by
          have := get_layer_index_go_ge d rest (i + 1) hr
          omega
        simp only [calc_normal_stress_go, if_neg hne, ht] at h
        by_cases hbad : layer.dry_unit_weight.getD 0 ≤ 1 ∧
            layer.saturated_unit_weight.getD 0 ≤ 1
        · rw [if_pos hbad] at h
          cases h
        · rw [if_neg hbad] at h
          cases hrec : calc_normal_stress_go gwt d (get_layer_index_go d rest (i + 1))
              rest (i + 1) (prev + t) with
          | none => rw [hrec] at h; cases h
          | some s2 =>
            rw [hrec] at h
            simp only [Option.map_some'] at h
            injection h with h
            rw [← h]
            have hc := stress_contribution_nonneg gwt prev t _ _ (le_of_lt htpos) hwl.1 hwl.2
            have hs2 := ih (prev + t) d gwt (i + 1) s2 hfixr
              (fun l hl => hpos l (by simp [hl]))
              (fun l hl => hw l (by simp [hl]))
              (by linarith)
              hrec
            linarith

/-- The stress loop is monotone in the query depth, under computed depths,
positive thicknesses and nonnegative unit weights. -/
theorem calc_normal_stress_go_mono :
    ∀ (ls : List SoilLayer) (prev d1 d2 gwt : ℚ) (i : Nat) (s1 s2 : ℚ),
    calc_layer_depths_go prev ls = some ls →
    (∀ l ∈ ls, 0 < l.thickness.getD 0) →
    (∀ l ∈ ls, 0 ≤ l.dry_unit_weight.getD 0 ∧ 0 ≤ l.saturated_unit_weight.getD 0) →
    prev ≤ d1 → d1 ≤ d2 →
    calc_normal_stress_go gwt d1 (get_layer_index_go d1 ls i) ls i prev = some s1 →
    calc_normal_stress_go gwt d2 (get_layer_index_go d2 ls i) ls i prev = some s2 →
    s1 ≤ s2 := by
  intro ls
  induction ls with
  | nil =>
    intro prev d1 d2 gwt i s1 s2 _ _ _ _ _ h1 h2
    simp only [calc_normal_stress_go] at h1 h2
    injection h1 with h1
    injection h2 with h2
    rw [← h1, ← h2]
  | cons layer rest ih =>
    intro prev d1 d2 gwt i s1 s2 hfix hpos hw hp1 h12 h1 h2
    obtain ⟨t, ht, hdep, hfixr⟩ := calc_layer_depths_go_fixed layer rest prev hfix
    have htpos : 0 < t := by
      have := hpos layer (by simp)
      rw [ht] at this
      simpa using this
    have hwl := hw layer (by simp)
    by_cases hge2 : prev + t ≥ d2
    · have hge1 : prev + t ≥ d1 := le_trans h12 hge2
      have hli1 : get_layer_index_go d1 (layer :: rest) i = i := by
        simp only [get_layer_index_go, hdep]
        rw [if_pos hge1]
      have hli2 : get_layer_index_go d2 (layer :: rest) i = i := by
        simp only [get_layer_index_go, hdep]
        rw [if_pos hge2]
      rw [hli1] at h1
      rw [hli2] at h2
      simp [calc_normal_stress_go] at h1 h2
      rw [← h1.2, ← h2.2]
      exact stress_contribution_mono gwt prev (d1 - prev) (d2 - prev) _ _
        (by linarith) (by linarith) hwl.1 hwl.2
    · by_cases hge1 : prev + t ≥ d1
      · have hli1 : get_layer_index_go d1 (layer :: rest) i = i := by
          simp only [get_layer_index_go, hdep]
          rw [if_pos hge1]
        have hli2 : get_layer_index_go d2 (layer :: rest) i =
            get_layer_index_go d2 rest (i + 1) := by
          simp only [get_layer_index_go, hdep]
          rw [if_neg hge2]
        rw [hli1] at h1
        simp [calc_normal_stress_go] at h1
        rw [hli2] at h2
        by_cases hr : rest = []
        · subst hr
          have hli2e : get_layer_index_go d2 ([] : List SoilLayer) (i + 1) = i := by
            simp [get_layer_index_go]
          rw [hli2e] at h2
          simp [calc_normal_stress_go] at h2
          rw [← h1.2, ← h2.2]
          exact stress_contribution_mono gwt prev (d1 - prev) (d2 - prev) _ _
            (by linarith) (by linarith) hwl.1 hwl.2
        · have hne : ¬ i = get_layer_index_go d2 rest (i + 1) := by
            have := get_layer_index_go_ge d2 rest (i + 1) hr
            omega
          simp only [calc_normal_stress_go, if_neg hne, ht] at h2
          by_cases hbad : layer.dry_unit_weight.getD 0 ≤ 1 ∧
              layer.saturated_unit_weight.getD 0 ≤ 1
          · rw [if_pos hbad] at h2
            cases h2
          · rw [if_neg hbad] at h2
            cases hrec : calc_normal_stress_go gwt d2 (get_layer_index_go d2 rest (i + 1))
                rest (i + 1) (prev + t) with
            | none => rw [hrec] at h2; cases h2
            | some s2r =>
              rw [hrec] at h2
              simp only [Option.map_some'] at h2
              injection h2 with h2
              have hs2r : 0 ≤ s2r := calc_normal_stress_go_nonneg rest (prev + t) d2 gwt
                (i + 1) s2r hfixr
                (fun l hl => hpos l (by simp [hl]))
                (fun l hl => hw l (by simp [hl]))
                (by have := not_le.mp hge2; linarith)
                hrec
              have hcm : stress_contribution gwt prev (d1 - prev)
                  (layer.dry_unit_weight.getD 0) (layer.saturated_unit_weight.getD 0) ≤
                  stress_contribution gwt prev t
                  (layer.dry_unit_weight.getD 0) (layer.saturated_unit_weight.getD 0) :=
                stress_contribution_mono gwt prev (d1 - prev) t _ _
                  (by linarith) (by linarith) hwl.1 hwl.2
              rw [← h1.2, ← h2]
              linarith
      · have hli1 : get_layer_index_go d1 (layer :: rest) i =
            get_layer_index_go d1 rest (i + 1) := by
          simp only [get_layer_index_go, hdep]
          rw [if_neg hge1]
        have hli2 : get_layer_index_go d2 (layer :: rest) i =
            get_layer_index_go d2 rest (i + 1) := by
          simp only [get_layer_index_go, hdep]
          rw [if_neg hge2]
        rw [hli1] at h1
        rw [hli2] at h2
        by_cases hr : rest = []
        · subst hr
          have he1 : get_layer_index_go d1 ([] : List SoilLayer) (i + 1) = i := by
            simp [get_layer_index_go]
          have he2 : get_layer_index_go d2 ([] : List SoilLayer) (i + 1) = i := by
            simp [get_layer_index_go]
          rw [he1] at h1
          rw [he2] at h2
          simp [calc_normal_stress_go] at h1 h2
          rw [← h1.2, ← h2.2]
          exact stress_contribution_mono gwt prev (d1 - prev) (d2 - prev) _ _
            (by linarith) (by linarith) hwl.1 hwl.2
        · have hne1 : ¬ i = get_layer_index_go d1 rest (i + 1) := by
            have := get_layer_index_go_ge d1 rest (i + 1) hr
            omega
          have hne2 : ¬ i = get_layer_index_go d2 rest (i + 1) := by
            have := get_layer_index_go_ge d2 rest (i + 1) hr
            omega
          simp only [calc_normal_stress_go, if_neg hne1, ht] at h1
          simp only [calc_normal_stress_go, if_neg hne2, ht] at h2
          by_cases hbad : layer.dry_unit_weight.getD 0 ≤ 1 ∧
              layer.saturated_unit_weight.getD 0 ≤ 1
          · rw [if_pos hbad] at h1
            cases h1
          · rw [if_neg hbad] at h1
            rw [if_neg hbad] at h2
            cases hrec1 : calc_normal_stress_go gwt d1 (get_layer_index_go d1 rest (i + 1))
                rest (i + 1) (prev + t) with
            | none => rw [hrec1] at h1; cases h1
            | some s1r =>
              cases hrec2 : calc_normal_stress_go gwt d2 (get_layer_index_go d2 rest (i + 1))
                  rest (i + 1) (prev + t) with
              | none => rw [hrec2] at h2; cases h2
              | some s2r =>
                rw [hrec1] at h1
                rw [hrec2] at h2
                simp only [Option.map_some'] at h1 h2
                injection h1 with h1
                injection h2 with h2
                have hrecle := ih (prev + t) d1 d2 gwt (i + 1) s1r s2r hfixr
                  (fun l hl => hpos l (by simp [hl]))
                  (fun l hl => hw l (by simp [hl]))
                  (by have := not_le.mp hge1; linarith) h12 hrec1 hrec2
                rw [← h1, ← h2]
                linarith

/-- C3: on a profile whose layer depths are computed (a fixed point of
`calc_layer_depths`) with positive layer thicknesses and nonnegative unit
weights, `calc_normal_stress` is non-decreasing in the query depth over
nonnegative depths, and any value it returns at depth 0 is 0. -/
theorem calc_normal_stress_monotone_zero (sp : SoilProfile) (d1 d2 : ℚ)
    (hfix : sp.calc_layer_depths = some sp)
    (hpos : ∀ l ∈ sp.layers, 0 < l.thickness.getD 0)
    (hw : ∀ l ∈ sp.layers, 0 ≤ l.dry_unit_weight.getD 0 ∧
      0 ≤ l.saturated_unit_weight.getD 0)
    (h01 : 0 ≤ d1) (h12 : d1 ≤ d2) :
    (∀ s1 s2, sp.calc_normal_stress d1 = some s1 →
      sp.calc_normal_stress d2 = some s2 → s1 ≤ s2) ∧
    (∀ s0, sp.calc_normal_stress 0 = some s0 → s0 = 0) := by
  have hfix0 : calc_layer_depths_go 0 sp.layers = some sp.layers := by
    by_cases hemp : sp.layers = []
    · rw [hemp]
      rfl
    · simp only [SoilProfile.calc_layer_depths, if_neg hemp] at hfix
      cases hgo : calc_layer_depths_go 0 sp.layers with
      | none => rw [hgo] at hfix; simp at hfix
      | some ls2 =>
        rw [hgo] at hfix
        simp only [Option.map_some'] at hfix
        injection hfix with hfix
        have h2 : ls2 = sp.layers := congrArg SoilProfile.layers hfix
        rw [h2]
  constructor
  · intro s1 s2 h1 h2
    cases hgwl : sp.ground_water_level with
    | none =>
      rw [SoilProfile.calc_normal_stress, hgwl] at h1
      cases h1
    | some gwt =>
      rw [SoilProfile.calc_normal_stress, hgwl] at h1 h2
      simp only [SoilProfile.get_layer_index] at h1 h2
      exact calc_normal_stress_go_mono sp.layers 0 d1 d2 gwt 0 s1 s2 hfix0 hpos hw
        h01 h12 h1 h2
  · intro s0 h0
    cases hgwl : sp.ground_water_level with
    | none =>
      rw [SoilProfile.calc_normal_stress, hgwl] at h0
      cases h0
    | some gwt =>
      rw [SoilProfile.calc_normal_stress, hgwl] at h0
      simp only [SoilProfile.get_layer_index] at h0
      cases hls : sp.layers with
      | nil =>
        rw [hls] at h0
        simp [calc_normal_stress_go] at h0
        exact h0.symm
      | cons layer rest =>
        rw [hls] at h0
        have hfix1 : calc_layer_depths_go 0 (layer :: rest) = some (layer :: rest) := by
          rw [← hls]
          exact hfix0
        obtain ⟨t, ht, hdep, hfixr⟩ := calc_layer_depths_go_fixed layer rest 0 hfix1
        have htpos : 0 < t := by
          have := hpos layer (by rw [hls]; simp)
          rw [ht] at this
          simpa using this
        have hli : get_layer_index_go 0 (layer :: rest) 0 = 0 := by
          simp only [get_layer_index_go, hdep]
          rw [if_pos (by linarith : (0 : ℚ) + t ≥ 0)]
        rw [hli] at h0
        simp [calc_normal_stress_go] at h0
        rw [← h0.2]
        simp [stress_contribution_zero]

/-- C3, witness: the monotonicity and the zero anchor on the concrete computed
profile `exProfile1` between depths 1 and 2. -/
theorem calc_normal_stress_monotone_zero_witness :
    (∀ s1 s2, exProfile1.calc_normal_stress 1 = some s1 →
      exProfile1.calc_normal_stress 2 = some s2 → s1 ≤ s2) ∧
    (∀ s0, exProfile1.calc_normal_stress 0 = some s0 → s0 = 0) :=
  calc_normal_stress_monotone_zero exProfile1 1 2
    (by norm_num [exProfile1, SoilProfile.calc_layer_depths, calc_layer_depths_go])
    (by norm_num [exProfile1])
    (by norm_num [exProfile1])
    (by norm_num) (by norm_num)

end SoilRust
